import Mathlib

/-!
# Streaming tool-call assembly of the OpenRouter stream wrapper

A shallow embedding of `src/llm/openrouter.go`: the stream wrapper
`openRouterStreamWrapper` and its `Recv` method, which rebuilds tool calls
from the fragments a provider streams.

Conventions of the embedding.

* Go `string` values are Lean `String`s; the empty string is `""`.
* A `*ToolCall` is an address into `heap`, the list of `ToolCall` objects the
  wrapper has allocated with `&ToolCall{...}` (address = position, objects are
  never freed).  `currentToolCall` and the values of `toolCallBuffer` are such
  addresses, so that aliasing between the map and the active reference is the
  one the Go program has.
* `map[string]*ToolCall` is an association list with at most one entry per key.
* A slice that may be `nil` is an `Option (List _)`, `none` being `nil`.
* The field `Type` of a tool call is spelled `Type_`.
* `json.Unmarshal(data, &args) == nil` for `args : map[string]interface{}` is a
  parameter `parse : String → Bool` of the wrapper's functions, so that what is
  proved for every `parse` holds for Go's decoder.  `jsonUnmarshalMapOk` is the
  instance used for concrete documents; it follows the scanner of Go's
  `encoding/json`.
* `w.stream.Recv()` is the environment: its result is an argument of `Recv`.
-/

namespace llm

/-! ## JSON acceptance (`encoding/json`) -/

namespace Json

/-- Entries of the scanner's `parseState` stack. -/
inductive ParseState where
  | parseObjectKey
  | parseObjectValue
  | parseArrayValue
  deriving DecidableEq, Repr

/-- The scanner's `step` functions. -/
inductive Step where
  | beginValueOrEmpty
  | beginValue
  | beginStringOrEmpty
  | beginString
  | endValue
  | endTop
  | inString
  | inStringEsc
  | inStringEscU
  | inStringEscU1
  | inStringEscU12
  | inStringEscU123
  | neg
  | one
  | zero
  | dot
  | dot0
  | e
  | eSign
  | e0
  | t
  | tr
  | tru
  | f
  | fa
  | fal
  | fals
  | n
  | nu
  | nul
  deriving DecidableEq, Repr

/-- The scanner: current step function, nesting stack (innermost first) and
the `endTop` flag. -/
structure Scanner where
  step : Step
  parseState : List ParseState
  endTop : Bool
  deriving DecidableEq, Repr

/-- Nesting limit of the scanner. -/
def maxNestingDepth : Nat := 10000

def isSpace (c : Char) : Bool :=
  c == ' ' || c == '\t' || c == '\r' || c == '\n'

def isDigit (c : Char) : Bool :=
  '0' ≤ c && c ≤ '9'

def isHex (c : Char) : Bool :=
  ('0' ≤ c && c ≤ '9') || ('a' ≤ c && c ≤ 'f') || ('A' ≤ c && c ≤ 'F')

/-- Function `pushParseState`: push and fail beyond the nesting limit. -/
def pushParseState (s : Scanner) (p : ParseState) (next : Step) : Option Scanner :=
  if s.parseState.length + 1 ≤ maxNestingDepth then
    some { s with step := next, parseState := p :: s.parseState }
  else none

/-- Function `stateEndTop`: only white space may follow the top-level value. -/
def stateEndTop (s : Scanner) (c : Char) : Option Scanner :=
  if isSpace c then some s else none

/-- Function `stateEndValue`, with `popParseState` inlined. -/
def stateEndValue (s : Scanner) (c : Char) : Option Scanner :=
  match s.parseState with
  | [] => stateEndTop { s with step := .endTop, endTop := true } c
  | ps :: rest =>
    if isSpace c then some { s with step := .endValue }
    else
      match ps with
      | .parseObjectKey =>
        if c == ':' then
          some { s with step := .beginValue, parseState := .parseObjectValue :: rest }
        else none
      | .parseObjectValue =>
        if c == ',' then
          some { s with step := .beginString, parseState := .parseObjectKey :: rest }
        else if c == '}' then
          some { step := if rest.isEmpty then .endTop else .endValue
                 parseState := rest
                 endTop := s.endTop || rest.isEmpty }
        else none
      | .parseArrayValue =>
        if c == ',' then some { s with step := .beginValue }
        else if c == ']' then
          some { step := if rest.isEmpty then .endTop else .endValue
                 parseState := rest
                 endTop := s.endTop || rest.isEmpty }
        else none

/-- Function `stateBeginValue`. -/
def stateBeginValue (s : Scanner) (c : Char) : Option Scanner :=
  if isSpace c then some s
  else if c == '{' then pushParseState s .parseObjectKey .beginStringOrEmpty
  else if c == '[' then pushParseState s .parseArrayValue .beginValueOrEmpty
  else if c == '"' then some { s with step := .inString }
  else if c == '-' then some { s with step := .neg }
  else if c == '0' then some { s with step := .zero }
  else if c == 't' then some { s with step := .t }
  else if c == 'f' then some { s with step := .f }
  else if c == 'n' then some { s with step := .n }
  else if '1' ≤ c && c ≤ '9' then some { s with step := .one }
  else none

/-- Function `stateBeginString`. -/
def stateBeginString (s : Scanner) (c : Char) : Option Scanner :=
  if isSpace c then some s
  else if c == '"' then some { s with step := .inString }
  else none

/-- Expect one letter of a literal `true`, `false` or `null`. -/
def expect (s : Scanner) (c want : Char) (next : Step) : Option Scanner :=
  if c == want then some { s with step := next } else none

/-- One step of the scanner on the next character; `none` is `scanError`. -/
def step (s : Scanner) (c : Char) : Option Scanner :=
  match s.step with
  | .beginValueOrEmpty =>
    if isSpace c then some s
    else if c == ']' then stateEndValue s c
    else stateBeginValue s c
  | .beginValue => stateBeginValue s c
  | .beginStringOrEmpty =>
    if isSpace c then some s
    else if c == '}' then
      stateEndValue { s with parseState := .parseObjectValue :: s.parseState.tail } c
    else stateBeginString s c
  | .beginString => stateBeginString s c
  | .endValue => stateEndValue s c
  | .endTop => stateEndTop s c
  | .inString =>
    if c == '"' then some { s with step := .endValue }
    else if c == '\\' then some { s with step := .inStringEsc }
    else if c.toNat < 0x20 then none
    else some s
  | .inStringEsc =>
    if c == 'b' || c == 'f' || c == 'n' || c == 'r' || c == 't' || c == '\\' || c == '/'
        || c == '"' then
      some { s with step := .inString }
    else if c == 'u' then some { s with step := .inStringEscU }
    else none
  | .inStringEscU => if isHex c then some { s with step := .inStringEscU1 } else none
  | .inStringEscU1 => if isHex c then some { s with step := .inStringEscU12 } else none
  | .inStringEscU12 => if isHex c then some { s with step := .inStringEscU123 } else none
  | .inStringEscU123 => if isHex c then some { s with step := .inString } else none
  | .neg =>
    if c == '0' then some { s with step := .zero }
    else if '1' ≤ c && c ≤ '9' then some { s with step := .one }
    else none
  | .one =>
    if isDigit c then some s
    else if c == '.' then some { s with step := .dot }
    else if c == 'e' || c == 'E' then some { s with step := .e }
    else stateEndValue s c
  | .zero =>
    if c == '.' then some { s with step := .dot }
    else if c == 'e' || c == 'E' then some { s with step := .e }
    else stateEndValue s c
  | .dot => if isDigit c then some { s with step := .dot0 } else none
  | .dot0 =>
    if isDigit c then some s
    else if c == 'e' || c == 'E' then some { s with step := .e }
    else stateEndValue s c
  | .e =>
    if c == '+' || c == '-' then some { s with step := .eSign }
    else if isDigit c then some { s with step := .e0 }
    else none
  | .eSign => if isDigit c then some { s with step := .e0 } else none
  | .e0 => if isDigit c then some s else stateEndValue s c
  | .t => expect s c 'r' .tr
  | .tr => expect s c 'u' .tru
  | .tru => expect s c 'e' .endValue
  | .f => expect s c 'a' .fa
  | .fa => expect s c 'l' .fal
  | .fal => expect s c 's' .fals
  | .fals => expect s c 'e' .endValue
  | .n => expect s c 'u' .nu
  | .nu => expect s c 'l' .nul
  | .nul => expect s c 'l' .endValue

/-- The scanner after `reset`. -/
def reset : Scanner :=
  { step := .beginValue, parseState := [], endTop := false }

/-- Run the scanner over the input, stopping at the first error. -/
def scan : Scanner → List Char → Option Scanner
  | s, [] => some s
  | s, c :: cs =>
    match step s c with
    | some s1 => scan s1 cs
    | none => none

/-- Function `eof`: the input may end here when the top-level value is
complete, possibly after one more delimiter. -/
def eof (s : Scanner) : Bool :=
  if s.endTop then true
  else
    match step s ' ' with
    | some s1 => s1.endTop
    | none => false

/-- Function `checkValid`: the text is one well-formed JSON value. -/
def checkValid (data : List Char) : Bool :=
  match scan reset data with
  | some s => eof s
  | none => false

/-- The top-level value starts an object or is the literal `null`: the two
kinds of value that decode into a Go map without a type error. -/
def topLevelFitsMap (data : List Char) : Bool :=
  match data.dropWhile isSpace with
  | '{' :: _ => true
  | 'n' :: _ => true
  | _ => false

/-- Characters a number literal is made of. -/
def isNumberChar (c : Char) : Bool :=
  isDigit c || c == '-' || c == '+' || c == '.' || c == 'e' || c == 'E'

/-- The number literals of a well-formed text, in order: the maximal runs of
number characters outside string literals that start with `-` or a digit.
`inStr` and `esc` track string literals and escapes, `cur` is the run being
read (reversed). -/
def numberLiterals : List Char → Bool → Bool → Option (List Char) → List (List Char)
  | [], _, _, cur => (cur.map List.reverse).toList
  | _ :: cs, true, true, cur => numberLiterals cs true false cur
  | c :: cs, true, false, cur =>
    if c == '"' then numberLiterals cs false false cur
    else if c == '\\' then numberLiterals cs true true cur
    else numberLiterals cs true false cur
  | c :: cs, false, _, some run =>
    if isNumberChar c then numberLiterals cs false false (some (c :: run))
    else run.reverse :: numberLiterals cs (c == '"') false none
  | c :: cs, false, _, none =>
    if isDigit c || c == '-' then numberLiterals cs false false (some [c])
    else numberLiterals cs (c == '"') false none

/-- Value of a run of decimal digits. -/
def digitsValue (ds : List Char) : Nat :=
  ds.foldl (fun acc c => 10 * acc + (c.toNat - '0'.toNat)) 0

/-- Smallest magnitude that rounds to infinity in `float64`:
`2^1024 - 2^970`, written out. -/
def float64Overflow : Nat :=
  179769313486231580793728971405303415079934132710037826936173778980444968292764750946649017977587207096330286416692887910946555547851940402630657488671505820681908902000708383676273854845817711531764475730270069855571366959622842914819860834936475292719074168444365510704342711559699508093042880177904174497792

/-- A number literal converts to a finite `float64` (`strconv.ParseFloat`
reports no range error): with integer digits `i`, fraction digits `f` and
exponent `x`, the magnitude `i.f * 10^x` is below the overflow threshold. -/
def numberFitsFloat64 (lit : List Char) : Bool :=
  let body := lit.dropWhile (· == '-')
  let mant := body.takeWhile (fun c => c != 'e' && c != 'E')
  let expo := (body.dropWhile (fun c => c != 'e' && c != 'E')).drop 1
  let intDigits := mant.takeWhile (· != '.')
  let fracDigits := (mant.dropWhile (· != '.')).drop 1
  let m := digitsValue (intDigits ++ fracDigits)
  let expNeg := expo.head? == some '-'
  let x := digitsValue (expo.dropWhile (fun c => c == '-' || c == '+'))
  -- magnitude = m * 10^(±x - fracDigits.length)
  if expNeg then
    decide (m < float64Overflow * 10 ^ (x + fracDigits.length))
  else if fracDigits.length ≤ x then
    decide (m * 10 ^ (x - fracDigits.length) < float64Overflow)
  else
    decide (m < float64Overflow * 10 ^ (fracDigits.length - x))

end Json

/-- Acceptance by `json.Unmarshal(data, &args)` with
`args : map[string]interface{}`: the call returns a nil error exactly when
the text is one well-formed JSON value (`checkValid`), the value is an object
or `null`, and every number in it converts to a finite `float64`. -/
def jsonUnmarshalMapOk (data : String) : Bool :=
  Json.checkValid data.data && Json.topLevelFitsMap data.data
    && (Json.numberLiterals data.data false false none).all Json.numberFitsFloat64

/-- The text is a JSON object document: one well-formed JSON value whose
top-level value is an object. -/
def jsonObjectDocument (data : String) : Bool :=
  Json.checkValid data.data &&
    match data.data.dropWhile Json.isSpace with
    | '{' :: _ => true
    | _ => false

/-- The text is the JSON literal `null`, white space around it allowed. -/
def jsonNullDocument (data : String) : Bool :=
  match data.data.dropWhile Json.isSpace with
  | 'n' :: 'u' :: 'l' :: 'l' :: rest => rest.all Json.isSpace
  | _ => false


/-! ## Data model -/

/-- The provider's error values as `Recv` tells them apart: `io.EOF`, an
`*openai.APIError` (`Code` as `%s` renders it, `Message`, and the text of its
`Error` method), any other error with its text, and an error made by
`fmt.Errorf` with `%w`, which has a text and unwraps to the error it wraps. -/
inductive GoError where
  | EOF
  | APIError (Code : String) (Message : String) (text : String)
  | other (text : String)
  | wrap (text : String) (inner : GoError)
  deriving DecidableEq, Repr

namespace GoError

/-- Method `Error`: the text of an error. -/
def Error : GoError → String
  | .EOF => "EOF"
  | .APIError _ _ text => text
  | .other text => text
  | .wrap text _ => text

/-- Call `errors.As(err, &apiErr)` for `apiErr : *openai.APIError`: the first
API error on the unwrap chain, as its code and message. -/
def asAPIError : GoError → Option (String × String)
  | .EOF => none
  | .APIError code message _ => some (code, message)
  | .other _ => none
  | .wrap _ inner => asAPIError inner

end GoError

end llm

namespace openai

/-- Type `openai.FunctionCall`. -/
structure FunctionCall where
  Name : String
  Arguments : String
  deriving DecidableEq, Repr

/-- Type `openai.ToolCall`, one tool-call fragment of a stream delta. -/
structure ToolCall where
  Index : Option Int
  ID : String
  Type_ : String
  Function : FunctionCall
  deriving DecidableEq, Repr

/-- Type `openai.ChatCompletionStreamChoiceDelta`. -/
structure ChatCompletionStreamChoiceDelta where
  Content : String
  Role : String
  ToolCalls : List ToolCall
  deriving DecidableEq, Repr

/-- Type `openai.ChatCompletionStreamChoice`. -/
structure ChatCompletionStreamChoice where
  Index : Int
  Delta : ChatCompletionStreamChoiceDelta
  FinishReason : String
  deriving DecidableEq, Repr

/-- Type `openai.ChatCompletionStreamResponse`, one chunk of the stream. -/
structure ChatCompletionStreamResponse where
  ID : String
  Choices : List ChatCompletionStreamChoice
  deriving DecidableEq, Repr

end openai

namespace llm

/-- Type `ToolCallFunction`. -/
structure ToolCallFunction where
  Name : String
  Arguments : String
  deriving DecidableEq, Repr

/-- Type `ToolCall` of package `llm`. -/
structure ToolCall where
  ID : String
  Type_ : String
  Function : ToolCallFunction
  deriving DecidableEq, Repr

/-- Type `Message`; `ToolCalls` is `none` for a nil slice. -/
structure Message where
  Role : String
  Content : String
  Name : String
  ToolCalls : Option (List ToolCall)
  deriving DecidableEq, Repr

/-- Type `Choice`. -/
structure Choice where
  Index : Int
  Message : Message
  FinishReason : String
  deriving DecidableEq, Repr

/-- Type `Usage`. -/
structure Usage where
  PromptTokens : Int
  CompletionTokens : Int
  TotalTokens : Int
  deriving DecidableEq, Repr

/-- Type `ChatCompletionResponse`; `Choices` is `none` for a nil slice. -/
structure ChatCompletionResponse where
  ID : String
  Choices : Option (List Choice)
  Usage : Usage
  deriving DecidableEq, Repr

/-- The zero value `ChatCompletionResponse{}`. -/
def zeroResponse : ChatCompletionResponse :=
  { ID := "", Choices := none, Usage := { PromptTokens := 0, CompletionTokens := 0, TotalTokens := 0 } }

/-- Elements of a possibly nil slice. -/
def elems {α : Type} : Option (List α) → List α
  | none => []
  | some l => l

/-! ## The stream wrapper -/

/-- Type `openRouterStreamWrapper`: the assembler state.  `heap` holds the
`ToolCall` objects allocated so far; `currentToolCall` and the values of
`toolCallBuffer` are addresses into it.  The `stream` field is the
environment and is passed to `Recv` as the result of `stream.Recv()`. -/
structure openRouterStreamWrapper where
  heap : List ToolCall
  currentToolCall : Option Nat
  toolCallBuffer : List (String × Nat)
  deriving DecidableEq, Repr

/-- Function `newOpenRouterStreamWrapper`: empty map, nil active reference. -/
def newOpenRouterStreamWrapper : openRouterStreamWrapper :=
  { heap := [], currentToolCall := none, toolCallBuffer := [] }

/-- Map read `m[k]`. -/
def mapGet (m : List (String × Nat)) (k : String) : Option Nat :=
  m.lookup k

/-- Builtin `delete(m, k)`. -/
def mapDelete (m : List (String × Nat)) (k : String) : List (String × Nat) :=
  m.filter (fun e => e.1 != k)

/-- Map write `m[k] = p`. -/
def mapSet (m : List (String × Nat)) (k : String) (p : Nat) : List (String × Nat) :=
  (k, p) :: mapDelete m k

/-- Statement `t.Function.Name = name`. -/
def ToolCall.setName (t : ToolCall) (name : String) : ToolCall :=
  { t with Function := { t.Function with Name := name } }

/-- Statement `t.Function.Arguments += fragment`. -/
def ToolCall.appendArguments (t : ToolCall) (fragment : String) : ToolCall :=
  { t with Function := { t.Function with Arguments := t.Function.Arguments ++ fragment } }

/-- Lines 204-211 of `Recv`: the buffer allocated for a fragment whose id has
no buffer yet. -/
def newToolCall (tc : openai.ToolCall) : ToolCall :=
  { ID := tc.ID, Type_ := tc.Type_, Function := { Name := tc.Function.Name, Arguments := "" } }

/-- Lines 216-227 of `Recv`: a fragment applied to the buffer at address `p`
(found in the map, or just created).  A non-empty name overwrites the buffered
name; non-empty arguments are appended and the result is parsed; on success
the call is appended to the message (second component), its map entry deleted
and the active reference set to nil. -/
def applyFragment (parse : String → Bool) (w : openRouterStreamWrapper) (p : Nat)
    (tc : openai.ToolCall) : openRouterStreamWrapper × List ToolCall :=
  match w.heap[p]? with
  | none => (w, [])
  | some toolCall =>
    let named : ToolCall :=
      if tc.Function.Name ≠ "" then toolCall.setName tc.Function.Name else toolCall
    if tc.Function.Arguments ≠ "" then
      let grown : ToolCall := named.appendArguments tc.Function.Arguments
      if parse grown.Function.Arguments then
        ({ heap := w.heap.set p grown
           currentToolCall := none
           toolCallBuffer := mapDelete w.toolCallBuffer tc.ID }, [grown])
      else ({ w with heap := w.heap.set p grown }, [])
    else ({ w with heap := w.heap.set p named }, [])

/-- Lines 190-227 of `Recv`: the body of the loop over `c.Delta.ToolCalls`,
for one fragment.  Returns the new state and the calls appended to
`message.ToolCalls` by this fragment. -/
def recvToolCall (parse : String → Bool) (w : openRouterStreamWrapper)
    (tc : openai.ToolCall) : openRouterStreamWrapper × List ToolCall :=
  match mapGet w.toolCallBuffer tc.ID with
  | some p => applyFragment parse w p tc
  | none =>
    if tc.ID = "" then
      if tc.Function.Arguments ≠ "" then
        match w.currentToolCall with
        | none => (w, [])
        | some p =>
          match w.heap[p]? with
          | none => (w, [])
          | some cur =>
            let grown : ToolCall := cur.appendArguments tc.Function.Arguments
            if parse grown.Function.Arguments then
              ({ heap := w.heap.set p grown
                 currentToolCall := none
                 toolCallBuffer := mapDelete w.toolCallBuffer grown.ID }, [grown])
            else ({ w with heap := w.heap.set p grown }, [])
      else (w, [])
    else
      let toolCall : ToolCall := newToolCall tc
      let p := w.heap.length
      applyFragment parse
        { heap := w.heap ++ [toolCall]
          currentToolCall := some p
          toolCallBuffer := mapSet w.toolCallBuffer tc.ID p } p tc

/-- The loop over `c.Delta.ToolCalls` (lines 189-228): final state and the
calls appended to `message.ToolCalls`, in order. -/
def recvToolCalls (parse : String → Bool) :
    openRouterStreamWrapper → List openai.ToolCall → openRouterStreamWrapper × List ToolCall
  | w, [] => (w, [])
  | w, tc :: rest =>
    let r := recvToolCall parse w tc
    let r2 := recvToolCalls parse r.1 rest
    (r2.1, r.2 ++ r2.2)

/-- Lines 181-235 of `Recv`: one choice of the chunk.  `message.ToolCalls`
stays nil when the delta has no tool-call fragment. -/
def recvChoice (parse : String → Bool) (w : openRouterStreamWrapper)
    (c : openai.ChatCompletionStreamChoice) : openRouterStreamWrapper × Choice :=
  let r : openRouterStreamWrapper × Option (List ToolCall) :=
    if c.Delta.ToolCalls.length > 0 then
      let r := recvToolCalls parse w c.Delta.ToolCalls
      (r.1, some r.2)
    else (w, none)
  (r.1, { Index := c.Index
          Message := { Role := c.Delta.Role, Content := c.Delta.Content, Name := "", ToolCalls := r.2 }
          FinishReason := c.FinishReason })

/-- The loop over `resp.Choices` (lines 179-236). -/
def recvChoices (parse : String → Bool) :
    openRouterStreamWrapper → List openai.ChatCompletionStreamChoice →
      openRouterStreamWrapper × List Choice
  | w, [] => (w, [])
  | w, c :: rest =>
    let r := recvChoice parse w c
    let r2 := recvChoices parse r.1 rest
    (r2.1, r.2 :: r2.2)

/-- Method `Recv`.  `received` is what `w.stream.Recv()` returned.  The result
is the new wrapper state, the response and the error (`none` for nil). -/
def Recv (parse : String → Bool) (w : openRouterStreamWrapper)
    (received : Except GoError openai.ChatCompletionStreamResponse) :
    openRouterStreamWrapper × ChatCompletionResponse × Option GoError :=
  match received with
  | .error err =>
    if err = GoError.EOF then (w, zeroResponse, some err)
    else
      match err.asAPIError with
      | some (code, message) =>
        (w, zeroResponse, some (.other ("OpenRouter API error: " ++ code ++ " - " ++ message)))
      | none =>
        (w, zeroResponse, some (.wrap ("stream receive failed: " ++ err.Error) err))
  | .ok resp =>
    let r := recvChoices parse w resp.Choices
    (r.1, { ID := resp.ID, Choices := some r.2, Usage := zeroResponse.Usage }, none)

/-! ## Sessions: several `Recv` calls in a row -/

/-- Successive `Recv` calls on the chunks a stream delivers: final state and
the responses returned, in order. -/
def recvChunks (parse : String → Bool) :
    openRouterStreamWrapper → List openai.ChatCompletionStreamResponse →
      openRouterStreamWrapper × List ChatCompletionResponse
  | w, [] => (w, [])
  | w, chunk :: rest =>
    let r := Recv parse w (.ok chunk)
    let r2 := recvChunks parse r.1 rest
    (r2.1, r.2.1 :: r2.2)

/-- Tool calls a response hands to the caller, over all its choices. -/
def responseToolCalls (resp : ChatCompletionResponse) : List ToolCall :=
  (elems resp.Choices).flatMap (fun c => elems c.Message.ToolCalls)

/-- Tool calls handed to the caller over a sequence of responses. -/
def emittedToolCalls (resps : List ChatCompletionResponse) : List ToolCall :=
  resps.flatMap responseToolCalls

/-- Concatenation of strings, in order. -/
def concat : List String → String
  | [] => ""
  | s :: rest => s ++ concat rest

/-- Tool-call fragments of a chunk, in processing order. -/
def chunkFragments (chunk : openai.ChatCompletionStreamResponse) : List openai.ToolCall :=
  chunk.Choices.flatMap (fun c => c.Delta.ToolCalls)

/-- Tool-call fragments of a sequence of chunks, in processing order. -/
def streamFragments (chunks : List openai.ChatCompletionStreamResponse) : List openai.ToolCall :=
  chunks.flatMap chunkFragments

/-- The argument fragments carried for the call id `x`, in arrival order. -/
def fragmentArguments (x : String) (frags : List openai.ToolCall) : List String :=
  (frags.filter (fun f => f.ID = x)).map (fun f => f.Function.Arguments)

end llm

namespace llm

/-! ## States of a session -/

/-- The states a wrapper passes through: the fresh one, and the state after
each tool-call fragment processed by `Recv`. -/
inductive Reachable (parse : String → Bool) : openRouterStreamWrapper → Prop where
  | fresh : Reachable parse newOpenRouterStreamWrapper
  | fragment {w : openRouterStreamWrapper} (tc : openai.ToolCall) :
      Reachable parse w → Reachable parse (recvToolCall parse w tc).1

/-- Consistency of a wrapper state: every map entry points at an allocated
object that carries the entry's key as its id, no key is empty or repeated,
and the active reference, when set, points at an object that is in the map
under its own id. -/
structure Consistent (w : openRouterStreamWrapper) : Prop where
  entry : ∀ k p, (k, p) ∈ w.toolCallBuffer → ∃ o, w.heap[p]? = some o ∧ o.ID = k ∧ k ≠ ""
  keys : (w.toolCallBuffer.map Prod.fst).Nodup
  current : ∀ p, w.currentToolCall = some p →
    ∃ o, w.heap[p]? = some o ∧ mapGet w.toolCallBuffer o.ID = some p

/-- Lines 216-218 of `Recv`: the buffer after a fragment's name has been stored
(a non-empty name replaces the buffered one). -/
def named (o : ToolCall) (tc : openai.ToolCall) : ToolCall :=
  if tc.Function.Name ≠ "" then o.setName tc.Function.Name else o

/-- The arguments accumulated so far for the call id `x`: the arguments of
the buffer the map holds for `x`, and the empty string when it holds none. -/
def Accumulated (w : openRouterStreamWrapper) (x : String) (acc : String) : Prop :=
  (mapGet w.toolCallBuffer x = none ∧ acc = "") ∨
    ∃ p o, mapGet w.toolCallBuffer x = some p ∧ w.heap[p]? = some o ∧ o.Function.Arguments = acc

/-- The buffer a fragment's arguments go to, as an address: for a fragment
that carries an id, the buffer the map holds for that id or, when it holds
none, the buffer about to be created; for an id-less fragment, the active
buffer. -/
def target (w : openRouterStreamWrapper) (tc : openai.ToolCall) : Option Nat :=
  if tc.ID = "" then w.currentToolCall
  else
    match mapGet w.toolCallBuffer tc.ID with
    | some p => some p
    | none => some w.heap.length

/-- The argument fragments that go to the buffer at address `p` while the
fragments `frags` are processed from the state `w`, in arrival order. -/
def appendedTo (parse : String → Bool) (p : Nat) :
    openRouterStreamWrapper → List openai.ToolCall → List String
  | _, [] => []
  | w, tc :: rest =>
    (if target w tc = some p then [tc.Function.Arguments] else []) ++
      appendedTo parse p (recvToolCall parse w tc).1 rest

/-- The arguments of the object at address `p`, empty when nothing is
allocated there. -/
def argumentsAt (heap : List ToolCall) (p : Nat) : String :=
  match heap[p]? with
  | some o => o.Function.Arguments
  | none => ""

end llm

namespace openai

/-! ## Non-streaming responses -/

/-- Type `openai.ChatCompletionMessage`, with the fields the mapper reads. -/
structure ChatCompletionMessage where
  Role : String
  Content : String
  Name : String
  ToolCalls : List ToolCall
  deriving DecidableEq, Repr

/-- Type `openai.ChatCompletionChoice`. -/
structure ChatCompletionChoice where
  Index : Int
  Message : ChatCompletionMessage
  FinishReason : String
  deriving DecidableEq, Repr

/-- Type `openai.Usage`. -/
structure Usage where
  PromptTokens : Int
  CompletionTokens : Int
  TotalTokens : Int
  deriving DecidableEq, Repr

/-- Type `openai.ChatCompletionResponse`. -/
structure ChatCompletionResponse where
  ID : String
  Choices : List ChatCompletionChoice
  Usage : Usage
  deriving DecidableEq, Repr

end openai

namespace llm

/-- Function `convertFromOpenRouterMessage`: role, content and name are
copied; the tool calls stay nil. -/
def convertFromOpenRouterMessage (msg : openai.ChatCompletionMessage) : Message :=
  { Role := msg.Role, Content := msg.Content, Name := msg.Name, ToolCalls := none }

/-- Function `convertFromOpenRouterToolCalls`: nil for no tool call, else one
copied call for each provider call, in order. -/
def convertFromOpenRouterToolCalls (toolCalls : List openai.ToolCall) : Option (List ToolCall) :=
  if toolCalls.length = 0 then none
  else
    some (toolCalls.map fun call =>
      { ID := call.ID, Type_ := call.Type_
        Function := { Name := call.Function.Name, Arguments := call.Function.Arguments } })

/-- Method `CreateChatCompletion`, lines 125-150.  `received` is what
`o.client.CreateChatCompletion` returned for the converted request.  The
result is the response and the error (`none` for nil). -/
def CreateChatCompletion (received : Except GoError openai.ChatCompletionResponse) :
    ChatCompletionResponse × Option GoError :=
  match received with
  | .error err => (zeroResponse, some err)
  | .ok resp =>
    ({ ID := resp.ID
       Choices := some (resp.Choices.map fun c =>
         { Index := c.Index
           Message :=
             { convertFromOpenRouterMessage c.Message with
               ToolCalls := convertFromOpenRouterToolCalls c.Message.ToolCalls }
           FinishReason := c.FinishReason })
       Usage :=
         { PromptTokens := resp.Usage.PromptTokens
           CompletionTokens := resp.Usage.CompletionTokens
           TotalTokens := resp.Usage.TotalTokens } }, none)

/-- Method `CreateChatCompletionStream`, lines 263-272.  `opened` is what
`o.client.CreateChatCompletionStream` returned for the converted request: an
error, or a stream.  The result is the wrapper (`none` for nil) and the error
(`none` for nil). -/
def CreateChatCompletionStream (opened : Except GoError Unit) :
    Option openRouterStreamWrapper × Option GoError :=
  match opened with
  | .error err =>
    match err.asAPIError with
    | some (code, message) =>
      (none, some (.other ("OpenRouter API error: " ++ code ++ " - " ++ message)))
    | none => (none, some (.wrap ("stream creation failed: " ++ err.Error) err))
  | .ok _ => (some newOpenRouterStreamWrapper, none)

/-! ## Views of a session -/

/-- The content the caller receives for the choice index `i` over a sequence
of responses, one entry per message, in order. -/
def emittedContent (i : Int) (resps : List ChatCompletionResponse) : List String :=
  resps.flatMap fun r => ((elems r.Choices).filter (fun c => c.Index = i)).map
    (fun c => c.Message.Content)

/-- The content fragments the stream delivers for the choice index `i`, in
arrival order. -/
def receivedContent (i : Int) (chunks : List openai.ChatCompletionStreamResponse) :
    List String :=
  chunks.flatMap fun r => (r.Choices.filter (fun c => c.Index = i)).map
    (fun c => c.Delta.Content)

/-- The messages the caller receives for the choice index `i` over a sequence
of responses, in order. -/
def emittedMessages (i : Int) (resps : List ChatCompletionResponse) : List Message :=
  resps.flatMap fun r => ((elems r.Choices).filter (fun c => c.Index = i)).map
    (fun c => c.Message)

/-- The address `p` holds a buffer that is out of use: it is allocated, no
map entry points at it, and it is not the active buffer. -/
def Retired (w : openRouterStreamWrapper) (p : Nat) : Prop :=
  p < w.heap.length ∧ (∀ k, (k, p) ∉ w.toolCallBuffer) ∧ w.currentToolCall ≠ some p

end llm

namespace llm

/-- Function `convertToOpenRouterMessages`: the loop appends one converted
message for every message whose content is not empty. -/
def convertToOpenRouterMessages (messages : List Message) : List openai.ChatCompletionMessage :=
  messages.foldl
    (fun openRouterMessages msg =>
      if msg.Content = "" then openRouterMessages
      else openRouterMessages ++
        [{ Role := msg.Role, Content := msg.Content, Name := msg.Name, ToolCalls := [] }])
    []

/-- The state of a wrapper after successive `Recv` calls, whatever the stream
returned to each of them (a chunk or an error). -/
def recvAll (parse : String → Bool) :
    openRouterStreamWrapper → List (Except GoError openai.ChatCompletionStreamResponse) →
      openRouterStreamWrapper
  | w, [] => w
  | w, received :: rest => recvAll parse (Recv parse w received).1 rest

/-- No buffer of the map holds arguments that parse. -/
def Unparsed (parse : String → Bool) (w : openRouterStreamWrapper) : Prop :=
  ∀ k p, (k, p) ∈ w.toolCallBuffer → parse (argumentsAt w.heap p) = false

end llm

/-! ## The response cache of `examples/fileanalyzer3/llm` -/

namespace fileanalyzer3

/-- The package variables `cache` and `cacheLoaded`.  The map is `none` when
it is nil. -/
structure CacheState where
  cache : Option (List (String × String))
  cacheLoaded : Bool
  deriving DecidableEq, Repr

/-- The package variables at program start: an empty map, not loaded. -/
def initialCache : CacheState :=
  { cache := some [], cacheLoaded := false }

/-- What reading `CacheFile` and `json.Unmarshal(data, &cache)` do to the map:
nothing (the file cannot be read or is not JSON for a map), set it to nil (the
file holds `null`), or store entries in it. -/
inductive DiskCache where
  | unreadable
  | null
  | entries (kvs : List (String × String))
  deriving DecidableEq, Repr

/-- Map read `m[k]` on a possibly nil map. -/
def cacheGet (m : Option (List (String × String))) (k : String) : Option String :=
  match m with
  | none => none
  | some l => l.lookup k

/-- Map write `m[k] = v` on a map that is not nil. -/
def cacheStore (m : List (String × String)) (k v : String) : List (String × String) :=
  (k, v) :: m.filter (fun e => e.1 != k)

/-- Function `loadCache`: on the first call the cache file is merged into the
map, afterwards nothing happens. -/
def loadCache (disk : DiskCache) (s : CacheState) : CacheState :=
  if s.cacheLoaded then s
  else
    { cache :=
        match disk with
        | .unreadable => s.cache
        | .null => none
        | .entries kvs =>
          some (kvs.foldl (fun m e => cacheStore m e.1 e.2) (s.cache.getD []))
      cacheLoaded := true }

/-- Function `hashPrompt`; `sha1hex` is the hexadecimal SHA-1 digest. -/
def hashPrompt (sha1hex : String → String) (model prompt : String) : String :=
  sha1hex (model ++ "|" ++ prompt)

/-- What one `CachedCall` does: the package variables afterwards, the two
results, whether the call function was invoked, and whether `saveCache` and
`logPrompt` were run. -/
structure CallOutcome where
  state : CacheState
  response : String
  err : Option llm.GoError
  invoked : Bool
  saved : Bool
  deriving DecidableEq, Repr

/-- Function `CachedCall`, for calls made one after the other.  `disk` is what
the cache file holds, `s` the package variables before the call, `call` the
result of the call function on a prompt.  The result is `none` when the call
panics (assignment to an entry of a nil map). -/
def CachedCall (sha1hex : String → String) (disk : DiskCache) (s : CacheState)
    (model prompt apiType : String) (call : String → Except llm.GoError String) :
    Option CallOutcome :=
  let s1 := loadCache disk s
  let key := hashPrompt sha1hex (model ++ "|" ++ apiType) prompt
  match cacheGet s1.cache key with
  | some resp =>
    some { state := s1, response := resp, err := none, invoked := false, saved := false }
  | none =>
    match call prompt with
    | .error err =>
      some { state := s1, response := "", err := some err, invoked := true, saved := false }
    | .ok resp =>
      match s1.cache with
      | none => none
      | some m =>
        some { state := { s1 with cache := some (cacheStore m key resp) }
               response := resp, err := none, invoked := true, saved := true }

end fileanalyzer3

/-! ## `examples/fileanalyzer3/utils` -/

namespace utils

/-- The mapping function of `SanitizeFilename`. -/
def sanitizeRune (r : Char) : Char :=
  if r = '/' ∨ r = '\\' ∨ r = ' ' ∨ r = ':' ∨ r = '*' ∨ r = '?' ∨ r = '"' ∨ r = '<' ∨ r = '>'
      ∨ r = '|' then '_'
  else r

/-- Function `SanitizeFilename`: `strings.Map` applies the mapping function to
every character of the name. -/
def SanitizeFilename (name : String) : String :=
  name.map sanitizeRune

/-- The characters `SanitizeFilename` replaces. -/
def unsafeRunes : List Char :=
  ['/', '\\', ' ', ':', '*', '?', '"', '<', '>', '|']

/-- Class `\s` of the regular expression: `[\t\n\f\r ]`. -/
def reSpace (c : Char) : Bool :=
  c == '\t' || c == '\n' || c == '\x0c' || c == '\r' || c == ' '

/-- Class `\d` of the regular expression: `[0-9]`. -/
def reDigit (c : Char) : Bool :=
  '0' ≤ c && c ≤ '9'

/-- Match of a lower-case ASCII word at the start of the input, letter case
ignored as under `(?i)`; the rest of the input on success. -/
def matchFold : List Char → List Char → Option (List Char)
  | [], input => some input
  | _ :: _, [] => none
  | p :: ps, c :: cs => if c == p || c == p.toUpper then matchFold ps cs else none

/-- Call `chapterRE.MatchString(line)` for the expression
`(?i)^##\s*\**chapter\s*\d+.*`: the line starts with `##`, white space,
asterisks, the word `chapter` in any letter case, white space and a digit. -/
def chapterRE (line : String) : Bool :=
  match line.data with
  | '#' :: '#' :: rest =>
    match matchFold "chapter".data ((rest.dropWhile reSpace).dropWhile (· == '*')) with
    | some rest2 =>
      match rest2.dropWhile reSpace with
      | d :: _ => reDigit d
      | [] => false
    | none => false
  | _ => false

/-- Function `unicode.IsSpace`. -/
def isSpaceRune (c : Char) : Bool :=
  c == '\t' || c == '\n' || c == '\x0b' || c == '\x0c' || c == '\r' || c == ' '
    || c.toNat == 0x85 || c.toNat == 0xA0 || c.toNat == 0x1680
    || (0x2000 ≤ c.toNat && c.toNat ≤ 0x200A)
    || c.toNat == 0x2028 || c.toNat == 0x2029 || c.toNat == 0x202F || c.toNat == 0x205F
    || c.toNat == 0x3000

/-- Test `strings.TrimSpace(line) == ""`: the line is made of white space. -/
def isBlank (line : String) : Bool :=
  line.data.all isSpaceRune

/-- Call `strings.Split(plan, "\n")`, on the characters left to read; `cur` is
the line being read, reversed. -/
def splitNewline : List Char → List Char → List String
  | cur, [] => [String.mk cur.reverse]
  | cur, c :: cs =>
    if c = '\n' then String.mk cur.reverse :: splitNewline [] cs
    else splitNewline (c :: cur) cs

/-- Lines 19-28 of `ParseChapters`: the loop over the lines after a heading;
`sb` is the content of the builder. -/
def chapterLines : String → List String → String
  | sb, [] => sb
  | sb, line :: rest =>
    if chapterRE line then sb
    else if isBlank line && sb.length > 0 then sb
    else chapterLines (sb ++ line ++ "\n") rest

/-- Lines 13-31 of `ParseChapters`: the loop over the lines. -/
def parseLines : List String → List String
  | [] => []
  | line :: rest =>
    if chapterRE line then chapterLines (line ++ "\n") rest :: parseLines rest
    else parseLines rest

/-- Function `ParseChapters`. -/
def ParseChapters (plan : String) : List String :=
  parseLines (splitNewline [] plan.data)

/-- A chapter as the specification words it: the heading line followed by the
directly following lines up to, and not including, the next heading line or
the first line of white space, every line terminated by a newline. -/
def chapterOf (heading : String) (following : List String) : String :=
  llm.concat ((heading :: following.takeWhile (fun l => !chapterRE l && !isBlank l)).map
    (fun l => l ++ "\n"))

/-- The chapters of a list of lines as the specification words them: one for
every heading line, in order. -/
def chaptersOf : List String → List String
  | [] => []
  | line :: rest =>
    if chapterRE line then chapterOf line rest :: chaptersOf rest else chaptersOf rest

end utils

/-! ## `examples/fileanalyzer3/prompt` -/

namespace prompt

/-- The bytes of the text `"\n... [truncated]"`. -/
def truncatedMark : List Nat :=
  "\n... [truncated]".data.map Char.toNat

/-- Function `snippet`.  A text is the list of its bytes, `max` a Go `int`.
The result is `none` when the slice expression `text[:max]` panics. -/
def snippet (text : List Nat) (max : Int) : Option (List Nat) :=
  if (text.length : Int) > max then
    if 0 ≤ max then some (text.take max.toNat ++ truncatedMark) else none
  else some text

end prompt

namespace llm

/-! ## Lemmas on the map operations -/

theorem mapGet_eq_some_mem {m : List (String × Nat)} {k : String} {p : Nat}
    (h : mapGet m k = some p) : (k, p) ∈ m := by
  induction m with
  | nil => simp [mapGet] at h
  | cons e rest ih =>
    obtain ⟨k1, p1⟩ := e
    unfold mapGet at h ih
    rw [List.lookup_cons] at h
    by_cases hk : k = k1
    · subst hk
      simp at h
      simp [h]
    · have : (k == k1) = false := by simpa using hk
      rw [this] at h
      exact List.mem_cons_of_mem _ (ih h)

theorem mapGet_eq_none_iff {m : List (String × Nat)} {k : String} :
    mapGet m k = none ↔ ∀ p, (k, p) ∉ m := by
  induction m with
  | nil => simp [mapGet]
  | cons e rest ih =>
    obtain ⟨k1, p1⟩ := e
    unfold mapGet at ih ⊢
    rw [List.lookup_cons]
    by_cases hk : k = k1
    · subst hk
      simp only [beq_self_eq_true, reduceCtorEq, List.mem_cons, Prod.mk.injEq, true_and,
        not_or, false_iff, not_forall, not_and, not_not]
      exact ⟨p1, fun h => absurd rfl h⟩
    · have : (k == k1) = false := by simpa using hk
      rw [this]
      simp only [ih, List.mem_cons, Prod.mk.injEq, not_or, not_and]
      constructor
      · intro h p
        exact ⟨fun h1 => absurd h1 hk, h p⟩
      · intro h p
        exact (h p).2

theorem mem_mapGet_of_nodup {m : List (String × Nat)} {k : String} {p : Nat}
    (hnd : (m.map Prod.fst).Nodup) (h : (k, p) ∈ m) : mapGet m k = some p := by
  induction m with
  | nil => simp at h
  | cons e rest ih =>
    obtain ⟨k1, p1⟩ := e
    simp only [List.map_cons, List.nodup_cons, List.mem_map, Prod.exists, exists_and_right,
      exists_eq_right, not_exists] at hnd
    unfold mapGet at ih ⊢
    rw [List.lookup_cons]
    rcases List.mem_cons.1 h with h1 | h1
    · cases h1
      simp
    · have hk : k ≠ k1 := by
        rintro rfl
        exact hnd.1 p h1
      have : (k == k1) = false := by simpa using hk
      rw [this]
      exact ih hnd.2 h1

theorem mem_mapDelete {m : List (String × Nat)} {k : String} {e : String × Nat} :
    e ∈ mapDelete m k ↔ e ∈ m ∧ e.1 ≠ k := by
  simp [mapDelete]

theorem mapDelete_keys_nodup {m : List (String × Nat)} (k : String)
    (hnd : (m.map Prod.fst).Nodup) : ((mapDelete m k).map Prod.fst).Nodup := by
  unfold mapDelete
  exact (List.filter_sublist m).map Prod.fst |>.nodup hnd

theorem mapGet_mapDelete_self (m : List (String × Nat)) (k : String) :
    mapGet (mapDelete m k) k = none := by
  rw [mapGet_eq_none_iff]
  intro p hp
  exact (mem_mapDelete.1 hp).2 rfl

theorem mapGet_mapDelete_of_ne {m : List (String × Nat)} {k k1 : String} (h : k1 ≠ k) :
    mapGet (mapDelete m k) k1 = mapGet m k1 := by
  induction m with
  | nil => simp [mapDelete, mapGet]
  | cons e rest ih =>
    obtain ⟨k2, p2⟩ := e
    unfold mapDelete mapGet at ih ⊢
    by_cases hk : k2 = k
    · subst hk
      have h1 : (k1 == k2) = false := by simpa using h
      simp [List.filter_cons, List.lookup_cons, h1, ih]
    · have h2 : (k2 != k) = true := by simpa using hk
      simp only [List.filter_cons, h2, if_true, List.lookup_cons, ih]

theorem mapDelete_of_mapGet_none {m : List (String × Nat)} {k : String}
    (h : mapGet m k = none) : mapDelete m k = m := by
  unfold mapDelete
  rw [List.filter_eq_self]
  intro e he
  obtain ⟨k1, p1⟩ := e
  have := mapGet_eq_none_iff.1 h p1
  have hk : k1 ≠ k := by
    rintro rfl
    exact this he
  simpa using hk

theorem mapGet_mapSet_self (m : List (String × Nat)) (k : String) (p : Nat) :
    mapGet (mapSet m k p) k = some p := by
  simp [mapGet, mapSet, List.lookup_cons]

theorem mapGet_mapSet_of_ne {m : List (String × Nat)} {k k1 : String} (p : Nat) (h : k1 ≠ k) :
    mapGet (mapSet m k p) k1 = mapGet m k1 := by
  have h1 : (k1 == k) = false := by simpa using h
  have := mapGet_mapDelete_of_ne (m := m) h
  unfold mapGet at this ⊢
  simp only [mapSet, List.lookup_cons, h1, this]

end llm

namespace llm

/-! ## Consistency is preserved -/

theorem Consistent.of_fresh : Consistent newOpenRouterStreamWrapper where
  entry := by intro k p h; simp [newOpenRouterStreamWrapper] at h
  keys := by simp [newOpenRouterStreamWrapper]
  current := by intro p h; simp [newOpenRouterStreamWrapper] at h

theorem Consistent.mapGet_entry {w : openRouterStreamWrapper} (hw : Consistent w)
    {k : String} {p : Nat} (h : mapGet w.toolCallBuffer k = some p) :
    ∃ o, w.heap[p]? = some o ∧ o.ID = k ∧ k ≠ "" :=
  hw.entry k p (mapGet_eq_some_mem h)

theorem Consistent.mapGet_empty {w : openRouterStreamWrapper} (hw : Consistent w) :
    mapGet w.toolCallBuffer "" = none := by
  rw [mapGet_eq_none_iff]
  intro p hp
  obtain ⟨_, _, _, h⟩ := hw.entry "" p hp
  exact h rfl

/-- Overwriting an object by one with the same id keeps the state consistent. -/
theorem Consistent.set_heap {w : openRouterStreamWrapper} (hw : Consistent w)
    {p : Nat} {o o1 : ToolCall} (hp : w.heap[p]? = some o) (hid : o1.ID = o.ID) :
    Consistent { w with heap := w.heap.set p o1 } where
  entry := by
    intro k q hq
    obtain ⟨o2, h2, h3, h4⟩ := hw.entry k q hq
    by_cases hpq : p = q
    · subst hpq
      refine ⟨o1, ?_, ?_, h4⟩
      · have hlt : p < w.heap.length := by
          rcases List.getElem?_eq_some_iff.1 hp with ⟨h, _⟩
          exact h
        simp [List.getElem?_set, hlt]
      · rw [hid]
        rw [hp] at h2
        cases h2
        exact h3
    · exact ⟨o2, by simpa [List.getElem?_set, hpq] using h2, h3, h4⟩
  keys := hw.keys
  current := by
    intro q hq
    obtain ⟨o2, h2, h3⟩ := hw.current q hq
    by_cases hpq : p = q
    · subst hpq
      refine ⟨o1, ?_, ?_⟩
      · have hlt : p < w.heap.length := by
          rcases List.getElem?_eq_some_iff.1 hp with ⟨h, _⟩
          exact h
        simp [List.getElem?_set, hlt]
      · rw [hp] at h2
        cases h2
        rw [hid]
        exact h3
    · exact ⟨o2, by simpa [List.getElem?_set, hpq] using h2, h3⟩

/-- Deleting a key and clearing the active reference keeps the state
consistent. -/
theorem Consistent.delete {w : openRouterStreamWrapper} (hw : Consistent w) (k : String) :
    Consistent { heap := w.heap, currentToolCall := none,
                 toolCallBuffer := mapDelete w.toolCallBuffer k } where
  entry := by
    intro k1 q hq
    exact hw.entry k1 q (mem_mapDelete.1 hq).1
  keys := mapDelete_keys_nodup k hw.keys
  current := by intro p h; simp at h

/-- Allocating a buffer for an id that is not in the map keeps the state
consistent. -/
theorem Consistent.create {w : openRouterStreamWrapper} (hw : Consistent w)
    {o : ToolCall} (hne : o.ID ≠ "") (hnone : mapGet w.toolCallBuffer o.ID = none) :
    Consistent { heap := w.heap ++ [o], currentToolCall := some w.heap.length,
                 toolCallBuffer := mapSet w.toolCallBuffer o.ID w.heap.length } where
  entry := by
    intro k q hq
    simp only [mapSet, mapDelete_of_mapGet_none hnone, List.mem_cons, Prod.mk.injEq] at hq
    rcases hq with ⟨rfl, rfl⟩ | hq
    · exact ⟨o, by simp, rfl, hne⟩
    · obtain ⟨o2, h2, h3, h4⟩ := hw.entry k q hq
      refine ⟨o2, ?_, h3, h4⟩
      have hlt : q < w.heap.length := by
        rcases List.getElem?_eq_some_iff.1 h2 with ⟨h, _⟩
        exact h
      rw [List.getElem?_append_left hlt]
      exact h2
  keys := by
    simp only [mapSet, mapDelete_of_mapGet_none hnone, List.map_cons, List.nodup_cons]
    refine ⟨?_, hw.keys⟩
    intro hmem
    obtain ⟨e, he, hk⟩ := List.mem_map.1 hmem
    obtain ⟨k1, p1⟩ := e
    simp only at hk
    subst hk
    exact mapGet_eq_none_iff.1 hnone p1 he
  current := by
    intro p hp
    simp only [Option.some.injEq] at hp
    subst hp
    exact ⟨o, by simp, mapGet_mapSet_self _ _ _⟩

end llm

namespace llm

theorem Consistent.apply_fragment (parse : String → Bool) {w : openRouterStreamWrapper}
    (hw : Consistent w) {p : Nat} (tc : openai.ToolCall)
    (h : mapGet w.toolCallBuffer tc.ID = some p) :
    Consistent (applyFragment parse w p tc).1 := by
  obtain ⟨o, ho, _, _⟩ := hw.mapGet_entry h
  unfold llm.applyFragment
  rw [ho]
  simp only
  split_ifs
  all_goals
    first
    | exact hw.set_heap ho (by rfl)
    | exact Consistent.delete (w := ⟨_, w.currentToolCall, _⟩) (hw.set_heap ho (by rfl)) _

theorem Consistent.step (parse : String → Bool) {w : openRouterStreamWrapper}
    (hw : Consistent w) (tc : openai.ToolCall) :
    Consistent (recvToolCall parse w tc).1 := by
  unfold llm.recvToolCall
  split
  · next p hp => exact hw.apply_fragment parse tc hp
  · next hnone =>
    split_ifs with hid hargs
    · split
      · exact hw
      · next p hcur =>
        split
        · exact hw
        · next cur hp =>
          simp only
          split_ifs
          all_goals
            first
            | exact hw.set_heap hp (by rfl)
            | exact Consistent.delete (w := ⟨_, w.currentToolCall, _⟩) (hw.set_heap hp (by rfl)) _
    · exact hw
    · have hc := Consistent.create (o := newToolCall tc) hw hid hnone
      exact hc.apply_fragment parse tc (mapGet_mapSet_self _ _ _)

theorem Reachable.consistent {parse : String → Bool} {w : openRouterStreamWrapper}
    (h : Reachable parse w) : Consistent w := by
  induction h with
  | fresh => exact Consistent.of_fresh
  | fragment tc _ ih => exact ih.step parse tc

theorem Reachable.run_fragments {parse : String → Bool} {w : openRouterStreamWrapper}
    (h : Reachable parse w) (tcs : List openai.ToolCall) :
    Reachable parse (recvToolCalls parse w tcs).1 := by
  induction tcs generalizing w with
  | nil => exact h
  | cons tc rest ih => exact ih (h.fragment tc)

end llm

namespace llm

/-! ## A session is one run over its fragments -/

theorem recvToolCalls_append (parse : String → Bool) (w : openRouterStreamWrapper)
    (xs ys : List openai.ToolCall) :
    recvToolCalls parse w (xs ++ ys) =
      ((recvToolCalls parse (recvToolCalls parse w xs).1 ys).1,
        (recvToolCalls parse w xs).2 ++ (recvToolCalls parse (recvToolCalls parse w xs).1 ys).2) := by
  induction xs generalizing w with
  | nil => simp [recvToolCalls]
  | cons x rest ih =>
    show recvToolCalls parse w (x :: (rest ++ ys)) = _
    simp only [recvToolCalls]
    rw [ih]
    simp only [List.append_assoc]

theorem recvChoice_eq (parse : String → Bool) (w : openRouterStreamWrapper)
    (c : openai.ChatCompletionStreamChoice) :
    (recvChoice parse w c).1 = (recvToolCalls parse w c.Delta.ToolCalls).1 ∧
      elems (recvChoice parse w c).2.Message.ToolCalls =
        (recvToolCalls parse w c.Delta.ToolCalls).2 := by
  unfold recvChoice
  by_cases h : c.Delta.ToolCalls.length > 0
  · simp [h, elems]
  · have hnil : c.Delta.ToolCalls = [] := by
      cases hc : c.Delta.ToolCalls with
      | nil => rfl
      | cons a l => simp [hc] at h
    simp [hnil, elems, recvToolCalls]

theorem recvChoices_eq (parse : String → Bool) (w : openRouterStreamWrapper)
    (cs : List openai.ChatCompletionStreamChoice) :
    (recvChoices parse w cs).1 =
        (recvToolCalls parse w (cs.flatMap (fun c => c.Delta.ToolCalls))).1 ∧
      (recvChoices parse w cs).2.flatMap (fun c => elems c.Message.ToolCalls) =
        (recvToolCalls parse w (cs.flatMap (fun c => c.Delta.ToolCalls))).2 := by
  induction cs generalizing w with
  | nil => simp [recvChoices, recvToolCalls]
  | cons c rest ih =>
    obtain ⟨h1, h2⟩ := recvChoice_eq parse w c
    obtain ⟨h3, h4⟩ := ih (recvChoice parse w c).1
    simp only [recvChoices, List.flatMap_cons, recvToolCalls_append, h2]
    rw [h3, h4, h1]
    exact ⟨rfl, rfl⟩

theorem Recv_ok_eq (parse : String → Bool) (w : openRouterStreamWrapper)
    (chunk : openai.ChatCompletionStreamResponse) :
    (Recv parse w (.ok chunk)).1 = (recvToolCalls parse w (chunkFragments chunk)).1 ∧
      responseToolCalls (Recv parse w (.ok chunk)).2.1 =
        (recvToolCalls parse w (chunkFragments chunk)).2 := by
  exact recvChoices_eq parse w chunk.Choices

theorem recvChunks_eq (parse : String → Bool) (w : openRouterStreamWrapper)
    (chunks : List openai.ChatCompletionStreamResponse) :
    (recvChunks parse w chunks).1 = (recvToolCalls parse w (streamFragments chunks)).1 ∧
      emittedToolCalls (recvChunks parse w chunks).2 =
        (recvToolCalls parse w (streamFragments chunks)).2 := by
  induction chunks generalizing w with
  | nil => simp [recvChunks, recvToolCalls, streamFragments, emittedToolCalls]
  | cons c rest ih =>
    obtain ⟨h1, h2⟩ := Recv_ok_eq parse w c
    obtain ⟨h3, h4⟩ := ih (Recv parse w (.ok c)).1
    unfold emittedToolCalls streamFragments at *
    simp only [recvChunks, List.flatMap_cons, recvToolCalls_append, h2]
    rw [h3, h4, h1]
    exact ⟨rfl, rfl⟩

theorem Reachable.recv_result {parse : String → Bool} {w : openRouterStreamWrapper}
    (h : Reachable parse w) (received : Except GoError openai.ChatCompletionStreamResponse) :
    Reachable parse (Recv parse w received).1 := by
  cases received with
  | error err =>
    unfold llm.Recv
    simp only
    split_ifs
    · exact h
    · split <;> exact h
  | ok chunk =>
    rw [(Recv_ok_eq parse w chunk).1]
    exact h.run_fragments _

end llm

namespace llm

/-! ## The cases of one fragment -/

@[simp] theorem ToolCall.setName_ID (t : ToolCall) (n : String) : (t.setName n).ID = t.ID := rfl

@[simp] theorem ToolCall.setName_arguments (t : ToolCall) (n : String) :
    (t.setName n).Function.Arguments = t.Function.Arguments := rfl

@[simp] theorem ToolCall.setName_name (t : ToolCall) (n : String) :
    (t.setName n).Function.Name = n := rfl

@[simp] theorem ToolCall.appendArguments_ID (t : ToolCall) (s : String) :
    (t.appendArguments s).ID = t.ID := rfl

@[simp] theorem ToolCall.appendArguments_name (t : ToolCall) (s : String) :
    (t.appendArguments s).Function.Name = t.Function.Name := rfl

@[simp] theorem ToolCall.appendArguments_arguments (t : ToolCall) (s : String) :
    (t.appendArguments s).Function.Arguments = t.Function.Arguments ++ s := rfl

@[simp] theorem newToolCall_ID (tc : openai.ToolCall) : (newToolCall tc).ID = tc.ID := rfl

@[simp] theorem newToolCall_arguments (tc : openai.ToolCall) :
    (newToolCall tc).Function.Arguments = "" := rfl

@[simp] theorem newToolCall_name (tc : openai.ToolCall) :
    (newToolCall tc).Function.Name = tc.Function.Name := rfl

@[simp] theorem newToolCall_named (tc : openai.ToolCall) :
    named (newToolCall tc) tc = newToolCall tc := by
  unfold named
  split_ifs <;> rfl

/-- An id-less fragment with empty arguments changes nothing. -/
theorem recvToolCall_idless_empty (parse : String → Bool) {w : openRouterStreamWrapper}
    {tc : openai.ToolCall} (hmap : mapGet w.toolCallBuffer "" = none) (hid : tc.ID = "")
    (harg : tc.Function.Arguments = "") : recvToolCall parse w tc = (w, []) := by
  unfold recvToolCall
  rw [hid, hmap]
  simp [harg]

/-- An id-less fragment with no active buffer changes nothing. -/
theorem recvToolCall_idless_orphan (parse : String → Bool) {w : openRouterStreamWrapper}
    {tc : openai.ToolCall} (hmap : mapGet w.toolCallBuffer "" = none) (hid : tc.ID = "")
    (hcur : w.currentToolCall = none) : recvToolCall parse w tc = (w, []) := by
  unfold recvToolCall
  rw [hid, hmap]
  simp [hcur]

/-- An id-less fragment with arguments is appended to the active buffer. -/
theorem recvToolCall_idless_append (parse : String → Bool) {w : openRouterStreamWrapper}
    {tc : openai.ToolCall} {p : Nat} {cur : ToolCall}
    (hmap : mapGet w.toolCallBuffer "" = none) (hid : tc.ID = "")
    (harg : tc.Function.Arguments ≠ "") (hcur : w.currentToolCall = some p)
    (hp : w.heap[p]? = some cur) :
    recvToolCall parse w tc =
      if parse (cur.Function.Arguments ++ tc.Function.Arguments) then
        ({ heap := w.heap.set p (cur.appendArguments tc.Function.Arguments)
           currentToolCall := none
           toolCallBuffer := mapDelete w.toolCallBuffer cur.ID },
          [cur.appendArguments tc.Function.Arguments])
      else ({ w with heap := w.heap.set p (cur.appendArguments tc.Function.Arguments) }, []) := by
  unfold recvToolCall
  rw [hid, hmap]
  simp [harg, hcur, hp]

/-- A fragment whose id has a buffer is applied to that buffer. -/
theorem recvToolCall_existing (parse : String → Bool) {w : openRouterStreamWrapper}
    {tc : openai.ToolCall} {p : Nat} (hmap : mapGet w.toolCallBuffer tc.ID = some p) :
    recvToolCall parse w tc = applyFragment parse w p tc := by
  unfold recvToolCall
  rw [hmap]

/-- A fragment with a new non-empty id creates a buffer, makes it the active
one, and is applied to it. -/
theorem recvToolCall_create (parse : String → Bool) {w : openRouterStreamWrapper}
    {tc : openai.ToolCall} (hmap : mapGet w.toolCallBuffer tc.ID = none) (hid : tc.ID ≠ "") :
    recvToolCall parse w tc =
      applyFragment parse
        { heap := w.heap ++ [newToolCall tc]
          currentToolCall := some w.heap.length
          toolCallBuffer := mapSet w.toolCallBuffer tc.ID w.heap.length } w.heap.length tc := by
  unfold recvToolCall
  rw [hmap]
  simp [hid]

@[simp] theorem named_ID (o : ToolCall) (tc : openai.ToolCall) : (named o tc).ID = o.ID := by
  unfold named; split_ifs <;> rfl

@[simp] theorem named_arguments (o : ToolCall) (tc : openai.ToolCall) :
    (named o tc).Function.Arguments = o.Function.Arguments := by
  unfold named; split_ifs <;> rfl

theorem applyFragment_eq (parse : String → Bool) {w : openRouterStreamWrapper}
    {tc : openai.ToolCall} {p : Nat} {o : ToolCall} (hp : w.heap[p]? = some o) :
    applyFragment parse w p tc =
      if tc.Function.Arguments = "" then ({ w with heap := w.heap.set p (named o tc) }, [])
      else if parse (o.Function.Arguments ++ tc.Function.Arguments) then
        ({ heap := w.heap.set p ((named o tc).appendArguments tc.Function.Arguments)
           currentToolCall := none
           toolCallBuffer := mapDelete w.toolCallBuffer tc.ID },
          [(named o tc).appendArguments tc.Function.Arguments])
      else
        ({ w with heap := w.heap.set p ((named o tc).appendArguments tc.Function.Arguments) }, []) := by
  unfold applyFragment
  rw [hp]
  by_cases harg : tc.Function.Arguments = ""
  · simp [harg, named]
  · simp only [ne_eq, harg, not_false_eq_true, if_true, if_false]
    have : (if ¬tc.Function.Name = "" then o.setName tc.Function.Name else o) = named o tc := rfl
    rw [this]
    simp

end llm

namespace llm

/-! ## Strings -/

theorem str_append_eq_empty {s t : String} (h : s ++ t = "") : s = "" ∧ t = "" := by
  have h1 := congrArg String.data h
  simp only [String.data_append] at h1
  have h2 : s.data = [] ∧ t.data = [] := List.append_eq_nil.1 h1
  exact ⟨String.ext h2.1, String.ext h2.2⟩

theorem str_append_cancel_left {s t u : String} (h : s ++ t = s ++ u) : t = u := by
  have h1 := congrArg String.data h
  simp only [String.data_append] at h1
  exact String.ext (List.append_cancel_left h1)

theorem str_append_eq_self {s t : String} (h : s ++ t = s) : t = "" := by
  have h1 : s ++ t = s ++ "" := by rw [h, String.append_empty]
  exact str_append_cancel_left h1

theorem concat_eq_empty {l : List String} (h : concat l = "") : ∀ x ∈ l, x = "" := by
  induction l with
  | nil => intro x hx; simp at hx
  | cons a rest ih =>
    intro x hx
    have h1 := str_append_eq_empty (show a ++ concat rest = "" from h)
    rcases List.mem_cons.1 hx with rfl | hx
    · exact h1.1
    · exact ih h1.2 x hx

theorem concat_append (xs ys : List String) : concat (xs ++ ys) = concat xs ++ concat ys := by
  induction xs with
  | nil => simp [concat]
  | cons a rest ih => simp [concat, ih, String.append_assoc]

/-! ## Runs of id-less fragments -/

/-- Id-less fragments without arguments are all skipped. -/
theorem recvToolCalls_idless_empty (parse : String → Bool) {w : openRouterStreamWrapper}
    (hmap : mapGet w.toolCallBuffer "" = none) (frags : List openai.ToolCall)
    (h : ∀ f ∈ frags, f.ID = "" ∧ f.Function.Arguments = "") :
    recvToolCalls parse w frags = (w, []) := by
  induction frags with
  | nil => rfl
  | cons f rest ih =>
    have hf := h f (List.mem_cons_self _ _)
    simp only [recvToolCalls, recvToolCall_idless_empty parse hmap hf.1 hf.2]
    rw [ih (fun g hg => h g (List.mem_cons_of_mem _ hg))]
    rfl

/-- Id-less fragments are all dropped while there is no active buffer. -/
theorem recvToolCalls_idless_orphan (parse : String → Bool) {w : openRouterStreamWrapper}
    (hmap : mapGet w.toolCallBuffer "" = none) (hcur : w.currentToolCall = none)
    (frags : List openai.ToolCall) (h : ∀ f ∈ frags, f.ID = "") :
    recvToolCalls parse w frags = (w, []) := by
  induction frags with
  | nil => rfl
  | cons f rest ih =>
    have hf := h f (List.mem_cons_self _ _)
    simp only [recvToolCalls, recvToolCall_idless_orphan parse hmap hf hcur]
    rw [ih (fun g hg => h g (List.mem_cons_of_mem _ hg))]
    rfl

/-- A run of id-less fragments completing the active buffer: when the buffered
arguments followed by the fragments' arguments make up a text `S` that parses,
and no proper prefix of `S` parses, exactly one call is emitted, the buffer
with arguments `S`. -/
theorem recvToolCalls_idless_run (parse : String → Bool) (S : String) (hS : parse S = true)
    (hpre : ∀ s t, s ++ t = S → t ≠ "" → parse s = false) :
    ∀ (frags : List openai.ToolCall) (w : openRouterStreamWrapper) (p : Nat) (o : ToolCall),
      Consistent w → w.currentToolCall = some p → w.heap[p]? = some o →
      (∀ f ∈ frags, f.ID = "") →
      o.Function.Arguments ++ concat (frags.map (fun f => f.Function.Arguments)) = S →
      o.Function.Arguments ≠ S →
      (recvToolCalls parse w frags).2 = [⟨o.ID, o.Type_, ⟨o.Function.Name, S⟩⟩] := by
  intro frags
  induction frags with
  | nil =>
    intro w p o _ _ _ _ hcat hne
    simp only [List.map_nil, concat, String.append_empty] at hcat
    exact absurd hcat hne
  | cons f rest ih =>
    intro w p o hw hcur hp hids hcat hne
    have hf : f.ID = "" := hids f (List.mem_cons_self _ _)
    have hrest : ∀ g ∈ rest, g.ID = "" := fun g hg => hids g (List.mem_cons_of_mem _ hg)
    simp only [List.map_cons, concat] at hcat
    by_cases harg : f.Function.Arguments = ""
    · simp only [recvToolCalls, recvToolCall_idless_empty parse hw.mapGet_empty hf harg,
        List.nil_append]
      rw [harg, String.empty_append] at hcat
      exact ih w p o hw hcur hp hrest hcat hne
    · rw [← String.append_assoc] at hcat
      simp only [recvToolCalls,
        recvToolCall_idless_append parse hw.mapGet_empty hf harg hcur hp]
      by_cases hdone : concat (rest.map (fun f => f.Function.Arguments)) = ""
      · -- the buffer is complete with this fragment
        rw [hdone, String.append_empty] at hcat
        rw [hcat, hS]
        simp only [if_true]
        have hc : Consistent
            { heap := w.heap.set p (o.appendArguments f.Function.Arguments)
              currentToolCall := none
              toolCallBuffer := mapDelete w.toolCallBuffer o.ID } :=
          Consistent.delete (w := ⟨_, w.currentToolCall, _⟩) (hw.set_heap hp (by rfl)) _
        rw [recvToolCalls_idless_orphan parse hc.mapGet_empty rfl rest hrest]
        simp only [List.append_nil, List.cons.injEq, and_true]
        show (⟨o.ID, o.Type_, ⟨o.Function.Name, o.Function.Arguments ++ f.Function.Arguments⟩⟩
          : ToolCall) = _
        rw [hcat]
      · rw [hpre _ _ hcat hdone]
        simp only [Bool.false_eq_true, if_false, List.nil_append]
        have hc : Consistent { w with heap := w.heap.set p (o.appendArguments f.Function.Arguments) } :=
          hw.set_heap hp (by rfl)
        have hlt : p < w.heap.length := by
          rcases List.getElem?_eq_some_iff.1 hp with ⟨h, _⟩
          exact h
        have := ih _ p (o.appendArguments f.Function.Arguments) hc hcur
          (by simp [List.getElem?_set, hlt]) hrest hcat
          (by
            intro h
            apply hdone
            simp only [ToolCall.appendArguments_arguments] at h
            rw [← h] at hcat
            exact str_append_eq_self hcat)
        exact this

end llm

namespace llm

/-! ## Fragments that carry an id -/

/-- A call emitted for a fragment that carries an id has that id. -/
theorem recvToolCall_out_ID (parse : String → Bool) {w : openRouterStreamWrapper}
    (hw : Consistent w) {tc : openai.ToolCall} (hid : tc.ID ≠ "") :
    ∀ c ∈ (recvToolCall parse w tc).2, c.ID = tc.ID := by
  intro c hc
  cases hget : mapGet w.toolCallBuffer tc.ID with
  | some p =>
    obtain ⟨o, ho, hoid, _⟩ := hw.mapGet_entry hget
    rw [recvToolCall_existing parse hget, applyFragment_eq parse ho] at hc
    split_ifs at hc
    · simp at hc
    · simp only [List.mem_singleton] at hc
      rw [hc]
      simpa using hoid
    · simp at hc
  | none =>
    have hnew : (w.heap ++ [newToolCall tc])[w.heap.length]? = some (newToolCall tc) := by simp
    rw [recvToolCall_create parse hget hid, applyFragment_eq parse hnew] at hc
    split_ifs at hc
    · simp at hc
    · simp only [List.mem_singleton] at hc
      rw [hc]
      simp
    · simp at hc

/-- A fragment that carries an id leaves the buffers of the other ids alone:
their map entries and the objects behind them are unchanged. -/
theorem recvToolCall_other (parse : String → Bool) {w : openRouterStreamWrapper}
    (hw : Consistent w) {tc : openai.ToolCall} (hid : tc.ID ≠ "") {x : String}
    (hx : tc.ID ≠ x) :
    mapGet (recvToolCall parse w tc).1.toolCallBuffer x = mapGet w.toolCallBuffer x ∧
      ∀ p, mapGet w.toolCallBuffer x = some p →
        (recvToolCall parse w tc).1.heap[p]? = w.heap[p]? := by
  have hxne : x ≠ tc.ID := fun h => hx h.symm
  cases hget : mapGet w.toolCallBuffer tc.ID with
  | some q =>
    obtain ⟨o, ho, hoid, _⟩ := hw.mapGet_entry hget
    have hpq : ∀ p, mapGet w.toolCallBuffer x = some p → q ≠ p := by
      intro p hp hqp
      obtain ⟨o2, ho2, hoid2, _⟩ := hw.mapGet_entry hp
      rw [← hqp, ho] at ho2
      cases ho2
      exact hx (hoid.symm.trans hoid2)
    rw [recvToolCall_existing parse hget, applyFragment_eq parse ho]
    split_ifs
    · exact ⟨rfl, fun p hp => by simp [List.getElem?_set, hpq p hp]⟩
    · exact ⟨mapGet_mapDelete_of_ne hxne, fun p hp => by simp [List.getElem?_set, hpq p hp]⟩
    · exact ⟨rfl, fun p hp => by simp [List.getElem?_set, hpq p hp]⟩
  | none =>
    have hnew : (w.heap ++ [newToolCall tc])[w.heap.length]? = some (newToolCall tc) := by simp
    have hold : ∀ p, mapGet w.toolCallBuffer x = some p →
        p < w.heap.length := by
      intro p hp
      obtain ⟨o2, ho2, _⟩ := hw.mapGet_entry hp
      rcases List.getElem?_eq_some_iff.1 ho2 with ⟨h, _⟩
      exact h
    have hframe : ∀ (o1 : ToolCall) p, mapGet w.toolCallBuffer x = some p →
        ((w.heap ++ [newToolCall tc]).set w.heap.length o1)[p]? = w.heap[p]? := by
      intro o1 p hp
      have hlt := hold p hp
      have hne : w.heap.length ≠ p := Nat.ne_of_gt hlt
      simp [List.getElem?_set, hne, List.getElem?_append_left hlt]
    rw [recvToolCall_create parse hget hid, applyFragment_eq parse hnew]
    split_ifs
    · exact ⟨mapGet_mapSet_of_ne _ hxne, hframe _⟩
    · refine ⟨?_, hframe _⟩
      show mapGet (mapDelete (mapSet w.toolCallBuffer tc.ID w.heap.length) tc.ID) x = _
      rw [mapGet_mapDelete_of_ne hxne, mapGet_mapSet_of_ne _ hxne]
    · exact ⟨mapGet_mapSet_of_ne _ hxne, hframe _⟩

end llm

namespace llm

theorem concat_singleton (s : String) : concat [s] = s := by
  simp [concat]

theorem Accumulated.other (parse : String → Bool) {w : openRouterStreamWrapper}
    (hw : Consistent w) {tc : openai.ToolCall} (hid : tc.ID ≠ "") {x acc : String}
    (hx : tc.ID ≠ x) (h : Accumulated w x acc) :
    Accumulated (recvToolCall parse w tc).1 x acc := by
  obtain ⟨hmap, hheap⟩ := recvToolCall_other parse hw hid hx
  rcases h with ⟨h1, h2⟩ | ⟨p, o, h1, h2, h3⟩
  · exact Or.inl ⟨hmap.trans h1, h2⟩
  · exact Or.inr ⟨p, o, hmap.trans h1, (hheap p h1).trans h2, h3⟩

/-- A fragment with arguments that carries the id `x`: the call is emitted,
with everything accumulated for `x`, when that parses; otherwise the
fragment's arguments are added to what is accumulated for `x`. -/
theorem recvToolCall_own (parse : String → Bool) {w : openRouterStreamWrapper}
    (hw : Consistent w) {tc : openai.ToolCall} (hid : tc.ID ≠ "")
    (harg : tc.Function.Arguments ≠ "") {acc : String} (h : Accumulated w tc.ID acc) :
    (parse (acc ++ tc.Function.Arguments) = true →
        (∃ c, (recvToolCall parse w tc).2 = [c] ∧ c.ID = tc.ID ∧
          c.Function.Arguments = acc ++ tc.Function.Arguments) ∧
        mapGet (recvToolCall parse w tc).1.toolCallBuffer tc.ID = none) ∧
      (parse (acc ++ tc.Function.Arguments) = false →
        (recvToolCall parse w tc).2 = [] ∧
          Accumulated (recvToolCall parse w tc).1 tc.ID (acc ++ tc.Function.Arguments)) := by
  rcases h with ⟨hget, rfl⟩ | ⟨p, o, hget, ho, rfl⟩
  · have hnew : (w.heap ++ [newToolCall tc])[w.heap.length]? = some (newToolCall tc) := by simp
    rw [recvToolCall_create parse hget hid, applyFragment_eq parse hnew, if_neg harg]
    simp only [newToolCall_arguments, newToolCall_named]
    constructor
    · intro hp
      rw [if_pos hp]
      exact ⟨⟨_, rfl, rfl, rfl⟩, mapGet_mapDelete_self _ _⟩
    · intro hp
      rw [hp]
      simp only [Bool.false_eq_true, if_false, true_and]
      exact Or.inr ⟨w.heap.length, (newToolCall tc).appendArguments tc.Function.Arguments,
        mapGet_mapSet_self _ _ _, by simp, rfl⟩
  · obtain ⟨_, _, hoid, _⟩ := hw.mapGet_entry hget
    have hlt : p < w.heap.length := by
      rcases List.getElem?_eq_some_iff.1 ho with ⟨h, _⟩
      exact h
    rw [recvToolCall_existing parse hget, applyFragment_eq parse ho, if_neg harg]
    constructor
    · intro hp
      rw [if_pos hp]
      refine ⟨⟨_, rfl, ?_, by simp⟩, mapGet_mapDelete_self _ _⟩
      rw [ho] at *
      simp_all
    · intro hp
      rw [hp]
      simp only [Bool.false_eq_true, if_false, true_and]
      exact Or.inr ⟨p, (named o tc).appendArguments tc.Function.Arguments, hget,
        by simp [List.getElem?_set, hlt], by simp⟩

end llm

namespace llm

/-- The calls emitted for one id `x` in a run of fragments that all carry an
id and arguments: when the arguments carried by the fragments of `x`, after
what is already accumulated for `x`, only parse once the last of them has
arrived, exactly one call with id `x` is emitted, with all of them as its
arguments. -/
theorem recvToolCalls_single (parse : String → Bool) (x : String) :
    ∀ (frags : List openai.ToolCall) (w : openRouterStreamWrapper) (acc : String),
      Consistent w → Accumulated w x acc →
      (∀ f ∈ frags, f.ID ≠ "" ∧ f.Function.Arguments ≠ "") →
      (∀ n, 0 < n → n < (frags.filter (fun f => f.ID = x)).length →
        parse (acc ++ concat (((frags.filter (fun f => f.ID = x)).take n).map
          (fun f => f.Function.Arguments))) = false) →
      (frags.filter (fun f => f.ID = x) ≠ [] →
        parse (acc ++ concat ((frags.filter (fun f => f.ID = x)).map
          (fun f => f.Function.Arguments))) = true) →
      (((recvToolCalls parse w frags).2.filter (fun c => c.ID = x)).map
          (fun c => (c.ID, c.Function.Arguments))) =
        if frags.filter (fun f => f.ID = x) = [] then []
        else [(x, acc ++ concat ((frags.filter (fun f => f.ID = x)).map
          (fun f => f.Function.Arguments)))] := by
  intro frags
  induction frags with
  | nil => intro w acc _ _ _ _ _; simp [recvToolCalls]
  | cons f rest ih =>
    intro w acc hw hacc hall hpre hfull
    have hf := hall f (List.mem_cons_self _ _)
    have hrest : ∀ g ∈ rest, g.ID ≠ "" ∧ g.Function.Arguments ≠ "" :=
      fun g hg => hall g (List.mem_cons_of_mem _ hg)
    have hw1 := hw.step parse f
    simp only [recvToolCalls, List.filter_append, List.map_append]
    by_cases hfx : f.ID = x
    · subst hfx
      have hfilter : (f :: rest).filter (fun g => g.ID = f.ID)
          = f :: rest.filter (fun g => g.ID = f.ID) := by simp
      rw [hfilter] at hpre hfull ⊢
      obtain ⟨hyes, hno⟩ := recvToolCall_own parse hw hf.1 hf.2 hacc
      simp only [List.map_cons, concat, reduceCtorEq, if_false]
      by_cases hlast : rest.filter (fun g => g.ID = f.ID) = []
      · have hp : parse (acc ++ f.Function.Arguments) = true := by
          have := hfull (by simp)
          simpa [hlast, concat] using this
        obtain ⟨⟨c, hc, hcid, hcarg⟩, hgone⟩ := hyes hp
        have := ih _ "" hw1 (Or.inl ⟨hgone, rfl⟩) hrest (by simp [hlast]) (by simp [hlast])
        rw [this, hc]
        simp [hlast, hcid, hcarg, concat]
      · have hp : parse (acc ++ f.Function.Arguments) = false := by
          have := hpre 1 (by decide) (by
            simp only [List.length_cons]
            have : 0 < (rest.filter (fun g => g.ID = f.ID)).length :=
              List.length_pos.2 hlast
            omega)
          simpa [concat] using this
        obtain ⟨hout, hacc1⟩ := hno hp
        have := ih _ (acc ++ f.Function.Arguments) hw1 hacc1 hrest
          (by
            intro n hn0 hn
            have := hpre (n + 1) (by omega) (by simpa using hn)
            simpa [concat, String.append_assoc] using this)
          (by
            intro _
            have := hfull (by simp)
            simpa [concat, String.append_assoc] using this)
        rw [this, hout]
        simp [hlast, String.append_assoc]
    · have hfilter : (f :: rest).filter (fun g => g.ID = x)
          = rest.filter (fun g => g.ID = x) := by simp [hfx]
      rw [hfilter] at hpre hfull ⊢
      have hout : (recvToolCall parse w f).2.filter (fun c => c.ID = x) = [] := by
        rw [List.filter_eq_nil_iff]
        intro c hc
        have := recvToolCall_out_ID parse hw hf.1 c hc
        simp [this, hfx]
      rw [hout, ih _ acc hw1 (hacc.other parse hw hf.1 hfx) hrest hpre hfull]
      simp

end llm

namespace llm

/-- Every call emitted in a run of id-carrying fragments has the id of one of
them. -/
theorem recvToolCalls_out_ID (parse : String → Bool) :
    ∀ (frags : List openai.ToolCall) (w : openRouterStreamWrapper), Consistent w →
      (∀ f ∈ frags, f.ID ≠ "") →
      ∀ c ∈ (recvToolCalls parse w frags).2, ∃ f ∈ frags, c.ID = f.ID := by
  intro frags
  induction frags with
  | nil => intro w _ _ c hc; simp [recvToolCalls] at hc
  | cons f rest ih =>
    intro w hw hall c hc
    simp only [recvToolCalls, List.mem_append] at hc
    rcases hc with hc | hc
    · exact ⟨f, List.mem_cons_self _ _,
        recvToolCall_out_ID parse hw (hall f (List.mem_cons_self _ _)) c hc⟩
    · obtain ⟨g, hg, hcg⟩ := ih _ (hw.step parse f)
        (fun g hg => hall g (List.mem_cons_of_mem _ hg)) c hc
      exact ⟨g, List.mem_cons_of_mem _ hg, hcg⟩

/-- A list of calls with ids `a` and `b` only, one of each, is the two calls
in one of the two orders. -/
theorem two_calls {a b : String} (hab : a ≠ b) {A B : String} (l : List ToolCall)
    (hids : ∀ c ∈ l, c.ID = a ∨ c.ID = b)
    (hA : (l.filter (fun c => c.ID = a)).map (fun c => (c.ID, c.Function.Arguments)) = [(a, A)])
    (hB : (l.filter (fun c => c.ID = b)).map (fun c => (c.ID, c.Function.Arguments)) = [(b, B)]) :
    l.map (fun c => (c.ID, c.Function.Arguments)) = [(a, A), (b, B)] ∨
      l.map (fun c => (c.ID, c.Function.Arguments)) = [(b, B), (a, A)] := by
  have hba : b ≠ a := fun h => hab h.symm
  have hlen : l.length = 2 := by
    have h1 := congrArg List.length hA
    have h2 := congrArg List.length hB
    simp only [List.length_map, List.length_singleton] at h1 h2
    have h3 := List.length_eq_length_filter_add (l := l) (fun c => decide (c.ID = a))
    have h4 : l.filter (fun c => !decide (c.ID = a)) = l.filter (fun c => decide (c.ID = b)) := by
      apply List.filter_congr
      intro c hc
      rcases hids c hc with h | h
      · simp [h, hab]
      · simp [h, hba]
    rw [h4, h1, h2] at h3
    exact h3
  match l, hlen with
  | [c1, c2], _ =>
    have h1 := hids c1 (by simp)
    have h2 := hids c2 (by simp)
    rcases h1 with h1 | h1 <;> rcases h2 with h2 | h2 <;>
      simp_all [List.filter_cons]

end llm

namespace llm

/-! ## What is emitted -/

/-- A call emitted for a fragment has a non-empty id, and its arguments were
accepted by the decoder. -/
theorem recvToolCall_out_ok (parse : String → Bool) {w : openRouterStreamWrapper}
    (hw : Consistent w) (tc : openai.ToolCall) :
    ∀ c ∈ (recvToolCall parse w tc).2, c.ID ≠ "" ∧ parse c.Function.Arguments = true := by
  intro c hc
  cases hget : mapGet w.toolCallBuffer tc.ID with
  | some p =>
    obtain ⟨o, ho, hoid, hne⟩ := hw.mapGet_entry hget
    rw [recvToolCall_existing parse hget, applyFragment_eq parse ho] at hc
    split_ifs at hc with h1 h2
    · simp at hc
    · simp only [List.mem_singleton] at hc
      subst hc
      refine ⟨?_, by simpa using h2⟩
      simp only [ToolCall.appendArguments_ID, named_ID, hoid]
      exact hne
    · simp at hc
  | none =>
    by_cases hid : tc.ID = ""
    · by_cases harg : tc.Function.Arguments = ""
      · rw [recvToolCall_idless_empty parse hw.mapGet_empty hid harg] at hc
        simp at hc
      · cases hcur : w.currentToolCall with
        | none =>
          rw [recvToolCall_idless_orphan parse hw.mapGet_empty hid hcur] at hc
          simp at hc
        | some p =>
          obtain ⟨o, ho, hin⟩ := hw.current p hcur
          obtain ⟨_, _, _, hne⟩ := hw.mapGet_entry hin
          rw [recvToolCall_idless_append parse hw.mapGet_empty hid harg hcur ho] at hc
          split_ifs at hc with h2
          · simp only [List.mem_singleton] at hc
            subst hc
            exact ⟨by simpa using hne, by simpa using h2⟩
          · simp at hc
    · have hnew : (w.heap ++ [newToolCall tc])[w.heap.length]? = some (newToolCall tc) := by
        simp
      rw [recvToolCall_create parse hget hid, applyFragment_eq parse hnew] at hc
      split_ifs at hc with h1 h2
      · simp at hc
      · simp only [List.mem_singleton] at hc
        subst hc
        exact ⟨by simpa using hid, by simpa using h2⟩
      · simp at hc

theorem recvToolCalls_out_ok (parse : String → Bool) :
    ∀ (frags : List openai.ToolCall) (w : openRouterStreamWrapper), Consistent w →
      ∀ c ∈ (recvToolCalls parse w frags).2,
        c.ID ≠ "" ∧ parse c.Function.Arguments = true := by
  intro frags
  induction frags with
  | nil => intro w _ c hc; simp [recvToolCalls] at hc
  | cons f rest ih =>
    intro w hw c hc
    simp only [recvToolCalls, List.mem_append] at hc
    rcases hc with hc | hc
    · exact recvToolCall_out_ok parse hw f c hc
    · exact ih _ (hw.step parse f) c hc

end llm

namespace llm

/-- After a fragment that emits a call, the active reference is nil and the
call's id is no longer in the map. -/
theorem recvToolCall_emit_clears (parse : String → Bool) {w : openRouterStreamWrapper}
    (hw : Consistent w) (tc : openai.ToolCall) :
    ∀ c ∈ (recvToolCall parse w tc).2,
      (recvToolCall parse w tc).1.currentToolCall = none ∧
        mapGet (recvToolCall parse w tc).1.toolCallBuffer c.ID = none := by
  intro c hc
  cases hget : mapGet w.toolCallBuffer tc.ID with
  | some p =>
    obtain ⟨o, ho, hoid, hne⟩ := hw.mapGet_entry hget
    rw [recvToolCall_existing parse hget, applyFragment_eq parse ho] at hc ⊢
    split_ifs at hc ⊢ with h1 h2
    · simp at hc
    · simp only [List.mem_singleton] at hc
      subst hc
      refine ⟨rfl, ?_⟩
      simp only [ToolCall.appendArguments_ID, named_ID, hoid]
      exact mapGet_mapDelete_self _ _
    · simp at hc
  | none =>
    by_cases hid : tc.ID = ""
    · by_cases harg : tc.Function.Arguments = ""
      · rw [recvToolCall_idless_empty parse hw.mapGet_empty hid harg] at hc
        simp at hc
      · cases hcur : w.currentToolCall with
        | none =>
          rw [recvToolCall_idless_orphan parse hw.mapGet_empty hid hcur] at hc
          simp at hc
        | some p =>
          obtain ⟨o, ho, hin⟩ := hw.current p hcur
          rw [recvToolCall_idless_append parse hw.mapGet_empty hid harg hcur ho] at hc ⊢
          split_ifs at hc ⊢ with h2
          · simp only [List.mem_singleton] at hc
            subst hc
            exact ⟨rfl, mapGet_mapDelete_self _ _⟩
          · simp at hc
    · have hnew : (w.heap ++ [newToolCall tc])[w.heap.length]? = some (newToolCall tc) := by
        simp
      rw [recvToolCall_create parse hget hid, applyFragment_eq parse hnew] at hc ⊢
      split_ifs at hc ⊢ with h1 h2
      · simp at hc
      · simp only [List.mem_singleton] at hc
        subst hc
        refine ⟨rfl, ?_⟩
        simp only [ToolCall.appendArguments_ID, named_ID, newToolCall_ID]
        exact mapGet_mapDelete_self _ _
      · simp at hc

end llm

namespace llm

/-! ## Orphan fragments -/

/-- An id-less fragment met while there is no active buffer can be left out of
a run without changing its outcome. -/
theorem recvToolCalls_drop_orphan (parse : String → Bool) {w : openRouterStreamWrapper}
    (hw : Consistent w) (pre post : List openai.ToolCall) {orphan : openai.ToolCall}
    (hid : orphan.ID = "")
    (hcur : (recvToolCalls parse w pre).1.currentToolCall = none) :
    recvToolCalls parse w (pre ++ orphan :: post) = recvToolCalls parse w (pre ++ post) := by
  have hmid : Consistent (recvToolCalls parse w pre).1 := by
    clear hcur
    induction pre generalizing w with
    | nil => exact hw
    | cons f rest ih => exact ih (hw.step parse f)
  rw [recvToolCalls_append, recvToolCalls_append]
  simp only [recvToolCalls, recvToolCall_idless_orphan parse hmid.mapGet_empty hid hcur,
    List.nil_append]

theorem recvChoices_append (parse : String → Bool) (w : openRouterStreamWrapper)
    (xs ys : List openai.ChatCompletionStreamChoice) :
    recvChoices parse w (xs ++ ys) =
      ((recvChoices parse (recvChoices parse w xs).1 ys).1,
        (recvChoices parse w xs).2 ++ (recvChoices parse (recvChoices parse w xs).1 ys).2) := by
  induction xs generalizing w with
  | nil => simp [recvChoices]
  | cons x rest ih =>
    show recvChoices parse w (x :: (rest ++ ys)) = _
    simp only [recvChoices]
    rw [ih]
    simp only [List.cons_append]

theorem Consistent.run (parse : String → Bool) {w : openRouterStreamWrapper}
    (hw : Consistent w) (frags : List openai.ToolCall) :
    Consistent (recvToolCalls parse w frags).1 := by
  induction frags generalizing w with
  | nil => exact hw
  | cons f rest ih => exact ih (hw.step parse f)

end llm

namespace llm

/-! ## The history of a buffer -/

theorem argumentsAt_set {heap : List ToolCall} {p0 : Nat} (o : ToolCall)
    (h : p0 < heap.length) (p : Nat) :
    argumentsAt (heap.set p0 o) p = if p = p0 then o.Function.Arguments else argumentsAt heap p := by
  unfold argumentsAt
  by_cases hp : p = p0
  · subst hp
    simp [List.getElem?_set, h]
  · have : p0 ≠ p := fun h => hp h.symm
    simp [List.getElem?_set, this, hp]

theorem argumentsAt_of_some {heap : List ToolCall} {p : Nat} {o : ToolCall}
    (h : heap[p]? = some o) : argumentsAt heap p = o.Function.Arguments := by
  simp [argumentsAt, h]

theorem argumentsAt_append_new (heap : List ToolCall) (o : ToolCall) (p : Nat) :
    argumentsAt (heap ++ [o]) p
      = if p = heap.length then o.Function.Arguments else argumentsAt heap p := by
  unfold argumentsAt
  rcases Nat.lt_trichotomy p heap.length with h | h | h
  · simp [List.getElem?_append_left h, Nat.ne_of_lt h]
  · subst h
    simp
  · have h1 : heap.length ≤ p := Nat.le_of_lt h
    have h2 : (heap ++ [o]).length ≤ p := by simp; omega
    simp [List.getElem?_eq_none h1, List.getElem?_eq_none h2, Nat.ne_of_gt h]

/-- One fragment adds its arguments at the end of the buffer it goes to and
leaves the arguments of every other object alone. -/
theorem argumentsAt_recvToolCall (parse : String → Bool) {w : openRouterStreamWrapper}
    (hw : Consistent w) (tc : openai.ToolCall) (p : Nat) :
    argumentsAt (recvToolCall parse w tc).1.heap p
      = argumentsAt w.heap p ++ concat (if target w tc = some p then [tc.Function.Arguments] else []) := by
  cases hget : mapGet w.toolCallBuffer tc.ID with
  | some p0 =>
    obtain ⟨o, ho, _, hne⟩ := hw.mapGet_entry hget
    have hlt : p0 < w.heap.length := by
      rcases List.getElem?_eq_some_iff.1 ho with ⟨h, _⟩
      exact h
    have htarget : target w tc = some p0 := by simp [target, hne, hget]
    rw [recvToolCall_existing parse hget, applyFragment_eq parse ho, htarget]
    split_ifs with h1 h2 h3 h4 h5
    all_goals simp only [argumentsAt_set _ hlt]
    all_goals
      first
      | (have h : p = p0 := by simp_all
         subst h
         simp [argumentsAt_of_some ho, concat, h1])
      | (have h : p ≠ p0 := by
           intro h
           simp_all
         simp [h, concat])
  | none =>
    by_cases hid : tc.ID = ""
    · have htarget : target w tc = w.currentToolCall := by simp [target, hid]
      rw [htarget]
      by_cases harg : tc.Function.Arguments = ""
      · rw [recvToolCall_idless_empty parse hw.mapGet_empty hid harg, harg]
        split_ifs <;> simp [concat]
      · cases hcur : w.currentToolCall with
        | none =>
          rw [recvToolCall_idless_orphan parse hw.mapGet_empty hid hcur]
          simp [concat]
        | some p0 =>
          obtain ⟨o, ho, _⟩ := hw.current p0 hcur
          have hlt : p0 < w.heap.length := by
            rcases List.getElem?_eq_some_iff.1 ho with ⟨h, _⟩
            exact h
          rw [recvToolCall_idless_append parse hw.mapGet_empty hid harg hcur ho]
          split_ifs with h1 h2 h3
          all_goals simp only [argumentsAt_set _ hlt]
          all_goals
            first
            | (have h : p = p0 := by simp_all
               subst h
               simp [argumentsAt_of_some ho, concat])
            | (have h : p ≠ p0 := by
                 intro h
                 simp_all
               simp [h, concat])
    · have hnew : (w.heap ++ [newToolCall tc])[w.heap.length]? = some (newToolCall tc) := by
        simp
      have hlt : w.heap.length < (w.heap ++ [newToolCall tc]).length := by simp
      have htarget : target w tc = some w.heap.length := by simp [target, hid, hget]
      have hout : argumentsAt w.heap w.heap.length = "" := by
        simp [argumentsAt]
      rw [recvToolCall_create parse hget hid, applyFragment_eq parse hnew, htarget]
      split_ifs with h1 h2 h3 h4 h5
      all_goals simp only [argumentsAt_set _ hlt, argumentsAt_append_new]
      all_goals
        first
        | (have h : p = w.heap.length := by simp_all
           subst h
           simp [hout, concat, h1])
        | (have h : p ≠ w.heap.length := by
             intro h
             simp_all
           simp [h, concat])

/-- The arguments of every object after a run: what it held before, followed
by the fragments that went to it, in arrival order. -/
theorem argumentsAt_recvToolCalls (parse : String → Bool) (p : Nat) :
    ∀ (frags : List openai.ToolCall) (w : openRouterStreamWrapper), Consistent w →
      argumentsAt (recvToolCalls parse w frags).1.heap p
        = argumentsAt w.heap p ++ concat (appendedTo parse p w frags) := by
  intro frags
  induction frags with
  | nil => intro w _; simp [recvToolCalls, appendedTo, concat]
  | cons f rest ih =>
    intro w hw
    simp only [recvToolCalls, appendedTo, concat_append]
    rw [ih _ (hw.step parse f), argumentsAt_recvToolCall parse hw f p,
      String.append_assoc]

/-- An emitted call is the content of the buffer its fragment went to. -/
theorem recvToolCall_out_target (parse : String → Bool) {w : openRouterStreamWrapper}
    (hw : Consistent w) (tc : openai.ToolCall) :
    ∀ c ∈ (recvToolCall parse w tc).2,
      ∃ p, target w tc = some p ∧ (recvToolCall parse w tc).1.heap[p]? = some c := by
  intro c hc
  cases hget : mapGet w.toolCallBuffer tc.ID with
  | some p0 =>
    obtain ⟨o, ho, _, hne⟩ := hw.mapGet_entry hget
    have hlt : p0 < w.heap.length := by
      rcases List.getElem?_eq_some_iff.1 ho with ⟨h, _⟩
      exact h
    refine ⟨p0, by simp [target, hne, hget], ?_⟩
    rw [recvToolCall_existing parse hget, applyFragment_eq parse ho] at hc ⊢
    split_ifs at hc ⊢
    · simp at hc
    · simp only [List.mem_singleton] at hc
      subst hc
      simp [List.getElem?_set, hlt]
    · simp at hc
  | none =>
    by_cases hid : tc.ID = ""
    · by_cases harg : tc.Function.Arguments = ""
      · rw [recvToolCall_idless_empty parse hw.mapGet_empty hid harg] at hc
        simp at hc
      · cases hcur : w.currentToolCall with
        | none =>
          rw [recvToolCall_idless_orphan parse hw.mapGet_empty hid hcur] at hc
          simp at hc
        | some p0 =>
          obtain ⟨o, ho, _⟩ := hw.current p0 hcur
          have hlt : p0 < w.heap.length := by
            rcases List.getElem?_eq_some_iff.1 ho with ⟨h, _⟩
            exact h
          refine ⟨p0, by simp [target, hid, hcur], ?_⟩
          rw [recvToolCall_idless_append parse hw.mapGet_empty hid harg hcur ho] at hc ⊢
          split_ifs at hc ⊢
          · simp only [List.mem_singleton] at hc
            subst hc
            simp [List.getElem?_set, hlt]
          · simp at hc
    · have hnew : (w.heap ++ [newToolCall tc])[w.heap.length]? = some (newToolCall tc) := by
        simp
      refine ⟨w.heap.length, by simp [target, hid, hget], ?_⟩
      rw [recvToolCall_create parse hget hid, applyFragment_eq parse hnew] at hc ⊢
      split_ifs at hc ⊢
      · simp at hc
      · simp only [List.mem_singleton] at hc
        subst hc
        simp [List.getElem?_set]
      · simp at hc

/-! ## Documents the decoder accepts -/

namespace Json

theorem step_reset_space {c : Char} (h : isSpace c = true) : step reset c = some reset := by
  simp [step, reset, stateBeginValue, h]

theorem scan_reset_dropWhile :
    ∀ data : List Char, scan reset data = scan reset (data.dropWhile isSpace)
  | [] => rfl
  | c :: cs => by
    by_cases h : isSpace c = true
    · rw [List.dropWhile_cons_of_pos h, ← scan_reset_dropWhile cs]
      simp [scan, step_reset_space h]
    · rw [List.dropWhile_cons_of_neg h]

theorem checkValid_dropWhile (data : List Char) :
    checkValid data = checkValid (data.dropWhile isSpace) := by
  unfold checkValid
  rw [scan_reset_dropWhile]

theorem scan_endTop_spaces : ∀ (ws : List Char) (s : Scanner), s.step = .endTop →
    scan s ws ≠ none → ws.all isSpace = true
  | [], _, _, _ => rfl
  | c :: cs, s, hs, h => by
    have hstep : step s c = stateEndTop s c := by
      unfold step
      rw [hs]
    by_cases hc : isSpace c = true
    · rw [scan, hstep, stateEndTop, if_pos hc] at h
      simp [hc, scan_endTop_spaces cs s hs h]
    · rw [scan, hstep, stateEndTop, if_neg hc] at h
      exact absurd rfl h

theorem scan_expect (s : Scanner) (c want : Char) (next : Step) (cs : List Char)
    (hstep : step s c = expect s c want next) (h : scan s (c :: cs) ≠ none) :
    c = want ∧ scan { s with step := next } cs ≠ none := by
  rw [scan, hstep, expect] at h
  by_cases hc : c = want
  · subst hc
    simpa using h
  · have : (c == want) = false := by simpa using hc
    rw [this] at h
    exact absurd rfl h

theorem checkValid_null {rest : List Char} (h : checkValid ('n' :: rest) = true) :
    ∃ ws, rest = 'u' :: 'l' :: 'l' :: ws ∧ ws.all isSpace = true := by
  have h0 : step reset 'n' = some ⟨.n, [], false⟩ := by decide
  have h1 : (match scan ⟨.n, [], false⟩ rest with
      | some s => eof s
      | none => false) = true := by
    unfold checkValid at h
    rw [scan, h0] at h
    exact h
  have hne : scan ⟨.n, [], false⟩ rest ≠ none := by
    intro hn
    rw [hn] at h1
    exact absurd h1 (by simp)
  have heof : ∀ s, scan ⟨.n, [], false⟩ rest = some s → eof s = true := by
    intro s hs
    rw [hs] at h1
    exact h1
  match rest, hne, heof with
  | [], _, heof => exact absurd (heof _ rfl) (by decide)
  | c1 :: r1, hne, heof =>
    obtain ⟨e1, hne1⟩ := scan_expect ⟨.n, [], false⟩ c1 'u' .nu r1 rfl hne
    subst e1
    match r1, hne1, heof with
    | [], _, heof => exact absurd (heof _ rfl) (by decide)
    | c2 :: r2, hne1, heof =>
      obtain ⟨e2, hne2⟩ := scan_expect ⟨.nu, [], false⟩ c2 'l' .nul r2 rfl hne1
      subst e2
      match r2, hne2, heof with
      | [], _, heof => exact absurd (heof _ rfl) (by decide)
      | c3 :: r3, hne2, heof =>
        obtain ⟨e3, hne3⟩ := scan_expect ⟨.nul, [], false⟩ c3 'l' .endValue r3 rfl hne2
        subst e3
        refine ⟨r3, rfl, ?_⟩
        match r3, hne3 with
        | [], _ => rfl
        | c :: ws, hne3 =>
          have hstep : step ⟨.endValue, [], false⟩ c
              = stateEndTop ⟨.endTop, [], true⟩ c := rfl
          by_cases hc : isSpace c = true
          · rw [scan, hstep, stateEndTop, if_pos hc] at hne3
            simp [hc, scan_endTop_spaces ws _ rfl hne3]
          · rw [scan, hstep, stateEndTop, if_neg hc] at hne3
            exact absurd rfl hne3

end Json

theorem jsonUnmarshalMapOk_object_or_null {data : String} (h : jsonUnmarshalMapOk data = true) :
    jsonObjectDocument data = true ∨ jsonNullDocument data = true := by
  simp only [jsonUnmarshalMapOk, Bool.and_eq_true] at h
  obtain ⟨⟨hvalid, hfit⟩, _⟩ := h
  rw [Json.checkValid_dropWhile] at hvalid
  unfold Json.topLevelFitsMap at hfit
  unfold jsonObjectDocument jsonNullDocument
  rw [Json.checkValid_dropWhile]
  generalize data.data.dropWhile Json.isSpace = d at hvalid hfit ⊢
  split at hfit
  · left
    simp [hvalid]
  · right
    obtain ⟨ws, rfl, hws⟩ := Json.checkValid_null hvalid
    simpa using hws
  · exact absurd hfit (by simp)

end llm

namespace llm

/-! ## Claims -/

/-- No proper prefix of the document `{"x":1}` is accepted by the decoder. -/
theorem x1_prefix_rejected (s t : String) (h : s ++ t = "\x7b\"x\":1\x7d") (ht : t ≠ "") :
    jsonUnmarshalMapOk s = false := by
  have hall : ∀ l ∈ "\x7b\"x\":1\x7d".data.inits, l ≠ "\x7b\"x\":1\x7d".data →
      jsonUnmarshalMapOk (String.mk l) = false := by decide
  have h1 : s.data ++ t.data = "\x7b\"x\":1\x7d".data := by rw [← String.data_append, h]
  have hmem : s.data ∈ "\x7b\"x\":1\x7d".data.inits := by
    rw [List.mem_inits]
    exact ⟨t.data, h1⟩
  have hne : s.data ≠ "\x7b\"x\":1\x7d".data := by
    intro heq
    apply ht
    rw [← h1] at heq
    have : t.data = [] := by
      have := List.append_cancel_left (heq.symm.trans (List.append_nil _).symm)
      exact this
    exact String.ext this
  exact hall s.data hmem hne

/-- The first fragment of a call on a fresh wrapper: the buffer it creates. -/
theorem recvToolCall_fresh (parse : String → Bool) (tc : openai.ToolCall) (hid : tc.ID ≠ "") :
    recvToolCall parse newOpenRouterStreamWrapper tc =
      if tc.Function.Arguments = "" then
        ({ heap := [⟨tc.ID, tc.Type_, ⟨tc.Function.Name, ""⟩⟩]
           currentToolCall := some 0
           toolCallBuffer := [(tc.ID, 0)] }, [])
      else if parse tc.Function.Arguments then
        ({ heap := [⟨tc.ID, tc.Type_, ⟨tc.Function.Name, tc.Function.Arguments⟩⟩]
           currentToolCall := none
           toolCallBuffer := [] },
          [⟨tc.ID, tc.Type_, ⟨tc.Function.Name, tc.Function.Arguments⟩⟩])
      else
        ({ heap := [⟨tc.ID, tc.Type_, ⟨tc.Function.Name, tc.Function.Arguments⟩⟩]
           currentToolCall := some 0
           toolCallBuffer := [(tc.ID, 0)] }, []) := by
  rw [recvToolCall_create parse (by rfl) hid,
    applyFragment_eq parse (o := newToolCall tc) (by rfl)]
  rw [newToolCall_named]
  simp [newOpenRouterStreamWrapper, mapSet, mapDelete, ToolCall.appendArguments, newToolCall]

/-- Claim C1.  Split fragments reconstruct: however the document `{"x":1}` is
cut into one or more consecutive substrings, and however the fragments
carrying them (the first with id `a`, the others without id) are spread over
the choices of one chunk or of several chunks received in a row by a fresh
wrapper, the tool calls returned over all `Recv` calls are exactly one call,
with id `a` and arguments `{"x":1}`. -/
theorem split_fragments_reconstruct
    (chunks : List openai.ChatCompletionStreamResponse)
    (first : openai.ToolCall) (rest : List openai.ToolCall)
    (hfrags : streamFragments chunks = first :: rest)
    (hfirst : first.ID = "a") (hrest : ∀ f ∈ rest, f.ID = "")
    (hcut : concat ((first :: rest).map (fun f => f.Function.Arguments)) = "\x7b\"x\":1\x7d") :
    (emittedToolCalls (recvChunks jsonUnmarshalMapOk newOpenRouterStreamWrapper chunks).2).map
        (fun call => (call.ID, call.Function.Arguments)) = [("a", "\x7b\"x\":1\x7d")] := by
  have hS : jsonUnmarshalMapOk "\x7b\"x\":1\x7d" = true := by decide
  have hid : first.ID ≠ "" := by rw [hfirst]; decide
  rw [(recvChunks_eq _ _ chunks).2, hfrags]
  simp only [List.map_cons, concat] at hcut
  have hcons := (Reachable.fragment first (@Reachable.fresh jsonUnmarshalMapOk)).consistent
  simp only [recvToolCalls]
  rw [recvToolCall_fresh _ first hid] at hcons ⊢
  by_cases harg : first.Function.Arguments = ""
  · rw [if_pos harg] at hcons ⊢
    rw [harg, String.empty_append] at hcut
    simp only [List.nil_append]
    rw [recvToolCalls_idless_run _ _ hS x1_prefix_rejected rest _ 0
      ⟨first.ID, first.Type_, ⟨first.Function.Name, ""⟩⟩ hcons rfl rfl hrest
      (by simpa using hcut) (by show ("" : String) ≠ "\x7b\"x\":1\x7d"; decide)]
    simp [hfirst]
  · rw [if_neg harg] at hcons ⊢
    by_cases hdone : concat (rest.map (fun f => f.Function.Arguments)) = ""
    · rw [hdone, String.append_empty] at hcut
      rw [hcut, hS] at hcons ⊢
      simp only [if_true] at hcons ⊢
      rw [recvToolCalls_idless_orphan _ hcons.mapGet_empty rfl rest hrest]
      simp [hfirst]
    · rw [x1_prefix_rejected _ _ hcut hdone] at hcons ⊢
      simp only [Bool.false_eq_true, if_false, List.nil_append] at hcons ⊢
      rw [recvToolCalls_idless_run _ _ hS x1_prefix_rejected rest _ 0
        ⟨first.ID, first.Type_, ⟨first.Function.Name, first.Function.Arguments⟩⟩ hcons rfl rfl
        hrest hcut
        (by
          intro h
          apply hdone
          simp only at h
          rw [← h] at hcut
          exact str_append_eq_self hcut)]
      simp [hfirst]

/-- Witness of C1: the document cut as `{"x`, `":`, the empty string and `1}`,
the first cut in one chunk and the other three in the next. -/
theorem split_fragments_reconstruct_witness :
    (emittedToolCalls (recvChunks jsonUnmarshalMapOk newOpenRouterStreamWrapper
        [⟨"r", [⟨0, ⟨"", "assistant", [⟨some 0, "a", "function", ⟨"f", "\x7b\"x"⟩⟩]⟩, ""⟩]⟩,
         ⟨"r", [⟨0, ⟨"", "", [⟨some 0, "", "", ⟨"", "\":"⟩⟩, ⟨some 0, "", "", ⟨"", ""⟩⟩,
            ⟨some 0, "", "", ⟨"", "1\x7d"⟩⟩]⟩, ""⟩]⟩]).2).map
        (fun call => (call.ID, call.Function.Arguments)) = [("a", "\x7b\"x\":1\x7d")] :=
  split_fragments_reconstruct _ ⟨some 0, "a", "function", ⟨"f", "\x7b\"x"⟩⟩
    [⟨some 0, "", "", ⟨"", "\":"⟩⟩, ⟨some 0, "", "", ⟨"", ""⟩⟩, ⟨some 0, "", "", ⟨"", "1\x7d"⟩⟩]
    (by rfl) (by rfl) (by decide) (by decide)

/-- Claim C2.  Id-less continuation: in every state a wrapper can be in that
has no buffer with id `b`, a fragment with id `b` and arguments `{"y":`
followed immediately by an id-less fragment with arguments `2}` (in one chunk
or spread over chunks received in a row) makes `Recv` return exactly one tool
call, with id `b` and arguments `{"y":2}`; the buffer map is afterwards what it
was before, and every buffered call it holds is unchanged. -/
theorem idless_continuation (w : openRouterStreamWrapper)
    (hw : Reachable jsonUnmarshalMapOk w) (hb : mapGet w.toolCallBuffer "b" = none)
    (chunks : List openai.ChatCompletionStreamResponse) (f1 f2 : openai.ToolCall)
    (hfrags : streamFragments chunks = [f1, f2])
    (hid1 : f1.ID = "b") (harg1 : f1.Function.Arguments = "\x7b\"y\":")
    (hid2 : f2.ID = "") (harg2 : f2.Function.Arguments = "2\x7d") :
    (emittedToolCalls (recvChunks jsonUnmarshalMapOk w chunks).2).map
        (fun call => (call.ID, call.Function.Arguments)) = [("b", "\x7b\"y\":2\x7d")]
      ∧ (recvChunks jsonUnmarshalMapOk w chunks).1.toolCallBuffer = w.toolCallBuffer
      ∧ ∀ k p, (k, p) ∈ w.toolCallBuffer →
          (recvChunks jsonUnmarshalMapOk w chunks).1.heap[p]? = w.heap[p]? := by
  have hne1 : f1.ID ≠ "" := by rw [hid1]; decide
  have hb1 : mapGet w.toolCallBuffer f1.ID = none := by rw [hid1]; exact hb
  have hna1 : f1.Function.Arguments ≠ "" := by rw [harg1]; decide
  have hna2 : f2.Function.Arguments ≠ "" := by rw [harg2]; decide
  have hp1 : jsonUnmarshalMapOk ("" ++ f1.Function.Arguments) = false := by rw [harg1]; decide
  have hp2 : jsonUnmarshalMapOk ("" ++ f1.Function.Arguments ++ f2.Function.Arguments) = true := by
    rw [harg1, harg2]; decide
  have hcat : "" ++ f1.Function.Arguments ++ f2.Function.Arguments = "\x7b\"y\":2\x7d" := by
    rw [harg1, harg2]; decide
  have hcons := (hw.fragment f1).consistent
  obtain ⟨hst, hem⟩ := recvChunks_eq jsonUnmarshalMapOk w chunks
  rw [hst, hem, hfrags]
  simp only [recvToolCalls]
  have hnew : (w.heap ++ [newToolCall f1])[w.heap.length]? = some (newToolCall f1) := by simp
  have hstep1 : recvToolCall jsonUnmarshalMapOk w f1 =
      ({ heap := (w.heap ++ [newToolCall f1]).set w.heap.length
            ((newToolCall f1).appendArguments f1.Function.Arguments)
         currentToolCall := some w.heap.length
         toolCallBuffer := mapSet w.toolCallBuffer f1.ID w.heap.length }, []) := by
    rw [recvToolCall_create _ hb1 hne1, applyFragment_eq _ hnew, if_neg hna1]
    simp only [newToolCall_arguments, hp1, Bool.false_eq_true, if_false, newToolCall_named]
  rw [hstep1] at hcons ⊢
  have hcur : ((w.heap ++ [newToolCall f1]).set w.heap.length
      ((newToolCall f1).appendArguments f1.Function.Arguments))[w.heap.length]?
      = some ((newToolCall f1).appendArguments f1.Function.Arguments) := by simp
  rw [recvToolCall_idless_append _ hcons.mapGet_empty hid2 hna2 rfl hcur]
  have hS : jsonUnmarshalMapOk "\x7b\"y\":2\x7d" = true := by decide
  simp only [ToolCall.appendArguments_arguments, newToolCall_arguments, hcat, hS, if_true,
    ToolCall.appendArguments_ID, newToolCall_ID, List.append_nil, List.map_cons,
    List.map_nil]
  refine ⟨?_, ?_, ?_⟩
  · simp only [List.nil_append, List.map_cons, List.map_nil, ToolCall.appendArguments_ID,
      newToolCall_ID, ToolCall.appendArguments_arguments, newToolCall_arguments, hcat, hid1]
  · have hdel : mapDelete (mapSet w.toolCallBuffer f1.ID w.heap.length) f1.ID
        = w.toolCallBuffer := by
      simp only [mapSet, mapDelete_of_mapGet_none hb1]
      simp only [mapDelete, List.filter_cons, bne_self_eq_false, Bool.false_eq_true, if_false]
      exact mapDelete_of_mapGet_none hb1
    exact hdel
  · intro k p hkp
    obtain ⟨o, ho, _⟩ := hw.consistent.entry k p hkp
    have hlt : p < w.heap.length := by
      rcases List.getElem?_eq_some_iff.1 ho with ⟨h, _⟩
      exact h
    have hne : w.heap.length ≠ p := Nat.ne_of_gt hlt
    simp [List.getElem?_set, hne, List.getElem?_append_left hlt]

/-- Witness of C2: the wrapper holds an unfinished buffer `a`, and the two
fragments arrive in one chunk. -/
theorem idless_continuation_witness :
    (emittedToolCalls (recvChunks jsonUnmarshalMapOk
        (recvToolCall jsonUnmarshalMapOk newOpenRouterStreamWrapper
          ⟨some 0, "a", "function", ⟨"f", "\x7b"⟩⟩).1
        [⟨"r", [⟨0, ⟨"", "", [⟨some 1, "b", "function", ⟨"g", "\x7b\"y\":"⟩⟩,
            ⟨some 1, "", "", ⟨"", "2\x7d"⟩⟩]⟩, ""⟩]⟩]).2).map
        (fun call => (call.ID, call.Function.Arguments)) = [("b", "\x7b\"y\":2\x7d")]
      ∧ (recvChunks jsonUnmarshalMapOk
        (recvToolCall jsonUnmarshalMapOk newOpenRouterStreamWrapper
          ⟨some 0, "a", "function", ⟨"f", "\x7b"⟩⟩).1
        [⟨"r", [⟨0, ⟨"", "", [⟨some 1, "b", "function", ⟨"g", "\x7b\"y\":"⟩⟩,
            ⟨some 1, "", "", ⟨"", "2\x7d"⟩⟩]⟩, ""⟩]⟩]).1.toolCallBuffer = [("a", 0)] :=
  have h := idless_continuation
    (recvToolCall jsonUnmarshalMapOk newOpenRouterStreamWrapper
      ⟨some 0, "a", "function", ⟨"f", "\x7b"⟩⟩).1
    (Reachable.fresh.fragment _) (by decide)
    [⟨"r", [⟨0, ⟨"", "", [⟨some 1, "b", "function", ⟨"g", "\x7b\"y\":"⟩⟩,
        ⟨some 1, "", "", ⟨"", "2\x7d"⟩⟩]⟩, ""⟩]⟩]
    ⟨some 1, "b", "function", ⟨"g", "\x7b\"y\":"⟩⟩ ⟨some 1, "", "", ⟨"", "2\x7d"⟩⟩
    (by rfl) (by rfl) (by rfl) (by rfl) (by rfl)
  ⟨h.1, h.2.1.trans (by decide)⟩

/-- The calls emitted for one of the ids of a session whose fragments all
carry an id and arguments, started on a fresh wrapper. -/
theorem emitted_for_id (x : String) (frags : List openai.ToolCall)
    (hall : ∀ f ∈ frags, f.ID ≠ "" ∧ f.Function.Arguments ≠ "")
    (hfull : jsonUnmarshalMapOk (concat (fragmentArguments x frags)) = true)
    (hpre : ∀ n, 0 < n → n < (fragmentArguments x frags).length →
      jsonUnmarshalMapOk (concat ((fragmentArguments x frags).take n)) = false) :
    ((recvToolCalls jsonUnmarshalMapOk newOpenRouterStreamWrapper frags).2.filter
        (fun c => c.ID = x)).map (fun c => (c.ID, c.Function.Arguments))
      = [(x, concat (fragmentArguments x frags))] := by
  have hempty : jsonUnmarshalMapOk "" = false := by decide
  have hne : frags.filter (fun f => f.ID = x) ≠ [] := by
    intro h
    simp only [fragmentArguments, h, List.map_nil, concat] at hfull
    rw [hempty] at hfull
    exact Bool.false_ne_true hfull
  have := recvToolCalls_single jsonUnmarshalMapOk x frags newOpenRouterStreamWrapper ""
    Consistent.of_fresh (Or.inl ⟨rfl, rfl⟩) hall
    (by
      intro n hn0 hn
      have := hpre n hn0 (by simpa [fragmentArguments] using hn)
      simpa [fragmentArguments, List.map_take] using this)
    (by
      intro _
      simpa [fragmentArguments] using hfull)
  rw [this, if_neg hne]
  simp [fragmentArguments]

/-- Claim C3.  Independent interleaving: for distinct non-empty ids `a` and `b`,
when the fragments a fresh wrapper receives (in any chunking) all carry id `a`
or id `b` and non-empty arguments, in any interleaving, and for each of the
two ids the arguments of its fragments, concatenated in arrival order, parse
while the concatenation of no shorter non-empty prefix of them parses, then
exactly two tool calls are returned: one with id `a` and the concatenated
arguments of `a`, one with id `b` and the concatenated arguments of `b`. -/
theorem independent_interleaving (a b : String) (ha : a ≠ "") (hb : b ≠ "") (hab : a ≠ b)
    (chunks : List openai.ChatCompletionStreamResponse)
    (hall : ∀ f ∈ streamFragments chunks,
      (f.ID = a ∨ f.ID = b) ∧ f.Function.Arguments ≠ "")
    (hA : jsonUnmarshalMapOk (concat (fragmentArguments a (streamFragments chunks))) = true)
    (hpreA : ∀ n, 0 < n → n < (fragmentArguments a (streamFragments chunks)).length →
      jsonUnmarshalMapOk (concat ((fragmentArguments a (streamFragments chunks)).take n)) = false)
    (hB : jsonUnmarshalMapOk (concat (fragmentArguments b (streamFragments chunks))) = true)
    (hpreB : ∀ n, 0 < n → n < (fragmentArguments b (streamFragments chunks)).length →
      jsonUnmarshalMapOk (concat ((fragmentArguments b (streamFragments chunks)).take n)) = false) :
    (emittedToolCalls (recvChunks jsonUnmarshalMapOk newOpenRouterStreamWrapper chunks).2).map
        (fun c => (c.ID, c.Function.Arguments))
        = [(a, concat (fragmentArguments a (streamFragments chunks))),
           (b, concat (fragmentArguments b (streamFragments chunks)))]
      ∨ (emittedToolCalls (recvChunks jsonUnmarshalMapOk newOpenRouterStreamWrapper chunks).2).map
        (fun c => (c.ID, c.Function.Arguments))
        = [(b, concat (fragmentArguments b (streamFragments chunks))),
           (a, concat (fragmentArguments a (streamFragments chunks)))] := by
  rw [(recvChunks_eq _ _ chunks).2]
  have hall1 : ∀ f ∈ streamFragments chunks, f.ID ≠ "" ∧ f.Function.Arguments ≠ "" := by
    intro f hf
    obtain ⟨hid, harg⟩ := hall f hf
    refine ⟨?_, harg⟩
    rcases hid with h | h <;> rw [h] <;> assumption
  apply two_calls hab
  · intro c hc
    obtain ⟨f, hf, hcf⟩ := recvToolCalls_out_ID jsonUnmarshalMapOk _ _ Consistent.of_fresh
      (fun f hf => (hall1 f hf).1) c hc
    rw [hcf]
    exact (hall f hf).1
  · exact emitted_for_id a _ hall1 hA hpreA
  · exact emitted_for_id b _ hall1 hB hpreB

/-- Witness of C3: the calls `a` with `{"x":1}` and `b` with `{"y":2}`, each
cut in two, arriving as a1, b1, b2, a2 over two chunks. -/
theorem independent_interleaving_witness :
    (emittedToolCalls (recvChunks jsonUnmarshalMapOk newOpenRouterStreamWrapper
        [⟨"r", [⟨0, ⟨"", "", [⟨some 0, "a", "function", ⟨"f", "\x7b\"x\":"⟩⟩,
            ⟨some 1, "b", "function", ⟨"g", "\x7b\"y\""⟩⟩]⟩, ""⟩]⟩,
         ⟨"r", [⟨0, ⟨"", "", [⟨some 1, "b", "function", ⟨"", ":2\x7d"⟩⟩,
            ⟨some 0, "a", "function", ⟨"", "1\x7d"⟩⟩]⟩, ""⟩]⟩]).2).map
        (fun c => (c.ID, c.Function.Arguments))
      = [("b", "\x7b\"y\":2\x7d"), ("a", "\x7b\"x\":1\x7d")] :=
  (independent_interleaving "a" "b" (by decide) (by decide) (by decide)
    [⟨"r", [⟨0, ⟨"", "", [⟨some 0, "a", "function", ⟨"f", "\x7b\"x\":"⟩⟩,
        ⟨some 1, "b", "function", ⟨"g", "\x7b\"y\""⟩⟩]⟩, ""⟩]⟩,
     ⟨"r", [⟨0, ⟨"", "", [⟨some 1, "b", "function", ⟨"", ":2\x7d"⟩⟩,
        ⟨some 0, "a", "function", ⟨"", "1\x7d"⟩⟩]⟩, ""⟩]⟩]
    (by decide) (by decide)
    (fun n h0 hn => by
      have hlt : n < 2 := hn
      interval_cases n
      decide)
    (by decide)
    (fun n h0 hn => by
      have hlt : n < 2 := hn
      interval_cases n
      decide)).elim
    (fun h => absurd h (by decide)) (fun h => h.trans (by decide))

/-- Counterexample to C4: `json.Unmarshal` into a string-keyed map returns no
error for the text `null`, so a fragment of the call `a` with the arguments
`null` completes the call; `Recv` hands out a call whose arguments are not a
JSON object document. -/
theorem emitted_null_arguments :
    responseToolCalls (Recv jsonUnmarshalMapOk newOpenRouterStreamWrapper
        (.ok ⟨"r", [⟨0, ⟨"", "", [⟨some 0, "a", "function", ⟨"f", "null"⟩⟩]⟩, ""⟩]⟩)).2.1
      = [⟨"a", "function", ⟨"f", "null"⟩⟩]
    ∧ jsonObjectDocument "null" = false := by
  decide

/-- Claim C4, amended.  Whatever chunks a fresh wrapper is fed, every tool
call in a response returned by `Recv` has a non-empty id and an arguments
string that the decoder accepted, for every decoder `parse`: a call whose
accumulated arguments do not parse is never emitted.  With `json.Unmarshal`
into a string-keyed map as the decoder, the arguments of every such call are
a JSON object document or the JSON literal `null`. -/
theorem emitted_calls_decode (parse : String → Bool)
    (chunks : List openai.ChatCompletionStreamResponse) :
    (∀ call ∈ emittedToolCalls (recvChunks parse newOpenRouterStreamWrapper chunks).2,
        call.ID ≠ "" ∧ parse call.Function.Arguments = true)
      ∧ ∀ call ∈ emittedToolCalls
          (recvChunks jsonUnmarshalMapOk newOpenRouterStreamWrapper chunks).2,
          call.ID ≠ "" ∧ jsonUnmarshalMapOk call.Function.Arguments = true
            ∧ (jsonObjectDocument call.Function.Arguments = true
              ∨ jsonNullDocument call.Function.Arguments = true) := by
  have h : ∀ (parse : String → Bool),
      ∀ call ∈ emittedToolCalls (recvChunks parse newOpenRouterStreamWrapper chunks).2,
        call.ID ≠ "" ∧ parse call.Function.Arguments = true := by
    intro parse
    rw [(recvChunks_eq parse _ chunks).2]
    exact recvToolCalls_out_ok parse _ _ Consistent.of_fresh
  refine ⟨h parse, fun call hcall => ?_⟩
  obtain ⟨hid, hok⟩ := h jsonUnmarshalMapOk call hcall
  exact ⟨hid, hok, jsonUnmarshalMapOk_object_or_null hok⟩

/-- Instance of C4 as amended: the call emitted for the arguments `null`. -/
theorem emitted_calls_decode_witness :
    (⟨"a", "function", ⟨"f", "null"⟩⟩ : ToolCall).ID ≠ ""
      ∧ jsonUnmarshalMapOk (⟨"a", "function", ⟨"f", "null"⟩⟩ : ToolCall).Function.Arguments
        = true
      ∧ (jsonObjectDocument (⟨"a", "function", ⟨"f", "null"⟩⟩ : ToolCall).Function.Arguments
          = true
        ∨ jsonNullDocument (⟨"a", "function", ⟨"f", "null"⟩⟩ : ToolCall).Function.Arguments
          = true) :=
  (emitted_calls_decode jsonUnmarshalMapOk
    [⟨"r", [⟨0, ⟨"", "", [⟨some 0, "a", "function", ⟨"f", "null"⟩⟩]⟩, ""⟩]⟩]).2
    ⟨"a", "function", ⟨"f", "null"⟩⟩ (by decide)

/-- Counterexample to C5: a wrapper that holds the unfinished buffer `a`
(name `f`, arguments `{`) answers the end of the stream exactly as a fresh
wrapper does, with the zero response and `io.EOF`: the buffer is not reported. -/
theorem eof_reports_nothing :
    mapGet (recvToolCall jsonUnmarshalMapOk newOpenRouterStreamWrapper
        ⟨some 0, "a", "function", ⟨"f", "\x7b"⟩⟩).1.toolCallBuffer "a" = some 0
      ∧ (Recv jsonUnmarshalMapOk (recvToolCall jsonUnmarshalMapOk newOpenRouterStreamWrapper
          ⟨some 0, "a", "function", ⟨"f", "\x7b"⟩⟩).1 (.error GoError.EOF)).2
        = (zeroResponse, some GoError.EOF)
      ∧ (Recv jsonUnmarshalMapOk newOpenRouterStreamWrapper (.error GoError.EOF)).2
        = (zeroResponse, some GoError.EOF)
      ∧ responseToolCalls (Recv jsonUnmarshalMapOk
          (recvToolCall jsonUnmarshalMapOk newOpenRouterStreamWrapper
            ⟨some 0, "a", "function", ⟨"f", "\x7b"⟩⟩).1 (.error GoError.EOF)).2.1 = [] := by
  decide

/-- Claim C5, amended.  When the stream ends, `Recv` returns the zero response
and `io.EOF` whatever the wrapper holds, and leaves the wrapper as it is: the
buffers still accumulating stay in the map and are not reported. -/
theorem eof_returns_zero_response (parse : String → Bool) (w : openRouterStreamWrapper) :
    Recv parse w (.error GoError.EOF) = (w, zeroResponse, some GoError.EOF) := by
  simp [Recv]

/-- Claim C6.  For every sequence of fragments `pre` processed by a fresh
wrapper and every fragment `tc` after them, a tool call emitted for `tc` comes
from the buffer `tc` goes to; its arguments are the concatenation, in arrival
order, of exactly the argument fragments that went to that buffer since it
was created (those of the fragments carrying its id and of the id-less
fragments received while it was the active buffer, `tc` included); and
immediately afterwards its id is not a key of the buffer map. -/
theorem emitted_arguments_are_appended (parse : String → Bool)
    (pre : List openai.ToolCall) (tc : openai.ToolCall) (call : ToolCall)
    (hcall : call ∈
      (recvToolCall parse (recvToolCalls parse newOpenRouterStreamWrapper pre).1 tc).2) :
    ∃ p, target (recvToolCalls parse newOpenRouterStreamWrapper pre).1 tc = some p
      ∧ call.Function.Arguments
        = concat (appendedTo parse p newOpenRouterStreamWrapper (pre ++ [tc]))
      ∧ mapGet (recvToolCall parse
          (recvToolCalls parse newOpenRouterStreamWrapper pre).1 tc).1.toolCallBuffer call.ID
        = none := by
  have hw := Consistent.of_fresh.run parse pre
  obtain ⟨p, htarget, hheap⟩ := recvToolCall_out_target parse hw tc call hcall
  refine ⟨p, htarget, ?_, (recvToolCall_emit_clears parse hw tc call hcall).2⟩
  have hrun := argumentsAt_recvToolCalls parse p (pre ++ [tc]) newOpenRouterStreamWrapper
    Consistent.of_fresh
  rw [recvToolCalls_append] at hrun
  simp only [recvToolCalls] at hrun
  rw [argumentsAt_of_some hheap] at hrun
  rw [hrun]
  simp [argumentsAt, newOpenRouterStreamWrapper]

/-- Witness of C6: the call `a` receives `{"x"` with its id, then `:1` without
id while it is the active buffer, and, after the call `b` has come and gone,
`}` with its id. -/
theorem emitted_arguments_are_appended_witness :
    ∃ p, target (recvToolCalls jsonUnmarshalMapOk newOpenRouterStreamWrapper
          [⟨some 0, "a", "function", ⟨"f", "\x7b\"x\""⟩⟩, ⟨none, "", "", ⟨"", ":1"⟩⟩,
           ⟨some 1, "b", "function", ⟨"g", "\x7b\x7d"⟩⟩]).1 ⟨some 0, "a", "", ⟨"", "\x7d"⟩⟩ = some p
      ∧ (⟨"a", "function", ⟨"f", "\x7b\"x\":1\x7d"⟩⟩ : ToolCall).Function.Arguments
        = concat (appendedTo jsonUnmarshalMapOk p newOpenRouterStreamWrapper
          ([⟨some 0, "a", "function", ⟨"f", "\x7b\"x\""⟩⟩, ⟨none, "", "", ⟨"", ":1"⟩⟩,
           ⟨some 1, "b", "function", ⟨"g", "\x7b\x7d"⟩⟩] ++ [⟨some 0, "a", "", ⟨"", "\x7d"⟩⟩]))
      ∧ mapGet (recvToolCall jsonUnmarshalMapOk
          (recvToolCalls jsonUnmarshalMapOk newOpenRouterStreamWrapper
            [⟨some 0, "a", "function", ⟨"f", "\x7b\"x\""⟩⟩, ⟨none, "", "", ⟨"", ":1"⟩⟩,
             ⟨some 1, "b", "function", ⟨"g", "\x7b\x7d"⟩⟩]).1 ⟨some 0, "a", "", ⟨"", "\x7d"⟩⟩).1.toolCallBuffer
          (⟨"a", "function", ⟨"f", "\x7b\"x\":1\x7d"⟩⟩ : ToolCall).ID = none :=
  emitted_arguments_are_appended jsonUnmarshalMapOk
    [⟨some 0, "a", "function", ⟨"f", "\x7b\"x\""⟩⟩, ⟨none, "", "", ⟨"", ":1"⟩⟩,
     ⟨some 1, "b", "function", ⟨"g", "\x7b\x7d"⟩⟩] ⟨some 0, "a", "", ⟨"", "\x7d"⟩⟩
    ⟨"a", "function", ⟨"f", "\x7b\"x\":1\x7d"⟩⟩ (by decide)

/-- Claim C7.  Post-completion orphan: in every state a wrapper can be in,
after a fragment that completes a tool call the call's id is no longer in the
map and there is no active buffer, so that an id-less fragment arriving next
changes no buffer (the state stays as it is) and produces no tool call. -/
theorem post_completion_orphan (parse : String → Bool) (w : openRouterStreamWrapper)
    (hw : Reachable parse w) (tc : openai.ToolCall) (call : ToolCall)
    (hcall : call ∈ (recvToolCall parse w tc).2) :
    mapGet (recvToolCall parse w tc).1.toolCallBuffer call.ID = none
      ∧ (recvToolCall parse w tc).1.currentToolCall = none
      ∧ ∀ next : openai.ToolCall, next.ID = "" →
          recvToolCall parse (recvToolCall parse w tc).1 next = ((recvToolCall parse w tc).1, []) := by
  obtain ⟨hcur, hgone⟩ := recvToolCall_emit_clears parse hw.consistent tc call hcall
  refine ⟨hgone, hcur, ?_⟩
  intro next hnext
  exact recvToolCall_idless_orphan parse
    (hw.consistent.step parse tc).mapGet_empty hnext hcur

/-- Witness of C7: the buffer `a` holds `{`, and the id-less fragment `}`
completes it. -/
theorem post_completion_orphan_witness :
    mapGet (recvToolCall jsonUnmarshalMapOk
        (recvToolCall jsonUnmarshalMapOk newOpenRouterStreamWrapper
          ⟨some 0, "a", "function", ⟨"f", "\x7b"⟩⟩).1
        ⟨some 0, "", "", ⟨"", "\x7d"⟩⟩).1.toolCallBuffer
        (⟨"a", "function", ⟨"f", "\x7b\x7d"⟩⟩ : ToolCall).ID = none
      ∧ (recvToolCall jsonUnmarshalMapOk
        (recvToolCall jsonUnmarshalMapOk newOpenRouterStreamWrapper
          ⟨some 0, "a", "function", ⟨"f", "\x7b"⟩⟩).1
        ⟨some 0, "", "", ⟨"", "\x7d"⟩⟩).1.currentToolCall = none
      ∧ ∀ next : openai.ToolCall, next.ID = "" →
          recvToolCall jsonUnmarshalMapOk (recvToolCall jsonUnmarshalMapOk
            (recvToolCall jsonUnmarshalMapOk newOpenRouterStreamWrapper
              ⟨some 0, "a", "function", ⟨"f", "\x7b"⟩⟩).1
            ⟨some 0, "", "", ⟨"", "\x7d"⟩⟩).1 next
          = ((recvToolCall jsonUnmarshalMapOk
            (recvToolCall jsonUnmarshalMapOk newOpenRouterStreamWrapper
              ⟨some 0, "a", "function", ⟨"f", "\x7b"⟩⟩).1
            ⟨some 0, "", "", ⟨"", "\x7d"⟩⟩).1, []) :=
  post_completion_orphan jsonUnmarshalMapOk
    (recvToolCall jsonUnmarshalMapOk newOpenRouterStreamWrapper
      ⟨some 0, "a", "function", ⟨"f", "\x7b"⟩⟩).1
    (Reachable.fresh.fragment _) ⟨some 0, "", "", ⟨"", "\x7d"⟩⟩
    ⟨"a", "function", ⟨"f", "\x7b\x7d"⟩⟩ (by decide)

/-- Claim C8.  An id-less fragment processed while there is no active buffer
is dropped without failing.  In every state `w` a wrapper can be in, for a
chunk whose choice `c` holds the fragment `orphan` between the fragments `pre`
and `post`, when there is no active buffer once the fragments before it have
been processed: the fragment emits nothing and leaves the state (buffer map,
active reference, buffers) as it is; `Recv` returns no error; and the state
after `Recv` and the tool calls it returns are those of processing all the
other fragments of the chunk, in order. -/
theorem orphan_fragment_dropped (parse : String → Bool) (w : openRouterStreamWrapper)
    (hw : Reachable parse w) (id : String)
    (before after : List openai.ChatCompletionStreamChoice)
    (c : openai.ChatCompletionStreamChoice) (pre post : List openai.ToolCall)
    (orphan : openai.ToolCall) (hc : c.Delta.ToolCalls = pre ++ orphan :: post)
    (hid : orphan.ID = "")
    (hcur : (recvToolCalls parse w
      (before.flatMap (fun c => c.Delta.ToolCalls) ++ pre)).1.currentToolCall = none) :
    recvToolCall parse
        (recvToolCalls parse w (before.flatMap (fun c => c.Delta.ToolCalls) ++ pre)).1 orphan
        = ((recvToolCalls parse w (before.flatMap (fun c => c.Delta.ToolCalls) ++ pre)).1, [])
      ∧ (Recv parse w (.ok ⟨id, before ++ c :: after⟩)).2.2 = none
      ∧ (Recv parse w (.ok ⟨id, before ++ c :: after⟩)).1
        = (recvToolCalls parse w (before.flatMap (fun c => c.Delta.ToolCalls) ++ pre ++ post
            ++ after.flatMap (fun c => c.Delta.ToolCalls))).1
      ∧ responseToolCalls (Recv parse w (.ok ⟨id, before ++ c :: after⟩)).2.1
        = (recvToolCalls parse w (before.flatMap (fun c => c.Delta.ToolCalls) ++ pre ++ post
            ++ after.flatMap (fun c => c.Delta.ToolCalls))).2 := by
  have hmid := hw.consistent.run parse
    (before.flatMap (fun c => c.Delta.ToolCalls) ++ pre)
  have hfr : chunkFragments ⟨id, before ++ c :: after⟩
      = (before.flatMap (fun c => c.Delta.ToolCalls) ++ pre) ++ orphan ::
          (post ++ after.flatMap (fun c => c.Delta.ToolCalls)) := by
    simp [chunkFragments, hc]
  have hdrop := recvToolCalls_drop_orphan parse hw.consistent
    (before.flatMap (fun c => c.Delta.ToolCalls) ++ pre)
    (post ++ after.flatMap (fun c => c.Delta.ToolCalls)) hid hcur
  obtain ⟨h1, h2⟩ := Recv_ok_eq parse w ⟨id, before ++ c :: after⟩
  refine ⟨recvToolCall_idless_orphan parse hmid.mapGet_empty hid hcur, rfl, ?_, ?_⟩
  · rw [h1, hfr, hdrop]
    simp only [List.append_assoc]
  · rw [h2, hfr, hdrop]
    simp only [List.append_assoc]

/-- Witness of C8: a fresh wrapper receives a chunk whose second choice holds
an id-less fragment between two fragments of the call `a`. -/
theorem orphan_fragment_dropped_witness :
    responseToolCalls (Recv jsonUnmarshalMapOk newOpenRouterStreamWrapper
        (.ok ⟨"r", [⟨0, ⟨"hi", "assistant", []⟩, ""⟩] ++
          ⟨1, ⟨"", "", [⟨none, "", "", ⟨"", "zz"⟩⟩, ⟨some 0, "a", "function", ⟨"f", "\x7b"⟩⟩]⟩, ""⟩ ::
          [⟨2, ⟨"", "", [⟨some 0, "a", "", ⟨"", "\x7d"⟩⟩]⟩, "stop"⟩]⟩)).2.1
      = [⟨"a", "function", ⟨"f", "\x7b\x7d"⟩⟩] := by
  have h := orphan_fragment_dropped jsonUnmarshalMapOk newOpenRouterStreamWrapper
    Reachable.fresh "r"
    [⟨0, ⟨"hi", "assistant", []⟩, ""⟩] [⟨2, ⟨"", "", [⟨some 0, "a", "", ⟨"", "\x7d"⟩⟩]⟩, "stop"⟩]
    ⟨1, ⟨"", "", [⟨none, "", "", ⟨"", "zz"⟩⟩, ⟨some 0, "a", "function", ⟨"f", "\x7b"⟩⟩]⟩, ""⟩
    [] [⟨some 0, "a", "function", ⟨"f", "\x7b"⟩⟩] ⟨none, "", "", ⟨"", "zz"⟩⟩
    rfl rfl rfl
  rw [h.2.2.2]
  decide

/-- Counterexample to C9: on a fresh wrapper, a chunk whose delta holds an
orphan fragment followed by the first fragment of the call `a` gives the same
response, the same error and the same wrapper state as the chunk without the
orphan fragment: nothing records the drop. -/
theorem orphan_drop_unobservable :
    Recv jsonUnmarshalMapOk newOpenRouterStreamWrapper
        (.ok ⟨"r", [⟨0, ⟨"", "assistant", [⟨none, "", "", ⟨"", "zz"⟩⟩,
          ⟨some 0, "a", "function", ⟨"f", "\x7b"⟩⟩]⟩, ""⟩]⟩)
      = Recv jsonUnmarshalMapOk newOpenRouterStreamWrapper
        (.ok ⟨"r", [⟨0, ⟨"", "assistant", [⟨some 0, "a", "function", ⟨"f", "\x7b"⟩⟩]⟩, ""⟩]⟩) := by
  decide

/-- Claim C9, amended.  The drop of an orphan fragment is not recorded.  In
every state a wrapper can be in, for a chunk with an id-less fragment that is
processed while there is no active buffer, in a delta that holds at least one
other tool-call fragment, `Recv` returns the same response and error and
leaves the same wrapper state as for the chunk without that fragment. -/
theorem orphan_drop_not_recorded (parse : String → Bool) (w : openRouterStreamWrapper)
    (hw : Reachable parse w) (id : String)
    (before after : List openai.ChatCompletionStreamChoice)
    (index : Int) (content role finish : String) (pre post : List openai.ToolCall)
    (orphan : openai.ToolCall) (hid : orphan.ID = "") (hothers : pre ++ post ≠ [])
    (hcur : (recvToolCalls parse w
      (before.flatMap (fun c => c.Delta.ToolCalls) ++ pre)).1.currentToolCall = none) :
    Recv parse w (.ok ⟨id, before ++ ⟨index, ⟨content, role, pre ++ orphan :: post⟩, finish⟩ :: after⟩)
      = Recv parse w (.ok ⟨id, before ++ ⟨index, ⟨content, role, pre ++ post⟩, finish⟩ :: after⟩) := by
  have hb := (recvChoices_eq parse w before).1
  have hwb : Consistent (recvChoices parse w before).1 := by
    rw [hb]
    exact hw.consistent.run parse _
  rw [recvToolCalls_append, ← hb] at hcur
  have hdrop := recvToolCalls_drop_orphan parse hwb pre post hid hcur
  have hlen1 : (pre ++ orphan :: post).length > 0 := by simp
  have hlen2 : (pre ++ post).length > 0 := List.length_pos.2 hothers
  have hchoice : recvChoice parse (recvChoices parse w before).1
        ⟨index, ⟨content, role, pre ++ orphan :: post⟩, finish⟩
      = recvChoice parse (recvChoices parse w before).1
        ⟨index, ⟨content, role, pre ++ post⟩, finish⟩ := by
    simp only [recvChoice, hlen1, hlen2, if_true, hdrop]
  simp only [Recv, recvChoices_append, recvChoices, hchoice]

/-- Witness of C9 as amended: an orphan fragment before the first fragment of
the call `a`, on a fresh wrapper. -/
theorem orphan_drop_not_recorded_witness :
    Recv jsonUnmarshalMapOk newOpenRouterStreamWrapper
        (.ok ⟨"r", [] ++ ⟨0, ⟨"", "assistant", [] ++ ⟨none, "", "", ⟨"", "zz"⟩⟩ ::
          [⟨some 0, "a", "function", ⟨"f", "\x7b"⟩⟩]⟩, ""⟩ :: []⟩)
      = Recv jsonUnmarshalMapOk newOpenRouterStreamWrapper
        (.ok ⟨"r", [] ++ ⟨0, ⟨"", "assistant", [] ++
          [⟨some 0, "a", "function", ⟨"f", "\x7b"⟩⟩]⟩, ""⟩ :: []⟩) :=
  orphan_drop_not_recorded jsonUnmarshalMapOk newOpenRouterStreamWrapper Reachable.fresh "r"
    [] [] 0 "" "assistant" "" [] [⟨some 0, "a", "function", ⟨"f", "\x7b"⟩⟩]
    ⟨none, "", "", ⟨"", "zz"⟩⟩ rfl (by decide) rfl

/-- Counterexample to C10: the buffer `a` got the name `f` from its first
fragment; a later fragment for `a` with the name `g` replaces it, in the
buffer and in the call emitted. -/
theorem name_not_set_once :
    (recvToolCalls jsonUnmarshalMapOk newOpenRouterStreamWrapper
        [⟨some 0, "a", "function", ⟨"f", "\x7b"⟩⟩, ⟨some 0, "a", "function", ⟨"g", ""⟩⟩]).1.heap
      = [⟨"a", "function", ⟨"g", "\x7b"⟩⟩]
    ∧ emittedToolCalls (recvChunks jsonUnmarshalMapOk newOpenRouterStreamWrapper
        [⟨"r", [⟨0, ⟨"", "", [⟨some 0, "a", "function", ⟨"f", "\x7b"⟩⟩]⟩, ""⟩]⟩,
         ⟨"r", [⟨0, ⟨"", "", [⟨some 0, "a", "function", ⟨"g", "\x7d"⟩⟩]⟩, ""⟩]⟩]).2
      = [⟨"a", "function", ⟨"g", "\x7b\x7d"⟩⟩] := by
  decide

/-- Claim C10, amended.  The name of a buffered tool call is overwritten: a
fragment for an id that has a buffer replaces the buffered name by its own
name when that is non-empty and leaves it as it is when it is empty, and the
buffer afterwards, as well as the call emitted when the fragment completes the
buffer, carries that name (the last non-empty name wins). -/
theorem name_last_wins (parse : String → Bool) (w : openRouterStreamWrapper)
    (tc : openai.ToolCall) (p : Nat) (o : ToolCall)
    (hget : mapGet w.toolCallBuffer tc.ID = some p) (ho : w.heap[p]? = some o) :
    (∀ o1, (recvToolCall parse w tc).1.heap[p]? = some o1 →
        o1.Function.Name = if tc.Function.Name ≠ "" then tc.Function.Name else o.Function.Name)
      ∧ ∀ call ∈ (recvToolCall parse w tc).2,
        call.Function.Name = if tc.Function.Name ≠ "" then tc.Function.Name
          else o.Function.Name := by
  have hlt : p < w.heap.length := by
    rcases List.getElem?_eq_some_iff.1 ho with ⟨h, _⟩
    exact h
  have hname : (named o tc).Function.Name
      = if tc.Function.Name ≠ "" then tc.Function.Name else o.Function.Name := by
    unfold named
    split_ifs <;> rfl
  rw [← hname, recvToolCall_existing parse hget, applyFragment_eq parse ho]
  split_ifs
  all_goals
    refine ⟨?_, ?_⟩
    · intro o1 ho1
      simp only [List.getElem?_set, hlt, if_true, Option.some.injEq] at ho1
      subst ho1
      simp
    · intro call hcall
      first
      | (simp only [List.mem_singleton] at hcall
         subst hcall
         simp)
      | simp at hcall

/-- Witness of C10 as amended: the buffer `a` is named `f`, the fragment
carries the name `g`. -/
theorem name_last_wins_witness :
    (∀ o1, (recvToolCall jsonUnmarshalMapOk
        (recvToolCall jsonUnmarshalMapOk newOpenRouterStreamWrapper
          ⟨some 0, "a", "function", ⟨"f", "\x7b"⟩⟩).1
        ⟨some 0, "a", "function", ⟨"g", "\x7d"⟩⟩).1.heap[0]? = some o1 →
        o1.Function.Name = if "g" ≠ "" then "g" else "f")
      ∧ ∀ call ∈ (recvToolCall jsonUnmarshalMapOk
        (recvToolCall jsonUnmarshalMapOk newOpenRouterStreamWrapper
          ⟨some 0, "a", "function", ⟨"f", "\x7b"⟩⟩).1
        ⟨some 0, "a", "function", ⟨"g", "\x7d"⟩⟩).2,
        call.Function.Name = if "g" ≠ "" then "g" else "f" :=
  name_last_wins jsonUnmarshalMapOk
    (recvToolCall jsonUnmarshalMapOk newOpenRouterStreamWrapper
      ⟨some 0, "a", "function", ⟨"f", "\x7b"⟩⟩).1
    ⟨some 0, "a", "function", ⟨"g", "\x7d"⟩⟩ 0
    ⟨"a", "function", ⟨"f", "\x7b"⟩⟩ (by decide) (by decide)

end llm

namespace llm

/-! ## Where the active reference comes from -/

/-- A fragment that creates a buffer without completing it makes the new
buffer the active one. -/
theorem recvToolCall_create_state (parse : String → Bool) {w : openRouterStreamWrapper}
    {tc : openai.ToolCall} (hid : tc.ID ≠ "") (hget : mapGet w.toolCallBuffer tc.ID = none)
    (hout : (recvToolCall parse w tc).2 = []) :
    (recvToolCall parse w tc).1.currentToolCall = some w.heap.length ∧
      mapGet (recvToolCall parse w tc).1.toolCallBuffer tc.ID = some w.heap.length ∧
      (recvToolCall parse w tc).1.heap.length = w.heap.length + 1 := by
  have hnew : (w.heap ++ [newToolCall tc])[w.heap.length]? = some (newToolCall tc) := by simp
  rw [recvToolCall_create parse hget hid, applyFragment_eq parse hnew] at hout ⊢
  split_ifs at hout ⊢
  all_goals exact ⟨rfl, mapGet_mapSet_self _ _ _, by simp⟩

/-- A fragment for an id that has a buffer, and that does not complete it,
leaves the map and the active reference as they are. -/
theorem recvToolCall_existing_state (parse : String → Bool) {w : openRouterStreamWrapper}
    (hw : Consistent w) {tc : openai.ToolCall} {p : Nat}
    (hget : mapGet w.toolCallBuffer tc.ID = some p)
    (hout : (recvToolCall parse w tc).2 = []) :
    (recvToolCall parse w tc).1.currentToolCall = w.currentToolCall ∧
      (recvToolCall parse w tc).1.toolCallBuffer = w.toolCallBuffer ∧
      (recvToolCall parse w tc).1.heap.length = w.heap.length := by
  obtain ⟨o, ho, _, _⟩ := hw.mapGet_entry hget
  rw [recvToolCall_existing parse hget, applyFragment_eq parse ho] at hout ⊢
  split_ifs at hout ⊢
  all_goals exact ⟨rfl, rfl, by simp⟩

/-! ## Buffers out of use -/

theorem heap_lt_of_get {heap : List ToolCall} {p : Nat} {o : ToolCall}
    (h : heap[p]? = some o) : p < heap.length := by
  rcases List.getElem?_eq_some_iff.1 h with ⟨h1, _⟩
  exact h1

/-- What one fragment does to the shape of the state: the heap does not
shrink, and a map entry or an active reference after the fragment was there
before or points at the buffer just allocated. -/
theorem recvToolCall_shape (parse : String → Bool) {w : openRouterStreamWrapper}
    (hw : Consistent w) (tc : openai.ToolCall) :
    w.heap.length ≤ (recvToolCall parse w tc).1.heap.length
      ∧ (∀ k q, (k, q) ∈ (recvToolCall parse w tc).1.toolCallBuffer →
          (k, q) ∈ w.toolCallBuffer ∨ q = w.heap.length)
      ∧ ∀ q, (recvToolCall parse w tc).1.currentToolCall = some q →
          w.currentToolCall = some q ∨ q = w.heap.length := by
  cases hget : mapGet w.toolCallBuffer tc.ID with
  | some p0 =>
    obtain ⟨o, ho, _, _⟩ := hw.mapGet_entry hget
    rw [recvToolCall_existing parse hget, applyFragment_eq parse ho]
    split_ifs
    · exact ⟨by simp, fun k q h => Or.inl h, fun q h => Or.inl h⟩
    · exact ⟨by simp, fun k q h => Or.inl (mem_mapDelete.1 h).1, fun q h => by simp at h⟩
    · exact ⟨by simp, fun k q h => Or.inl h, fun q h => Or.inl h⟩
  | none =>
    by_cases hid : tc.ID = ""
    · by_cases harg : tc.Function.Arguments = ""
      · rw [recvToolCall_idless_empty parse hw.mapGet_empty hid harg]
        exact ⟨le_refl _, fun k q h => Or.inl h, fun q h => Or.inl h⟩
      · cases hcur : w.currentToolCall with
        | none =>
          rw [recvToolCall_idless_orphan parse hw.mapGet_empty hid hcur]
          exact ⟨le_refl _, fun k q h => Or.inl h, fun q h => by simp [hcur] at h⟩
        | some p0 =>
          obtain ⟨o, ho, _⟩ := hw.current p0 hcur
          rw [recvToolCall_idless_append parse hw.mapGet_empty hid harg hcur ho]
          split_ifs
          · exact ⟨by simp, fun k q h => Or.inl (mem_mapDelete.1 h).1, fun q h => by simp at h⟩
          · exact ⟨by simp, fun k q h => Or.inl h, fun q h => Or.inl (by simpa [hcur] using h)⟩
    · have hnew : (w.heap ++ [newToolCall tc])[w.heap.length]? = some (newToolCall tc) := by
        simp
      have hentries : ∀ k q, (k, q) ∈ mapSet w.toolCallBuffer tc.ID w.heap.length →
          (k, q) ∈ w.toolCallBuffer ∨ q = w.heap.length := by
        intro k q h
        simp only [mapSet, List.mem_cons, Prod.mk.injEq] at h
        rcases h with ⟨_, h⟩ | h
        · exact Or.inr h
        · exact Or.inl (mem_mapDelete.1 h).1
      rw [recvToolCall_create parse hget hid, applyFragment_eq parse hnew]
      split_ifs
      · exact ⟨by simp, hentries, fun q h => Or.inr (by simpa using h.symm)⟩
      · exact ⟨by simp, fun k q h => hentries k q (mem_mapDelete.1 h).1, fun q h => by simp at h⟩
      · exact ⟨by simp, hentries, fun q h => Or.inr (by simpa using h.symm)⟩

/-- A buffer out of use stays out of use. -/
theorem Retired.after_fragment (parse : String → Bool) {w : openRouterStreamWrapper}
    (hw : Consistent w) {p : Nat} (h : Retired w p) (tc : openai.ToolCall) :
    Retired (recvToolCall parse w tc).1 p := by
  obtain ⟨hlen, hentries, hcur⟩ := recvToolCall_shape parse hw tc
  obtain ⟨h1, h2, h3⟩ := h
  refine ⟨Nat.lt_of_lt_of_le h1 hlen, ?_, ?_⟩
  · intro k hk
    rcases hentries k p hk with h | h
    · exact h2 k h
    · omega
  · intro hc
    rcases hcur p hc with h | h
    · exact h3 h
    · omega

theorem Retired.after_fragments (parse : String → Bool) {p : Nat} :
    ∀ (frags : List openai.ToolCall) {w : openRouterStreamWrapper}, Consistent w →
      Retired w p → Retired (recvToolCalls parse w frags).1 p := by
  intro frags
  induction frags with
  | nil => intro w _ h; exact h
  | cons f rest ih =>
    intro w hw h
    exact ih (hw.step parse f) (h.after_fragment parse hw f)

/-- No fragment goes to a buffer out of use. -/
theorem Retired.not_target {w : openRouterStreamWrapper} {p : Nat} (h : Retired w p)
    (tc : openai.ToolCall) : target w tc ≠ some p := by
  obtain ⟨h1, h2, h3⟩ := h
  unfold target
  split_ifs
  · exact h3
  · cases hget : mapGet w.toolCallBuffer tc.ID with
    | some q =>
      intro hq
      cases hq
      exact h2 _ (mapGet_eq_some_mem hget)
    | none =>
      intro hq
      cases hq
      omega

/-- The buffer a call was emitted from is out of use afterwards. -/
theorem Retired.of_emitted (parse : String → Bool) {w : openRouterStreamWrapper}
    (hw : Consistent w) (tc : openai.ToolCall) {c : ToolCall}
    (hc : c ∈ (recvToolCall parse w tc).2) {p : Nat} (hp : target w tc = some p) :
    Retired (recvToolCall parse w tc).1 p := by
  have hcur := (recvToolCall_emit_clears parse hw tc c hc).1
  have hdel : ∀ (o : ToolCall), w.heap[p]? = some o →
      ∀ k, (k, p) ∉ mapDelete w.toolCallBuffer o.ID := by
    intro o ho k hk
    obtain ⟨hmem, hne⟩ := mem_mapDelete.1 hk
    obtain ⟨o2, ho2, hid2, _⟩ := hw.entry k p hmem
    rw [ho] at ho2
    cases ho2
    exact hne hid2.symm
  refine ⟨?_, ?_, by rw [hcur]; simp⟩
  · obtain ⟨q, hq, hheap⟩ := recvToolCall_out_target parse hw tc c hc
    rw [hp] at hq
    cases hq
    exact heap_lt_of_get hheap
  · cases hget : mapGet w.toolCallBuffer tc.ID with
    | some p0 =>
      obtain ⟨o, ho, hoid, hne⟩ := hw.mapGet_entry hget
      have hp0 : p = p0 := by
        simp only [target, hne, if_false, hget, Option.some.injEq] at hp
        exact hp.symm
      subst hp0
      rw [recvToolCall_existing parse hget, applyFragment_eq parse ho] at hc ⊢
      split_ifs at hc ⊢
      · simp at hc
      · rw [← hoid]
        exact hdel o ho
      · simp at hc
    | none =>
      by_cases hid : tc.ID = ""
      · by_cases harg : tc.Function.Arguments = ""
        · rw [recvToolCall_idless_empty parse hw.mapGet_empty hid harg] at hc
          simp at hc
        · have hcur0 : w.currentToolCall = some p := by
            simpa [target, hid] using hp
          obtain ⟨o, ho, _⟩ := hw.current p hcur0
          rw [recvToolCall_idless_append parse hw.mapGet_empty hid harg hcur0 ho] at hc ⊢
          split_ifs at hc ⊢
          · exact hdel o ho
          · simp at hc
      · have hnew : (w.heap ++ [newToolCall tc])[w.heap.length]? = some (newToolCall tc) := by
          simp
        have hp0 : p = w.heap.length := by
          simp only [target, hid, if_false, hget, Option.some.injEq] at hp
          exact hp.symm
        rw [recvToolCall_create parse hget hid, applyFragment_eq parse hnew] at hc ⊢
        split_ifs at hc ⊢
        · simp at hc
        · intro k hk
          obtain ⟨hmem, hne⟩ := mem_mapDelete.1 hk
          simp only [mapSet, List.mem_cons, Prod.mk.injEq] at hmem
          rcases hmem with ⟨hk1, _⟩ | hmem
          · exact hne hk1
          · obtain ⟨o2, ho2, _⟩ := hw.entry k p (mem_mapDelete.1 hmem).1
            have := heap_lt_of_get ho2
            omega
        · simp at hc

end llm

namespace llm

/-! ## Choices and content -/

theorem recvChoice_index (parse : String → Bool) (w : openRouterStreamWrapper)
    (c : openai.ChatCompletionStreamChoice) : (recvChoice parse w c).2.Index = c.Index := rfl

theorem recvChoice_content (parse : String → Bool) (w : openRouterStreamWrapper)
    (c : openai.ChatCompletionStreamChoice) :
    (recvChoice parse w c).2.Message.Content = c.Delta.Content := rfl

theorem recvChoice_role (parse : String → Bool) (w : openRouterStreamWrapper)
    (c : openai.ChatCompletionStreamChoice) :
    (recvChoice parse w c).2.Message.Role = c.Delta.Role := rfl

/-- A view of the choices returned for a chunk that depends on the chunk's
choice only can be read off the chunk, choice by choice. -/
theorem recvChoices_filter_map {α : Type} (parse : String → Bool) (i : Int)
    (f : Choice → α) (g : openai.ChatCompletionStreamChoice → α)
    (hfg : ∀ w c, f (recvChoice parse w c).2 = g c) :
    ∀ (cs : List openai.ChatCompletionStreamChoice) (w : openRouterStreamWrapper),
      ((recvChoices parse w cs).2.filter (fun c => c.Index = i)).map f
        = (cs.filter (fun c => c.Index = i)).map g := by
  intro cs
  induction cs with
  | nil => intro w; simp [recvChoices]
  | cons c rest ih =>
    intro w
    simp only [recvChoices, List.filter_cons, recvChoice_index]
    split_ifs
    · simp only [List.map_cons, hfg, ih]
    · exact ih _

/-- The same over a session. -/
theorem recvChunks_filter_map {α : Type} (parse : String → Bool) (i : Int)
    (f : Choice → α) (g : openai.ChatCompletionStreamChoice → α)
    (hfg : ∀ w c, f (recvChoice parse w c).2 = g c) :
    ∀ (chunks : List openai.ChatCompletionStreamResponse) (w : openRouterStreamWrapper),
      ((recvChunks parse w chunks).2.flatMap fun r =>
          ((elems r.Choices).filter (fun c => c.Index = i)).map f)
        = chunks.flatMap fun r => (r.Choices.filter (fun c => c.Index = i)).map g := by
  intro chunks
  induction chunks with
  | nil => intro w; simp [recvChunks]
  | cons r rest ih =>
    intro w
    simp only [recvChunks, List.flatMap_cons, ih]
    congr 1
    exact recvChoices_filter_map parse i f g hfg r.Choices w

theorem concat_three (a b c : String) : concat [a, b, c] = a ++ (b ++ c) := by
  simp [concat]

end llm

namespace llm

/-! ## Error texts -/

/-- Two texts that start with different characters differ. -/
theorem str_head_ne (a b x y : String) (ca cb : Char) (ha : a.data.head? = some ca)
    (hb : b.data.head? = some cb) (hne : ca ≠ cb) : a ++ x ≠ b ++ y := by
  intro h
  have h1 := congrArg (fun s => s.data.head?) h
  simp [String.data_append, List.head?_append, ha, hb] at h1
  exact hne h1

theorem api_text_ne_failed (c m t : String) :
    "OpenRouter API error: " ++ c ++ " - " ++ m ≠ "stream receive failed: " ++ t := by
  rw [String.append_assoc, String.append_assoc]
  exact str_head_ne _ _ _ _ 'O' 's' (by decide) (by decide) (by decide)

theorem api_text_ne_eof (c m : String) :
    "OpenRouter API error: " ++ c ++ " - " ++ m ≠ "EOF" := by
  rw [String.append_assoc, String.append_assoc, ← String.append_empty "EOF"]
  exact str_head_ne _ _ _ _ 'O' 'E' (by decide) (by decide) (by decide)

end llm

namespace llm

/-! ## The synchronous mapper -/

theorem elems_some {α : Type} (l : List α) : elems (some l) = l := rfl

/-- The calls `convertFromOpenRouterToolCalls` returns: a copy of every
provider call, in order. -/
theorem convertFromOpenRouterToolCalls_elems (toolCalls : List openai.ToolCall) :
    elems (convertFromOpenRouterToolCalls toolCalls)
      = toolCalls.map (fun call =>
          ⟨call.ID, call.Type_, ⟨call.Function.Name, call.Function.Arguments⟩⟩) := by
  unfold convertFromOpenRouterToolCalls
  cases toolCalls with
  | nil => simp [elems]
  | cons a l => simp [elems]

end llm

namespace llm

/-! ## Claims C11 to C20 -/

/-- Counterexample to C11: the buffers `a` and `b` are created in that order,
a further fragment with id `a` leaves `a` incomplete, and the id-less fragment
`:1` that follows is appended to the buffer of `b`, not to the buffer of `a`. -/
theorem idless_not_to_last_touched :
    (recvToolCalls jsonUnmarshalMapOk newOpenRouterStreamWrapper
        [⟨some 0, "a", "function", ⟨"f", "\x7b"⟩⟩, ⟨some 1, "b", "function", ⟨"g", "\x7b"⟩⟩,
         ⟨some 0, "a", "", ⟨"", "\"x\""⟩⟩, ⟨none, "", "", ⟨"", ":1"⟩⟩]).1.heap
      = [⟨"a", "function", ⟨"f", "\x7b\"x\""⟩⟩, ⟨"b", "function", ⟨"g", "\x7b:1"⟩⟩] := by
  decide

/-- Claim C11, amended.  An id-less fragment is appended to the buffer created
last, not to the one touched last.  In every state a wrapper can be in, after
a fragment creating the buffer `a`, a fragment creating the buffer `b` and a
further fragment with id `a`, none of which completes a call, the active
reference points at the buffer of `b`; the arguments of a following id-less
fragment are added at the end of the arguments of `b`, and the arguments of
`a` stay as they are. -/
theorem idless_goes_to_last_created (parse : String → Bool) (w : openRouterStreamWrapper)
    (hw : Reachable parse w) (fa fb fa2 g : openai.ToolCall)
    (ha : fa.ID ≠ "") (hb : fb.ID ≠ "") (hab : fa.ID ≠ fb.ID) (ha2 : fa2.ID = fa.ID)
    (hg : g.ID = "")
    (hnewa : mapGet w.toolCallBuffer fa.ID = none)
    (hnewb : mapGet w.toolCallBuffer fb.ID = none)
    (hinc : (recvToolCalls parse w [fa, fb, fa2]).2 = []) :
    ∃ pa pb, pa ≠ pb
      ∧ mapGet (recvToolCalls parse w [fa, fb, fa2]).1.toolCallBuffer fa.ID = some pa
      ∧ mapGet (recvToolCalls parse w [fa, fb, fa2]).1.toolCallBuffer fb.ID = some pb
      ∧ (recvToolCalls parse w [fa, fb, fa2]).1.currentToolCall = some pb
      ∧ argumentsAt (recvToolCall parse (recvToolCalls parse w [fa, fb, fa2]).1 g).1.heap pb
        = argumentsAt (recvToolCalls parse w [fa, fb, fa2]).1.heap pb ++ g.Function.Arguments
      ∧ argumentsAt (recvToolCall parse (recvToolCalls parse w [fa, fb, fa2]).1 g).1.heap pa
        = argumentsAt (recvToolCalls parse w [fa, fb, fa2]).1.heap pa := by
  have hw0 := hw.consistent
  have hw1 := hw0.step parse fa
  have hw2 := hw1.step parse fb
  have hw3 := hw2.step parse fa2
  simp only [recvToolCalls, List.append_nil, List.append_eq_nil] at hinc hw3 ⊢
  obtain ⟨h1, h2, h3⟩ := hinc
  -- the buffer of a is created
  obtain ⟨_, hmapa1, hlen1⟩ := recvToolCall_create_state parse ha hnewa h1
  -- the buffer of b is created
  have hnewb1 : mapGet (recvToolCall parse w fa).1.toolCallBuffer fb.ID = none :=
    (recvToolCall_other parse hw0 ha hab).1.trans hnewb
  obtain ⟨hcur2, hmapb2, _⟩ := recvToolCall_create_state parse hb hnewb1 h2
  have hmapa2 : mapGet (recvToolCall parse (recvToolCall parse w fa).1 fb).1.toolCallBuffer fa.ID
      = some w.heap.length :=
    (recvToolCall_other parse hw1 hb (fun h => hab h.symm)).1.trans hmapa1
  -- the further fragment of a
  have hget3 : mapGet (recvToolCall parse (recvToolCall parse w fa).1 fb).1.toolCallBuffer fa2.ID
      = some w.heap.length := by rw [ha2]; exact hmapa2
  obtain ⟨hcur3, hmap3, _⟩ := recvToolCall_existing_state parse hw2 hget3 h3
  have htarget : target (recvToolCall parse (recvToolCall parse (recvToolCall parse w fa).1 fb).1
      fa2).1 g = some (recvToolCall parse w fa).1.heap.length := by
    simp only [target, hg, if_true, hcur3, hcur2]
  refine ⟨w.heap.length, (recvToolCall parse w fa).1.heap.length, ?_, ?_, ?_, ?_, ?_, ?_⟩
  · omega
  · rw [hmap3]; exact hmapa2
  · rw [hmap3]; exact hmapb2
  · rw [hcur3]; exact hcur2
  · rw [argumentsAt_recvToolCall parse hw3 g, htarget]
    simp [concat]
  · rw [argumentsAt_recvToolCall parse hw3 g, htarget]
    have : (recvToolCall parse w fa).1.heap.length ≠ w.heap.length := by omega
    simp [concat, this]

/-- Witness of C11 as amended: on a fresh wrapper, `a` and `b` are created,
`a` gets a further fragment, and the id-less fragment `:1` follows. -/
theorem idless_goes_to_last_created_witness :
    ∃ pa pb, pa ≠ pb
      ∧ mapGet (recvToolCalls jsonUnmarshalMapOk newOpenRouterStreamWrapper
          [⟨some 0, "a", "function", ⟨"f", "\x7b"⟩⟩, ⟨some 1, "b", "function", ⟨"g", "\x7b"⟩⟩,
           ⟨some 0, "a", "", ⟨"", "\"x\""⟩⟩]).1.toolCallBuffer "a" = some pa
      ∧ mapGet (recvToolCalls jsonUnmarshalMapOk newOpenRouterStreamWrapper
          [⟨some 0, "a", "function", ⟨"f", "\x7b"⟩⟩, ⟨some 1, "b", "function", ⟨"g", "\x7b"⟩⟩,
           ⟨some 0, "a", "", ⟨"", "\"x\""⟩⟩]).1.toolCallBuffer "b" = some pb
      ∧ (recvToolCalls jsonUnmarshalMapOk newOpenRouterStreamWrapper
          [⟨some 0, "a", "function", ⟨"f", "\x7b"⟩⟩, ⟨some 1, "b", "function", ⟨"g", "\x7b"⟩⟩,
           ⟨some 0, "a", "", ⟨"", "\"x\""⟩⟩]).1.currentToolCall = some pb
      ∧ argumentsAt (recvToolCall jsonUnmarshalMapOk
          (recvToolCalls jsonUnmarshalMapOk newOpenRouterStreamWrapper
            [⟨some 0, "a", "function", ⟨"f", "\x7b"⟩⟩, ⟨some 1, "b", "function", ⟨"g", "\x7b"⟩⟩,
             ⟨some 0, "a", "", ⟨"", "\"x\""⟩⟩]).1 ⟨none, "", "", ⟨"", ":1"⟩⟩).1.heap pb
        = argumentsAt (recvToolCalls jsonUnmarshalMapOk newOpenRouterStreamWrapper
            [⟨some 0, "a", "function", ⟨"f", "\x7b"⟩⟩, ⟨some 1, "b", "function", ⟨"g", "\x7b"⟩⟩,
             ⟨some 0, "a", "", ⟨"", "\"x\""⟩⟩]).1.heap pb ++ ":1"
      ∧ argumentsAt (recvToolCall jsonUnmarshalMapOk
          (recvToolCalls jsonUnmarshalMapOk newOpenRouterStreamWrapper
            [⟨some 0, "a", "function", ⟨"f", "\x7b"⟩⟩, ⟨some 1, "b", "function", ⟨"g", "\x7b"⟩⟩,
             ⟨some 0, "a", "", ⟨"", "\"x\""⟩⟩]).1 ⟨none, "", "", ⟨"", ":1"⟩⟩).1.heap pa
        = argumentsAt (recvToolCalls jsonUnmarshalMapOk newOpenRouterStreamWrapper
            [⟨some 0, "a", "function", ⟨"f", "\x7b"⟩⟩, ⟨some 1, "b", "function", ⟨"g", "\x7b"⟩⟩,
             ⟨some 0, "a", "", ⟨"", "\"x\""⟩⟩]).1.heap pa :=
  idless_goes_to_last_created jsonUnmarshalMapOk newOpenRouterStreamWrapper Reachable.fresh
    ⟨some 0, "a", "function", ⟨"f", "\x7b"⟩⟩ ⟨some 1, "b", "function", ⟨"g", "\x7b"⟩⟩
    ⟨some 0, "a", "", ⟨"", "\"x\""⟩⟩ ⟨none, "", "", ⟨"", ":1"⟩⟩
    (by decide) (by decide) (by decide) rfl rfl (by decide) (by decide) (by decide)

/-- Counterexample to C12: the buffers `a` and `b` are created in that order,
so the active reference points at `b`; the fragment `}` with id `a` completes
`a`, and the active reference is nil afterwards although `b` is still
accumulating; the id-less fragment `}` that follows is dropped. -/
theorem completion_clears_other_active :
    (recvToolCalls jsonUnmarshalMapOk newOpenRouterStreamWrapper
        [⟨some 0, "a", "function", ⟨"f", "\x7b"⟩⟩,
         ⟨some 1, "b", "function", ⟨"g", "\x7b"⟩⟩]).1.currentToolCall = some 1
      ∧ recvToolCalls jsonUnmarshalMapOk newOpenRouterStreamWrapper
        [⟨some 0, "a", "function", ⟨"f", "\x7b"⟩⟩, ⟨some 1, "b", "function", ⟨"g", "\x7b"⟩⟩,
         ⟨some 0, "a", "", ⟨"", "\x7d"⟩⟩]
        = (⟨[⟨"a", "function", ⟨"f", "\x7b\x7d"⟩⟩, ⟨"b", "function", ⟨"g", "\x7b"⟩⟩], none, [("b", 1)]⟩,
            [⟨"a", "function", ⟨"f", "\x7b\x7d"⟩⟩])
      ∧ recvToolCalls jsonUnmarshalMapOk newOpenRouterStreamWrapper
        [⟨some 0, "a", "function", ⟨"f", "\x7b"⟩⟩, ⟨some 1, "b", "function", ⟨"g", "\x7b"⟩⟩,
         ⟨some 0, "a", "", ⟨"", "\x7d"⟩⟩, ⟨none, "", "", ⟨"", "\x7d"⟩⟩]
        = (⟨[⟨"a", "function", ⟨"f", "\x7b\x7d"⟩⟩, ⟨"b", "function", ⟨"g", "\x7b"⟩⟩], none, [("b", 1)]⟩,
            [⟨"a", "function", ⟨"f", "\x7b\x7d"⟩⟩]) := by
  decide

/-- Claim C12, amended.  When a buffer completes, the active reference is
cleared in every case, also when it pointed at a different, still incomplete
buffer: that buffer keeps its map entry and its content, but it is no longer
the active one, and a following id-less fragment is dropped (it changes
nothing and emits nothing). -/
theorem completion_clears_active (parse : String → Bool) (w : openRouterStreamWrapper)
    (hw : Reachable parse w) (tc : openai.ToolCall) (call : ToolCall)
    (hcall : call ∈ (recvToolCall parse w tc).2)
    (pb : Nat) (b : ToolCall) (hcur : w.currentToolCall = some pb)
    (hb : w.heap[pb]? = some b) (hne : b.ID ≠ call.ID) :
    (recvToolCall parse w tc).1.currentToolCall = none
      ∧ mapGet (recvToolCall parse w tc).1.toolCallBuffer b.ID = some pb
      ∧ (recvToolCall parse w tc).1.heap[pb]? = some b
      ∧ ∀ next : openai.ToolCall, next.ID = "" →
          recvToolCall parse (recvToolCall parse w tc).1 next = ((recvToolCall parse w tc).1, []) := by
  have hc := hw.consistent
  have hnil := (recvToolCall_emit_clears parse hc tc call hcall).1
  obtain ⟨o, ho, hin⟩ := hc.current pb hcur
  rw [hb] at ho
  cases ho
  have hid : tc.ID ≠ "" := by
    intro hid
    by_cases harg : tc.Function.Arguments = ""
    · rw [recvToolCall_idless_empty parse hc.mapGet_empty hid harg] at hcall
      simp at hcall
    · rw [recvToolCall_idless_append parse hc.mapGet_empty hid harg hcur hb] at hcall
      split_ifs at hcall
      · simp only [List.mem_singleton] at hcall
        rw [hcall] at hne
        exact hne rfl
      · simp at hcall
  have hcid := recvToolCall_out_ID parse hc hid call hcall
  obtain ⟨hmap, hheap⟩ := recvToolCall_other parse hc hid (x := b.ID)
    (fun h => hne (h.symm.trans hcid.symm))
  refine ⟨hnil, hmap.trans hin, (hheap pb hin).trans hb, ?_⟩
  intro next hnext
  exact recvToolCall_idless_orphan parse (hc.step parse tc).mapGet_empty hnext hnil

/-- Witness of C12 as amended: `b` is the active buffer when the fragment `}`
with id `a` completes `a`. -/
theorem completion_clears_active_witness :
    (recvToolCall jsonUnmarshalMapOk
        (recvToolCalls jsonUnmarshalMapOk newOpenRouterStreamWrapper
          [⟨some 0, "a", "function", ⟨"f", "\x7b"⟩⟩, ⟨some 1, "b", "function", ⟨"g", "\x7b"⟩⟩]).1
        ⟨some 0, "a", "", ⟨"", "\x7d"⟩⟩).1.currentToolCall = none
      ∧ mapGet (recvToolCall jsonUnmarshalMapOk
        (recvToolCalls jsonUnmarshalMapOk newOpenRouterStreamWrapper
          [⟨some 0, "a", "function", ⟨"f", "\x7b"⟩⟩, ⟨some 1, "b", "function", ⟨"g", "\x7b"⟩⟩]).1
        ⟨some 0, "a", "", ⟨"", "\x7d"⟩⟩).1.toolCallBuffer "b" = some 1 :=
  have h := completion_clears_active jsonUnmarshalMapOk
    (recvToolCalls jsonUnmarshalMapOk newOpenRouterStreamWrapper
      [⟨some 0, "a", "function", ⟨"f", "\x7b"⟩⟩, ⟨some 1, "b", "function", ⟨"g", "\x7b"⟩⟩]).1
    (Reachable.fresh.run_fragments _) ⟨some 0, "a", "", ⟨"", "\x7d"⟩⟩
    ⟨"a", "function", ⟨"f", "\x7b\x7d"⟩⟩ (by decide) 1 ⟨"b", "function", ⟨"g", "\x7b"⟩⟩
    (by decide) (by decide) (by decide)
  ⟨h.1, h.2.1⟩

/-- Counterexample to C13: the call with id `x` is emitted for the whole
document `{}`; a later fragment with id `x` and the document `{}` leads to a
second completed tool call with id `x`. -/
theorem same_id_completes_twice :
    emittedToolCalls (recvChunks jsonUnmarshalMapOk newOpenRouterStreamWrapper
        [⟨"r", [⟨0, ⟨"", "", [⟨some 0, "x", "function", ⟨"f", "\x7b\x7d"⟩⟩]⟩, ""⟩]⟩,
         ⟨"r", [⟨0, ⟨"", "", [⟨some 0, "x", "function", ⟨"f", "\x7b\x7d"⟩⟩]⟩, ""⟩]⟩]).2
      = [⟨"x", "function", ⟨"f", "\x7b\x7d"⟩⟩, ⟨"x", "function", ⟨"f", "\x7b\x7d"⟩⟩] := by
  decide

/-- Claim C13, amended.  A buffer goes from accumulating to completed at most
once, but the wrapper keeps no record of the ids it has completed.  In every
state a wrapper can be in, once a fragment has emitted a call from a buffer,
no later fragment of the session goes to that buffer again; a fragment
carrying the id of the emitted call then starts a new buffer, and when its
arguments parse it is emitted at once as a further completed call with the
same id. -/
theorem completed_buffer_is_final (parse : String → Bool) (w : openRouterStreamWrapper)
    (hw : Reachable parse w) (tc : openai.ToolCall) (call : ToolCall)
    (hcall : call ∈ (recvToolCall parse w tc).2) (p : Nat) (hp : target w tc = some p) :
    (∀ (pre : List openai.ToolCall) (next : openai.ToolCall),
        target (recvToolCalls parse (recvToolCall parse w tc).1 pre).1 next ≠ some p)
      ∧ ∀ next : openai.ToolCall, next.ID = call.ID → next.Function.Arguments ≠ "" →
          parse next.Function.Arguments = true →
          recvToolCall parse (recvToolCall parse w tc).1 next
            = (⟨(recvToolCall parse w tc).1.heap ++
                  [⟨call.ID, next.Type_, ⟨next.Function.Name, next.Function.Arguments⟩⟩],
                none, (recvToolCall parse w tc).1.toolCallBuffer⟩,
                [⟨call.ID, next.Type_, ⟨next.Function.Name, next.Function.Arguments⟩⟩]) := by
  have hc := hw.consistent
  have hc1 := hc.step parse tc
  have hret := Retired.of_emitted parse hc tc hcall hp
  refine ⟨fun pre next => (hret.after_fragments parse pre hc1).not_target next, ?_⟩
  intro next hid harg hparse
  obtain ⟨_, hgone⟩ := recvToolCall_emit_clears parse hc tc call hcall
  have hne : next.ID ≠ "" := by
    rw [hid]
    exact (recvToolCall_out_ok parse hc tc call hcall).1
  have hget : mapGet (recvToolCall parse w tc).1.toolCallBuffer next.ID = none := by
    rw [hid]; exact hgone
  have hnew : ((recvToolCall parse w tc).1.heap ++ [newToolCall next])[
      (recvToolCall parse w tc).1.heap.length]? = some (newToolCall next) := by simp
  have hp1 : parse ((newToolCall next).Function.Arguments ++ next.Function.Arguments) = true := by
    simpa using hparse
  rw [recvToolCall_create parse hget hne, applyFragment_eq parse hnew, if_neg harg, if_pos hp1]
  have hdel : mapDelete (mapSet (recvToolCall parse w tc).1.toolCallBuffer next.ID
      (recvToolCall parse w tc).1.heap.length) next.ID
      = (recvToolCall parse w tc).1.toolCallBuffer := by
    simp only [mapSet, mapDelete_of_mapGet_none hget]
    simp only [mapDelete, List.filter_cons, bne_self_eq_false, Bool.false_eq_true, if_false]
    exact mapDelete_of_mapGet_none hget
  have hobj : (named (newToolCall next) next).appendArguments next.Function.Arguments
      = ⟨call.ID, next.Type_, ⟨next.Function.Name, next.Function.Arguments⟩⟩ := by
    rw [newToolCall_named, ← hid]
    simp [ToolCall.appendArguments, newToolCall]
  rw [hobj, hdel]
  simp

/-- Witness of C13 as amended: the call `x` is emitted for `{}`, and a further
fragment with id `x` follows. -/
theorem completed_buffer_is_final_witness :
    (∀ (pre : List openai.ToolCall) (next : openai.ToolCall),
        target (recvToolCalls jsonUnmarshalMapOk
          (recvToolCall jsonUnmarshalMapOk newOpenRouterStreamWrapper
            ⟨some 0, "x", "function", ⟨"f", "\x7b\x7d"⟩⟩).1 pre).1 next ≠ some 0)
      ∧ ∀ next : openai.ToolCall,
          next.ID = (⟨"x", "function", ⟨"f", "\x7b\x7d"⟩⟩ : ToolCall).ID →
          next.Function.Arguments ≠ "" →
          jsonUnmarshalMapOk next.Function.Arguments = true →
          recvToolCall jsonUnmarshalMapOk
            (recvToolCall jsonUnmarshalMapOk newOpenRouterStreamWrapper
              ⟨some 0, "x", "function", ⟨"f", "\x7b\x7d"⟩⟩).1 next
            = (⟨(recvToolCall jsonUnmarshalMapOk newOpenRouterStreamWrapper
                  ⟨some 0, "x", "function", ⟨"f", "\x7b\x7d"⟩⟩).1.heap ++
                  [⟨(⟨"x", "function", ⟨"f", "\x7b\x7d"⟩⟩ : ToolCall).ID, next.Type_,
                    ⟨next.Function.Name, next.Function.Arguments⟩⟩],
                none, (recvToolCall jsonUnmarshalMapOk newOpenRouterStreamWrapper
                  ⟨some 0, "x", "function", ⟨"f", "\x7b\x7d"⟩⟩).1.toolCallBuffer⟩,
                [⟨(⟨"x", "function", ⟨"f", "\x7b\x7d"⟩⟩ : ToolCall).ID, next.Type_,
                  ⟨next.Function.Name, next.Function.Arguments⟩⟩]) :=
  completed_buffer_is_final jsonUnmarshalMapOk newOpenRouterStreamWrapper Reachable.fresh
    ⟨some 0, "x", "function", ⟨"f", "\x7b\x7d"⟩⟩ ⟨"x", "function", ⟨"f", "\x7b\x7d"⟩⟩
    (by decide) 0 (by decide)

/-- Claim C14.  Whenever the underlying stream's receive fails, with the end
of the stream, a provider error or a transport error, `Recv` returns the
zero-valued response together with a non-nil error and leaves the wrapper
(buffer map, active reference and buffers) unchanged. -/
theorem recv_failure_returns_error (parse : String → Bool) (w : openRouterStreamWrapper)
    (err : GoError) :
    (Recv parse w (.error err)).1 = w
      ∧ (Recv parse w (.error err)).2.1 = zeroResponse
      ∧ (Recv parse w (.error err)).2.2 ≠ none
      ∧ responseToolCalls (Recv parse w (.error err)).2.1 = [] := by
  unfold Recv
  simp only
  split_ifs
  · exact ⟨rfl, rfl, by simp, rfl⟩
  · split <;> exact ⟨rfl, rfl, by simp, rfl⟩

/-- Claim C15.  `Recv` maps a provider error with code `c` and message `m`
(an `*openai.APIError` found on the error's chain) to an error whose text is
`OpenRouter API error: c - m`, and `CreateChatCompletionStream` maps it to
the same error when opening the stream fails.  That error differs from the
end of the stream, which `Recv` returns as `io.EOF` itself, and from a
transport failure, which `Recv` returns as an error that wraps the original
one and whose text is `stream receive failed: ` followed by the original
text; the three texts are pairwise different. -/
theorem provider_error_mapping (parse : String → Bool) (w : openRouterStreamWrapper)
    (err : GoError) (c m : String) (h : err.asAPIError = some (c, m)) :
    (Recv parse w (.error err)).2.2
        = some (.other ("OpenRouter API error: " ++ c ++ " - " ++ m))
      ∧ (CreateChatCompletionStream (.error err)).2
        = some (.other ("OpenRouter API error: " ++ c ++ " - " ++ m))
      ∧ (Recv parse w (.error GoError.EOF)).2.2 = some GoError.EOF
      ∧ (∀ e : GoError, e ≠ GoError.EOF → e.asAPIError = none →
          (Recv parse w (.error e)).2.2
              = some (.wrap ("stream receive failed: " ++ e.Error) e)
            ∧ (GoError.other ("OpenRouter API error: " ++ c ++ " - " ++ m)).Error
              ≠ (GoError.wrap ("stream receive failed: " ++ e.Error) e).Error
            ∧ (GoError.wrap ("stream receive failed: " ++ e.Error) e).Error ≠ GoError.EOF.Error)
      ∧ (GoError.other ("OpenRouter API error: " ++ c ++ " - " ++ m)).Error
        ≠ GoError.EOF.Error := by
  have hne : err ≠ GoError.EOF := by
    intro he
    rw [he] at h
    simp [GoError.asAPIError] at h
  refine ⟨?_, ?_, ?_, ?_, ?_⟩
  · simp [Recv, hne, h]
  · simp [CreateChatCompletionStream, h]
  · simp [Recv]
  · intro e he hapi
    refine ⟨by simp [Recv, he, hapi], api_text_ne_failed c m e.Error, ?_⟩
    show "stream receive failed: " ++ e.Error ≠ "EOF"
    rw [← String.append_empty "EOF"]
    exact str_head_ne _ _ _ _ 's' 'E' (by decide) (by decide) (by decide)
  · exact api_text_ne_eof c m

/-- Witness of C15: the provider answers with the code `404` and the message
`no such model`. -/
theorem provider_error_mapping_witness :
    (Recv jsonUnmarshalMapOk newOpenRouterStreamWrapper
        (.error (GoError.APIError "404" "no such model" "error, status code: 404"))).2.2
      = some (.other "OpenRouter API error: 404 - no such model") :=
  (provider_error_mapping jsonUnmarshalMapOk newOpenRouterStreamWrapper
    (GoError.APIError "404" "no such model" "error, status code: 404")
    "404" "no such model" rfl).1

/-- Claim C16.  Content ordering: over any session, the content the caller
receives for a choice index, message after message in the order of the `Recv`
calls, is the sequence of that choice's content fragments in the order they
were received, nothing reordered, dropped or duplicated, so the
concatenations agree; for the fragments `Hel`, `lo, `, `world` the content
is `Hello, world`. -/
theorem content_in_arrival_order (parse : String → Bool) (w : openRouterStreamWrapper)
    (chunks : List openai.ChatCompletionStreamResponse) (i : Int) :
    emittedContent i (recvChunks parse w chunks).2 = receivedContent i chunks
      ∧ concat (emittedContent i (recvChunks parse w chunks).2)
        = concat (receivedContent i chunks)
      ∧ (receivedContent i chunks = ["Hel", "lo, ", "world"] →
          concat (emittedContent i (recvChunks parse w chunks).2) = "Hello, world") := by
  have h : emittedContent i (recvChunks parse w chunks).2 = receivedContent i chunks :=
    recvChunks_filter_map parse i (fun c => c.Message.Content) (fun c => c.Delta.Content)
      (fun w c => recvChoice_content parse w c) chunks w
  refine ⟨h, by rw [h], ?_⟩
  intro hrecv
  rw [h, hrecv]
  decide

/-- Counterexample to C17: a session of two chunks, each with a delta for the
choice index 0, the second ending the choice with the finish reason `stop`,
hands the caller two messages for the index 0, `Hel` and `lo`, not one
finalized message. -/
theorem two_messages_for_one_choice :
    emittedMessages 0 (recvChunks jsonUnmarshalMapOk newOpenRouterStreamWrapper
        [⟨"r", [⟨0, ⟨"Hel", "assistant", []⟩, ""⟩]⟩,
         ⟨"r", [⟨0, ⟨"lo", "", []⟩, "stop"⟩]⟩]).2
      = [⟨"assistant", "Hel", "", none⟩, ⟨"", "lo", "", none⟩] := by
  decide

/-- Claim C17, amended.  Over a whole streaming session the wrapper hands the
caller one message for every choice of every chunk: the messages for a choice
index are, in the order of the `Recv` calls, exactly as many as the chunks'
choices with that index, each holding the role and the content of its own
delta only; nothing is accumulated into a finalized message. -/
theorem one_message_per_chunk_choice (parse : String → Bool) (w : openRouterStreamWrapper)
    (chunks : List openai.ChatCompletionStreamResponse) (i : Int) :
    (emittedMessages i (recvChunks parse w chunks).2).map (fun m => (m.Role, m.Content))
        = chunks.flatMap (fun r => (r.Choices.filter (fun c => c.Index = i)).map
            (fun c => (c.Delta.Role, c.Delta.Content)))
      ∧ (emittedMessages i (recvChunks parse w chunks).2).length
        = (chunks.flatMap (fun r => r.Choices.filter (fun c => c.Index = i))).length := by
  have h1 : (emittedMessages i (recvChunks parse w chunks).2).map (fun m => (m.Role, m.Content))
      = chunks.flatMap (fun r => (r.Choices.filter (fun c => c.Index = i)).map
          (fun c => (c.Delta.Role, c.Delta.Content))) := by
    rw [← recvChunks_filter_map parse i (fun c => (c.Message.Role, c.Message.Content))
      (fun c => (c.Delta.Role, c.Delta.Content)) (fun _ _ => rfl) chunks w]
    simp only [emittedMessages, List.map_flatMap, List.map_map]
    rfl
  refine ⟨h1, ?_⟩
  have h2 := congrArg List.length h1
  have h3 : (chunks.flatMap (fun r => (r.Choices.filter (fun c => c.Index = i)).map
      (fun c => (c.Delta.Role, c.Delta.Content))))
      = (chunks.flatMap (fun r => r.Choices.filter (fun c => c.Index = i))).map
          (fun c => (c.Delta.Role, c.Delta.Content)) := by
    rw [List.map_flatMap]
  rw [h3] at h2
  simpa only [List.length_map] using h2

/-- Claim C18.  `CreateChatCompletion` maps a successful provider response to
a response with no error, the same id and the same number of choices in the
same order; each choice keeps its index, finish reason, message role, content
and name, and its tool calls in the same order with id, type, function name
and arguments unchanged; the three token counts of the usage are copied. -/
theorem sync_response_mapping (resp : openai.ChatCompletionResponse) :
    (CreateChatCompletion (.ok resp)).2 = none
      ∧ (CreateChatCompletion (.ok resp)).1.ID = resp.ID
      ∧ (elems (CreateChatCompletion (.ok resp)).1.Choices).length = resp.Choices.length
      ∧ (elems (CreateChatCompletion (.ok resp)).1.Choices).map
          (fun c => (c.Index, c.FinishReason, c.Message.Role, c.Message.Content, c.Message.Name,
            (elems c.Message.ToolCalls).map
              (fun t => (t.ID, t.Type_, t.Function.Name, t.Function.Arguments))))
        = resp.Choices.map
          (fun c => (c.Index, c.FinishReason, c.Message.Role, c.Message.Content, c.Message.Name,
            c.Message.ToolCalls.map
              (fun t => (t.ID, t.Type_, t.Function.Name, t.Function.Arguments))))
      ∧ (CreateChatCompletion (.ok resp)).1.Usage.PromptTokens = resp.Usage.PromptTokens
      ∧ (CreateChatCompletion (.ok resp)).1.Usage.CompletionTokens
        = resp.Usage.CompletionTokens
      ∧ (CreateChatCompletion (.ok resp)).1.Usage.TotalTokens = resp.Usage.TotalTokens := by
  refine ⟨rfl, rfl, by simp [CreateChatCompletion, elems_some], ?_, rfl, rfl, rfl⟩
  simp only [CreateChatCompletion, elems_some, List.map_map]
  apply List.map_congr_left
  intro c _
  simp only [Function.comp, convertFromOpenRouterMessage,
    convertFromOpenRouterToolCalls_elems, List.map_map]
  rfl

/-- Counterexample to C19: a non-streaming response holds a tool call with an
empty id and the arguments `{`, which do not parse; `CreateChatCompletion`
returns it as a tool call of the message, with no error. -/
theorem sync_returns_unparsed_call :
    CreateChatCompletion (.ok ⟨"r", [⟨0, ⟨"assistant", "", "",
        [⟨none, "", "function", ⟨"f", "\x7b"⟩⟩]⟩, "tool_calls"⟩], ⟨1, 2, 3⟩⟩)
      = (⟨"r", some [⟨0, ⟨"assistant", "", "", some [⟨"", "function", ⟨"f", "\x7b"⟩⟩]⟩,
          "tool_calls"⟩], ⟨1, 2, 3⟩⟩, none)
      ∧ jsonUnmarshalMapOk "\x7b" = false := by
  decide

/-- Claim C19, amended.  The synchronous response mapper does not validate
tool-call arguments: every tool call of a non-streaming response is returned
to the caller, in order, with the id and the arguments the provider gave,
whether or not the id is empty and whether or not the arguments parse. -/
theorem sync_tool_calls_not_validated (resp : openai.ChatCompletionResponse) :
    (responseToolCalls (CreateChatCompletion (.ok resp)).1).map
        (fun t => (t.ID, t.Function.Arguments))
      = (resp.Choices.flatMap (fun c => c.Message.ToolCalls)).map
        (fun t => (t.ID, t.Function.Arguments)) := by
  simp only [responseToolCalls, CreateChatCompletion, elems_some, List.flatMap_map,
    convertFromOpenRouterToolCalls_elems, List.map_flatMap, List.map_map]
  rfl

/-- Claim C20.  Streaming and synchronous mapping agree on a tool call that
arrives whole: for a provider tool call with a non-empty id and non-empty
arguments that parse, whatever its name and type, delivered to a fresh wrapper
as the only fragment of a chunk, the tool calls `Recv` returns for the chunk
are the list `convertFromOpenRouterToolCalls` returns for that call: one
call, with the same id, type, name and arguments. -/
theorem streaming_agrees_with_sync (parse : String → Bool) (tc : openai.ToolCall)
    (hid : tc.ID ≠ "") (harg : tc.Function.Arguments ≠ "")
    (hparse : parse tc.Function.Arguments = true)
    (chunk : openai.ChatCompletionStreamResponse) (hchunk : chunkFragments chunk = [tc]) :
    responseToolCalls (Recv parse newOpenRouterStreamWrapper (.ok chunk)).2.1
        = elems (convertFromOpenRouterToolCalls [tc])
      ∧ elems (convertFromOpenRouterToolCalls [tc])
        = [⟨tc.ID, tc.Type_, ⟨tc.Function.Name, tc.Function.Arguments⟩⟩] := by
  have hsync := convertFromOpenRouterToolCalls_elems [tc]
  simp only [List.map_cons, List.map_nil] at hsync
  refine ⟨?_, hsync⟩
  rw [(Recv_ok_eq parse _ chunk).2, hchunk, hsync]
  simp only [recvToolCalls, recvToolCall_fresh parse tc hid, if_neg harg, hparse, if_true,
    List.append_nil]

/-- Witness of C20: the call `a` with the name `f` and the arguments `{"x":1}`
in one fragment. -/
theorem streaming_agrees_with_sync_witness :
    responseToolCalls (Recv jsonUnmarshalMapOk newOpenRouterStreamWrapper
        (.ok ⟨"r", [⟨0, ⟨"", "assistant",
          [⟨some 0, "a", "function", ⟨"f", "\x7b\"x\":1\x7d"⟩⟩]⟩, ""⟩]⟩)).2.1
        = elems (convertFromOpenRouterToolCalls
          [⟨some 0, "a", "function", ⟨"f", "\x7b\"x\":1\x7d"⟩⟩])
      ∧ elems (convertFromOpenRouterToolCalls
          [⟨some 0, "a", "function", ⟨"f", "\x7b\"x\":1\x7d"⟩⟩])
        = [⟨"a", "function", ⟨"f", "\x7b\"x\":1\x7d"⟩⟩] :=
  streaming_agrees_with_sync jsonUnmarshalMapOk
    ⟨some 0, "a", "function", ⟨"f", "\x7b\"x\":1\x7d"⟩⟩ (by decide) (by decide) (by decide)
    ⟨"r", [⟨0, ⟨"", "assistant", [⟨some 0, "a", "function", ⟨"f", "\x7b\"x\":1\x7d"⟩⟩]⟩, ""⟩]⟩ rfl

end llm

namespace llm

/-! ## The type of a call -/

@[simp] theorem ToolCall.appendArguments_type (t : ToolCall) (s : String) :
    (t.appendArguments s).Type_ = t.Type_ := rfl

@[simp] theorem named_type (o : ToolCall) (tc : openai.ToolCall) :
    (named o tc).Type_ = o.Type_ := by
  unfold named; split_ifs <;> rfl

@[simp] theorem newToolCall_type (tc : openai.ToolCall) :
    (newToolCall tc).Type_ = tc.Type_ := rfl

/-- A fragment never changes the type of an allocated buffer. -/
theorem recvToolCall_keeps_type (parse : String → Bool) {w : openRouterStreamWrapper}
    (hw : Consistent w) (tc : openai.ToolCall) (p : Nat) (o : ToolCall)
    (hp : w.heap[p]? = some o) :
    ∃ o1, (recvToolCall parse w tc).1.heap[p]? = some o1 ∧ o1.Type_ = o.Type_ := by
  have hlt := heap_lt_of_get hp
  have hset : ∀ (heap : List ToolCall) (p0 : Nat) (o0 x : ToolCall), heap[p]? = some o →
      heap[p0]? = some o0 → x.Type_ = o0.Type_ →
      ∃ o1, (heap.set p0 x)[p]? = some o1 ∧ o1.Type_ = o.Type_ := by
    intro heap p0 o0 x h1 h2 h3
    by_cases hpp : p0 = p
    · subst hpp
      rw [h1] at h2
      cases h2
      exact ⟨x, by simp [List.getElem?_set, heap_lt_of_get h1], h3⟩
    · exact ⟨o, by simp [List.getElem?_set, hpp, h1], rfl⟩
  cases hget : mapGet w.toolCallBuffer tc.ID with
  | some p0 =>
    obtain ⟨o0, ho0, _, _⟩ := hw.mapGet_entry hget
    rw [recvToolCall_existing parse hget, applyFragment_eq parse ho0]
    split_ifs
    all_goals exact hset w.heap p0 o0 _ hp ho0 (by simp)
  | none =>
    by_cases hid : tc.ID = ""
    · by_cases harg : tc.Function.Arguments = ""
      · rw [recvToolCall_idless_empty parse hw.mapGet_empty hid harg]
        exact ⟨o, hp, rfl⟩
      · cases hcur : w.currentToolCall with
        | none =>
          rw [recvToolCall_idless_orphan parse hw.mapGet_empty hid hcur]
          exact ⟨o, hp, rfl⟩
        | some p0 =>
          obtain ⟨o0, ho0, _⟩ := hw.current p0 hcur
          rw [recvToolCall_idless_append parse hw.mapGet_empty hid harg hcur ho0]
          split_ifs
          all_goals exact hset w.heap p0 o0 _ hp ho0 (by simp)
    · have hnew : (w.heap ++ [newToolCall tc])[w.heap.length]? = some (newToolCall tc) := by
        simp
      have hold : (w.heap ++ [newToolCall tc])[p]? = some o := by
        rw [List.getElem?_append_left hlt]
        exact hp
      rw [recvToolCall_create parse hget hid, applyFragment_eq parse hnew]
      split_ifs
      all_goals exact hset _ w.heap.length (newToolCall tc) _ hold hnew (by simp)

/-- A call emitted for a fragment has the type of the buffer the fragment goes
to: the type that buffer was created with or, when the fragment creates it,
the type of the fragment. -/
theorem recvToolCall_out_type (parse : String → Bool) {w : openRouterStreamWrapper}
    (hw : Consistent w) (tc : openai.ToolCall) :
    ∀ c ∈ (recvToolCall parse w tc).2, ∀ p, target w tc = some p →
      c.Type_ = match w.heap[p]? with
        | some o => o.Type_
        | none => tc.Type_ := by
  intro c hc p hp
  obtain ⟨q, hq, hheap⟩ := recvToolCall_out_target parse hw tc c hc
  rw [hp] at hq
  cases hq
  cases hold : w.heap[p]? with
  | some o =>
    obtain ⟨o1, ho1, htype⟩ := recvToolCall_keeps_type parse hw tc p o hold
    rw [hheap] at ho1
    cases ho1
    exact htype
  | none =>
    -- the fragment creates the buffer
    simp only
    cases hget : mapGet w.toolCallBuffer tc.ID with
    | some p0 =>
      obtain ⟨o0, ho0, _, hne⟩ := hw.mapGet_entry hget
      have : p = p0 := by
        simp only [target, hne, if_false, hget, Option.some.injEq] at hp
        exact hp.symm
      subst this
      rw [hold] at ho0
      cases ho0
    | none =>
      by_cases hid : tc.ID = ""
      · have hcur : w.currentToolCall = some p := by simpa [target, hid] using hp
        obtain ⟨o0, ho0, _⟩ := hw.current p hcur
        rw [hold] at ho0
        cases ho0
      · have hnew : (w.heap ++ [newToolCall tc])[w.heap.length]? = some (newToolCall tc) := by
          simp
        rw [recvToolCall_create parse hget hid, applyFragment_eq parse hnew] at hc
        split_ifs at hc
        · simp at hc
        · simp only [List.mem_singleton] at hc
          rw [hc]
          simp
        · simp at hc

end llm

namespace llm

/-! ## Invariants of a session -/

theorem Reachable.after_recvAll (parse : String → Bool) :
    ∀ (received : List (Except GoError openai.ChatCompletionStreamResponse))
      {w : openRouterStreamWrapper}, Reachable parse w → Reachable parse (recvAll parse w received) := by
  intro received
  induction received with
  | nil => intro w h; exact h
  | cons r rest ih => intro w h; exact ih (h.recv_result r)

/-- A fragment with arguments whose buffer parses afterwards emits a call. -/
theorem recvToolCall_emits (parse : String → Bool) {w : openRouterStreamWrapper}
    (hw : Consistent w) (tc : openai.ToolCall) {p : Nat} (hp : target w tc = some p)
    (harg : tc.Function.Arguments ≠ "")
    (hparse : parse (argumentsAt (recvToolCall parse w tc).1.heap p) = true) :
    (recvToolCall parse w tc).2 ≠ [] := by
  rw [argumentsAt_recvToolCall parse hw tc p, hp] at hparse
  simp only [if_true, concat_singleton] at hparse
  cases hget : mapGet w.toolCallBuffer tc.ID with
  | some p0 =>
    obtain ⟨o, ho, _, hne⟩ := hw.mapGet_entry hget
    have : p = p0 := by
      simp only [target, hne, if_false, hget, Option.some.injEq] at hp
      exact hp.symm
    subst this
    rw [argumentsAt_of_some ho] at hparse
    rw [recvToolCall_existing parse hget, applyFragment_eq parse ho, if_neg harg, if_pos hparse]
    simp
  | none =>
    by_cases hid : tc.ID = ""
    · have hcur : w.currentToolCall = some p := by simpa [target, hid] using hp
      obtain ⟨o, ho, _⟩ := hw.current p hcur
      rw [argumentsAt_of_some ho] at hparse
      rw [recvToolCall_idless_append parse hw.mapGet_empty hid harg hcur ho, if_pos hparse]
      simp
    · have hnew : (w.heap ++ [newToolCall tc])[w.heap.length]? = some (newToolCall tc) := by
        simp
      have : p = w.heap.length := by
        simp only [target, hid, if_false, hget, Option.some.injEq] at hp
        exact hp.symm
      subst this
      have hout : argumentsAt w.heap w.heap.length = "" := by simp [argumentsAt]
      rw [hout] at hparse
      rw [recvToolCall_create parse hget hid, applyFragment_eq parse hnew, if_neg harg,
        if_pos (by simpa using hparse)]
      simp

/-- No buffer whose arguments parse is left in the map by a fragment. -/
theorem Unparsed.after_step (parse : String → Bool) (hempty : parse "" = false)
    {w : openRouterStreamWrapper} (hw : Consistent w) (h : Unparsed parse w)
    (tc : openai.ToolCall) : Unparsed parse (recvToolCall parse w tc).1 := by
  intro k p hmem
  by_contra hcon
  have hparse : parse (argumentsAt (recvToolCall parse w tc).1.heap p) = true := by
    simpa using hcon
  by_cases hcase : target w tc = some p ∧ tc.Function.Arguments ≠ ""
  · obtain ⟨ht, harg⟩ := hcase
    have hout := recvToolCall_emits parse hw tc ht harg hparse
    obtain ⟨c, hc⟩ := List.exists_mem_of_ne_nil _ hout
    exact (Retired.of_emitted parse hw tc hc ht).2.1 k hmem
  · have hsame : argumentsAt (recvToolCall parse w tc).1.heap p = argumentsAt w.heap p := by
      rw [argumentsAt_recvToolCall parse hw tc p]
      by_cases ht : target w tc = some p
      · have harg : tc.Function.Arguments = "" := by
          by_contra hne
          exact hcase ⟨ht, hne⟩
        simp [ht, harg, concat]
      · simp [ht, concat]
    rw [hsame] at hparse
    rcases (recvToolCall_shape parse hw tc).2.1 k p hmem with hold | hnew
    · rw [h k p hold] at hparse
      exact Bool.false_ne_true hparse
    · have hout : argumentsAt w.heap p = "" := by
        subst hnew
        simp [argumentsAt]
      rw [hout, hempty] at hparse
      exact Bool.false_ne_true hparse

theorem Reachable.unparsed {parse : String → Bool} (hempty : parse "" = false)
    {w : openRouterStreamWrapper} (h : Reachable parse w) : Unparsed parse w := by
  induction h with
  | fresh => intro k p hmem; simp [newOpenRouterStreamWrapper] at hmem
  | fragment tc hr ih => exact ih.after_step parse hempty hr.consistent tc

/-! ## Choices of a chunk -/

theorem recvChoices_length (parse : String → Bool) :
    ∀ (cs : List openai.ChatCompletionStreamChoice) (w : openRouterStreamWrapper),
      (recvChoices parse w cs).2.length = cs.length := by
  intro cs
  induction cs with
  | nil => intro w; rfl
  | cons c rest ih => intro w; simp [recvChoices, ih]

theorem recvChoices_map {α : Type} (parse : String → Bool)
    (f : Choice → α) (g : openai.ChatCompletionStreamChoice → α)
    (hfg : ∀ w c, f (recvChoice parse w c).2 = g c) :
    ∀ (cs : List openai.ChatCompletionStreamChoice) (w : openRouterStreamWrapper),
      (recvChoices parse w cs).2.map f = cs.map g := by
  intro cs
  induction cs with
  | nil => intro w; rfl
  | cons c rest ih => intro w; simp [recvChoices, ih, hfg]

/-! ## Request messages -/

theorem convert_foldl (messages : List Message) (acc : List openai.ChatCompletionMessage) :
    messages.foldl
        (fun openRouterMessages msg =>
          if msg.Content = "" then openRouterMessages
          else openRouterMessages ++
            [{ Role := msg.Role, Content := msg.Content, Name := msg.Name, ToolCalls := [] }])
        acc
      = acc ++ (messages.filter (fun msg => msg.Content ≠ "")).map
          (fun msg => ⟨msg.Role, msg.Content, msg.Name, []⟩) := by
  induction messages generalizing acc with
  | nil => simp
  | cons m rest ih =>
    simp only [List.foldl_cons, ih, List.filter_cons]
    by_cases h : m.Content = "" <;> simp [h]

end llm

namespace fileanalyzer3

/-! ## The response cache -/

theorem lookup_filter_ne (m : List (String × String)) {k k1 : String} (h : k1 ≠ k) :
    (m.filter (fun e => e.1 != k)).lookup k1 = m.lookup k1 := by
  induction m with
  | nil => rfl
  | cons e rest ih =>
    obtain ⟨k2, v2⟩ := e
    by_cases hk : k2 = k
    · subst hk
      have h1 : (k1 == k2) = false := by simpa using h
      simp [List.filter_cons, List.lookup_cons, h1, ih]
    · have h2 : (k2 != k) = true := by simpa using hk
      simp only [List.filter_cons, h2, if_true, List.lookup_cons, ih]

theorem cacheGet_cacheStore_self (m : List (String × String)) (k v : String) :
    cacheGet (some (cacheStore m k v)) k = some v := by
  simp [cacheGet, cacheStore, List.lookup_cons]

theorem cacheGet_cacheStore_of_ne (m : List (String × String)) {k k1 : String} (v : String)
    (h : k1 ≠ k) : cacheGet (some (cacheStore m k v)) k1 = cacheGet (some m) k1 := by
  have h1 : (k1 == k) = false := by simpa using h
  simp only [cacheGet, cacheStore, List.lookup_cons, h1, lookup_filter_ne m h]

theorem loadCache_loaded (disk : DiskCache) (s : CacheState) :
    (loadCache disk s).cacheLoaded = true := by
  unfold loadCache
  by_cases h : s.cacheLoaded = true
  · simp [h]
  · simp [h]

theorem loadCache_of_loaded (disk : DiskCache) {s : CacheState} (h : s.cacheLoaded = true) :
    loadCache disk s = s := by
  simp [loadCache, h]

/-- A call whose key is in the loaded cache is served from the cache. -/
theorem CachedCall_hit (sha1hex : String → String) (disk : DiskCache) {s : CacheState}
    (model prompt apiType : String) (call : String → Except llm.GoError String) {r : String}
    (hl : s.cacheLoaded = true)
    (hget : cacheGet s.cache (hashPrompt sha1hex (model ++ "|" ++ apiType) prompt) = some r) :
    CachedCall sha1hex disk s model prompt apiType call
      = some { state := s, response := r, err := none, invoked := false, saved := false } := by
  simp only [CachedCall, loadCache_of_loaded disk hl, hget]

/-- A call keeps the cache loaded and keeps every entry of the cache. -/
theorem CachedCall_keeps (sha1hex : String → String) (disk : DiskCache) {s : CacheState}
    (model prompt apiType : String) (call : String → Except llm.GoError String)
    {k r : String} (hl : s.cacheLoaded = true) (hget : cacheGet s.cache k = some r)
    {out : CallOutcome} (h : CachedCall sha1hex disk s model prompt apiType call = some out) :
    out.state.cacheLoaded = true ∧ cacheGet out.state.cache k = some r := by
  simp only [CachedCall, loadCache_of_loaded disk hl] at h
  split at h
  · cases h
    exact ⟨hl, hget⟩
  · next hmiss =>
    split at h
    · cases h
      exact ⟨hl, hget⟩
    · split at h
      · cases h
      · next m hm =>
        cases h
        refine ⟨hl, ?_⟩
        have hne : k ≠ hashPrompt sha1hex (model ++ "|" ++ apiType) prompt := by
          intro heq
          rw [heq, hmiss] at hget
          cases hget
        simp only
        rw [cacheGet_cacheStore_of_ne m _ hne, ← hm]
        exact hget

end fileanalyzer3

namespace utils

/-! ## File names -/

theorem sanitizeRune_eq (c : Char) :
    sanitizeRune c = if c ∈ unsafeRunes then '_' else c := by
  simp [sanitizeRune, unsafeRunes]

theorem sanitizeRune_safe (c : Char) : sanitizeRune c ∉ unsafeRunes := by
  rw [sanitizeRune_eq]
  split_ifs with h
  · decide
  · exact h

theorem sanitizeRune_of_safe {c : Char} (h : c ∉ unsafeRunes) : sanitizeRune c = c := by
  rw [sanitizeRune_eq, if_neg h]

theorem SanitizeFilename_data (name : String) :
    (SanitizeFilename name).data = name.data.map sanitizeRune := by
  unfold SanitizeFilename
  rw [String.map_eq]

/-! ## Chapters -/

theorem chapterLines_eq :
    ∀ (rest : List String) (sb : String), sb.length > 0 →
      chapterLines sb rest
        = sb ++ llm.concat ((rest.takeWhile (fun l => !chapterRE l && !isBlank l)).map
            (fun l => l ++ "\n")) := by
  intro rest
  induction rest with
  | nil => intro sb _; simp [chapterLines, llm.concat]
  | cons line rest ih =>
    intro sb hsb
    unfold chapterLines
    by_cases h1 : chapterRE line = true
    · simp [h1, llm.concat]
    · by_cases h2 : isBlank line = true
      · simp [h1, h2, hsb, llm.concat]
      · have hlen : (sb ++ line ++ "\n").length > 0 := by
          rw [String.length_append, String.length_append]
          omega
        simp only [h1, h2, Bool.false_eq_true, if_false, Bool.false_and, ih _ hlen]
        simp [List.takeWhile_cons, h1, h2, llm.concat, String.append_assoc]

theorem parseLines_eq (lines : List String) : parseLines lines = chaptersOf lines := by
  induction lines with
  | nil => rfl
  | cons line rest ih =>
    unfold parseLines chaptersOf
    by_cases h : chapterRE line = true
    · have hlen : (line ++ "\n").length > 0 := by
        have h1 : ("\n" : String).length = 1 := by decide
        rw [String.length_append, h1]
        omega
      simp only [h, if_true, ih, chapterLines_eq rest _ hlen, chapterOf, List.map_cons,
        llm.concat]
    · simp only [h, Bool.false_eq_true, if_false, ih]

theorem chaptersOf_length (lines : List String) :
    (chaptersOf lines).length = lines.countP chapterRE := by
  induction lines with
  | nil => rfl
  | cons line rest ih =>
    unfold chaptersOf
    by_cases h : chapterRE line = true
    · simp [h, ih]
    · simp [h, ih]

/-! ## Lines of a text -/

theorem splitNewline_ne_nil : ∀ (cs cur : List Char), splitNewline cur cs ≠ [] := by
  intro cs
  induction cs with
  | nil => intro cur; simp [splitNewline]
  | cons c cs ih =>
    intro cur
    unfold splitNewline
    split_ifs
    · simp
    · exact ih _

theorem intercalate_cons_of_ne_nil {α : Type} (sep a : List α) {xs : List (List α)}
    (h : xs ≠ []) : List.intercalate sep (a :: xs) = a ++ sep ++ List.intercalate sep xs := by
  cases xs with
  | nil => exact absurd rfl h
  | cons b l => simp [List.intercalate, List.intersperse]

theorem splitNewline_join : ∀ (cs cur : List Char),
    List.intercalate ['\n'] ((splitNewline cur cs).map String.data) = cur.reverse ++ cs := by
  intro cs
  induction cs with
  | nil => intro cur; simp [splitNewline, List.intercalate]
  | cons c cs ih =>
    intro cur
    unfold splitNewline
    split_ifs with h
    · rw [List.map_cons, intercalate_cons_of_ne_nil _ _ (by simpa using splitNewline_ne_nil cs []), ih]
      simp [h]
    · rw [ih]
      simp

theorem splitNewline_no_newline : ∀ (cs cur : List Char), '\n' ∉ cur →
    ∀ l ∈ splitNewline cur cs, '\n' ∉ l.data := by
  intro cs
  induction cs with
  | nil => intro cur hcur l hl; simp [splitNewline] at hl; subst hl; simpa using hcur
  | cons c cs ih =>
    intro cur hcur l hl
    unfold splitNewline at hl
    split_ifs at hl with h
    · rcases List.mem_cons.1 hl with h1 | h1
      · subst h1; simpa using hcur
      · exact ih [] (by simp) l h1
    · exact ih (c :: cur) (by simp [hcur]; exact fun h' => h h'.symm) l hl

end utils

namespace llm

/-! ## Claims C21 to C30 -/

/-- Counterexample to C21: a fragment that carries no type, and a provider
tool call of type `custom`, are handed to the caller with the types they came
with, not with the type `function`. -/
theorem type_not_forced :
    responseToolCalls (Recv jsonUnmarshalMapOk newOpenRouterStreamWrapper
        (.ok ⟨"r", [⟨0, ⟨"", "", [⟨some 0, "a", "", ⟨"f", "\x7b\x7d"⟩⟩]⟩, ""⟩]⟩)).2.1
      = [⟨"a", "", ⟨"f", "\x7b\x7d"⟩⟩]
    ∧ responseToolCalls (CreateChatCompletion (.ok ⟨"r", [⟨0, ⟨"assistant", "", "",
        [⟨none, "a", "custom", ⟨"f", "\x7b\x7d"⟩⟩]⟩, "tool_calls"⟩], ⟨1, 2, 3⟩⟩)).1
      = [⟨"a", "custom", ⟨"f", "\x7b\x7d"⟩⟩] := by
  decide

/-- Claim C21, amended.  The type of a tool call handed to a caller is the
type the provider gave.  In every state a wrapper can be in, no fragment
changes the type of a buffer, and a call emitted by `Recv` has the type its
buffer was created with, which is the type of the fragment that created it;
`convertFromOpenRouterToolCalls` copies the type of every call.  So the type
is `function` exactly when the provider said so. -/
theorem type_is_copied (parse : String → Bool) (w : openRouterStreamWrapper)
    (hw : Reachable parse w) (tc : openai.ToolCall) :
    (∀ (p : Nat) (o : ToolCall), w.heap[p]? = some o →
        ∃ o1, (recvToolCall parse w tc).1.heap[p]? = some o1 ∧ o1.Type_ = o.Type_)
      ∧ (∀ call ∈ (recvToolCall parse w tc).2, ∀ p, target w tc = some p →
          call.Type_ = match w.heap[p]? with
            | some o => o.Type_
            | none => tc.Type_)
      ∧ ∀ toolCalls : List openai.ToolCall,
          (elems (convertFromOpenRouterToolCalls toolCalls)).map (fun t => t.Type_)
            = toolCalls.map (fun t => t.Type_) := by
  refine ⟨fun p o hp => recvToolCall_keeps_type parse hw.consistent tc p o hp,
    recvToolCall_out_type parse hw.consistent tc, ?_⟩
  intro toolCalls
  rw [convertFromOpenRouterToolCalls_elems]
  simp

/-- Witness of C21 as amended: a fragment of type `function` completes a
buffer that was created with the type `custom`; the call has the type
`custom`. -/
theorem type_is_copied_witness :
    (⟨"a", "custom", ⟨"f", "\x7b\x7d"⟩⟩ : ToolCall).Type_
      = match (recvToolCall jsonUnmarshalMapOk newOpenRouterStreamWrapper
          ⟨some 0, "a", "custom", ⟨"f", "\x7b"⟩⟩).1.heap[0]? with
        | some o => o.Type_
        | none => "function" :=
  (type_is_copied jsonUnmarshalMapOk
    (recvToolCall jsonUnmarshalMapOk newOpenRouterStreamWrapper
      ⟨some 0, "a", "custom", ⟨"f", "\x7b"⟩⟩).1
    (Reachable.fresh.fragment _) ⟨some 0, "a", "function", ⟨"", "\x7d"⟩⟩).2.1
    ⟨"a", "custom", ⟨"f", "\x7b\x7d"⟩⟩ (by decide) 0 (by decide)

/-- Claim C23.  In every state reached from a fresh wrapper by `Recv` calls,
whatever the stream returned to them, the active reference is nil or points
at a buffer that is in the buffer map under its own id (so never at a
completed or removed buffer). -/
theorem active_reference_in_map (parse : String → Bool)
    (received : List (Except GoError openai.ChatCompletionStreamResponse)) :
    (recvAll parse newOpenRouterStreamWrapper received).currentToolCall = none
      ∨ ∃ p o, (recvAll parse newOpenRouterStreamWrapper received).currentToolCall = some p
          ∧ (recvAll parse newOpenRouterStreamWrapper received).heap[p]? = some o
          ∧ mapGet (recvAll parse newOpenRouterStreamWrapper received).toolCallBuffer o.ID
            = some p
          ∧ (o.ID, p) ∈ (recvAll parse newOpenRouterStreamWrapper received).toolCallBuffer := by
  have hc := (Reachable.after_recvAll parse received Reachable.fresh).consistent
  cases hcur : (recvAll parse newOpenRouterStreamWrapper received).currentToolCall with
  | none => exact Or.inl rfl
  | some p =>
    obtain ⟨o, ho, hin⟩ := hc.current p hcur
    exact Or.inr ⟨p, o, rfl, ho, hin, mapGet_eq_some_mem hin⟩

/-- Claim C24.  In every state reached from a fresh wrapper by `Recv` calls,
every entry of the buffer map points at a buffer whose id is the entry's key,
the key is not empty, and the arguments accumulated in the buffer do not
parse.  This holds for every decoder that rejects the empty text, as
`json.Unmarshal` does. -/
theorem buffered_entries_unparsed (parse : String → Bool) (hempty : parse "" = false)
    (received : List (Except GoError openai.ChatCompletionStreamResponse))
    (k : String) (p : Nat)
    (hmem : (k, p) ∈ (recvAll parse newOpenRouterStreamWrapper received).toolCallBuffer) :
    ∃ o, (recvAll parse newOpenRouterStreamWrapper received).heap[p]? = some o
      ∧ o.ID = k ∧ k ≠ "" ∧ parse o.Function.Arguments = false := by
  have hr := Reachable.after_recvAll parse received Reachable.fresh
  obtain ⟨o, ho, hid, hne⟩ := hr.consistent.entry k p hmem
  refine ⟨o, ho, hid, hne, ?_⟩
  have := hr.unparsed hempty k p hmem
  rwa [argumentsAt_of_some ho] at this

/-- Witness of C24: after a chunk that starts the call `a` with `{"x"`, an
error of the stream and a chunk that continues it with `:`, the map holds the
entry `a`. -/
theorem buffered_entries_unparsed_witness :
    ∃ o, (recvAll jsonUnmarshalMapOk newOpenRouterStreamWrapper
        [.ok ⟨"r", [⟨0, ⟨"", "", [⟨some 0, "a", "function", ⟨"f", "\x7b\"x\""⟩⟩]⟩, ""⟩]⟩,
         .error (GoError.other "timeout"),
         .ok ⟨"r", [⟨0, ⟨"", "", [⟨none, "", "", ⟨"", ":"⟩⟩]⟩, ""⟩]⟩]).heap[0]? = some o
      ∧ o.ID = "a" ∧ "a" ≠ "" ∧ jsonUnmarshalMapOk o.Function.Arguments = false :=
  buffered_entries_unparsed jsonUnmarshalMapOk (by decide)
    [.ok ⟨"r", [⟨0, ⟨"", "", [⟨some 0, "a", "function", ⟨"f", "\x7b\"x\""⟩⟩]⟩, ""⟩]⟩,
     .error (GoError.other "timeout"),
     .ok ⟨"r", [⟨0, ⟨"", "", [⟨none, "", "", ⟨"", ":"⟩⟩]⟩, ""⟩]⟩] "a" 0 (by decide)

/-- Counterexample to C25: the second choice of a chunk holds the id-less
fragment `}` only.  When the first choice of the chunk holds the fragment `{`
of the call `a`, the second choice is handed the call `a` with the arguments
`{}`; when the first choice holds no fragment, the second choice is handed no
call. -/
theorem choices_share_buffers :
    (elems (Recv jsonUnmarshalMapOk newOpenRouterStreamWrapper
        (.ok ⟨"r", [⟨0, ⟨"", "", [⟨some 0, "a", "function", ⟨"f", "\x7b"⟩⟩]⟩, ""⟩,
          ⟨1, ⟨"", "", [⟨none, "", "", ⟨"", "\x7d"⟩⟩]⟩, ""⟩]⟩)).2.1.Choices).map
        (fun c => (c.Index, elems c.Message.ToolCalls))
      = [(0, []), (1, [⟨"a", "function", ⟨"f", "\x7b\x7d"⟩⟩])]
    ∧ (elems (Recv jsonUnmarshalMapOk newOpenRouterStreamWrapper
        (.ok ⟨"r", [⟨0, ⟨"", "", []⟩, ""⟩,
          ⟨1, ⟨"", "", [⟨none, "", "", ⟨"", "\x7d"⟩⟩]⟩, ""⟩]⟩)).2.1.Choices).map
        (fun c => (c.Index, elems c.Message.ToolCalls))
      = [(0, []), (1, [])] := by
  decide

/-- Claim C25, amended.  The buffer map and the active reference are shared by
all choices.  The tool calls `Recv` returns for a choice of a chunk are those
of processing that choice's own fragments in the wrapper state left by all
fragments processed before, of earlier chunks and of the choices that precede
it in the chunk, whichever choice they belong to. -/
theorem choice_calls_from_shared_state (parse : String → Bool) (w : openRouterStreamWrapper)
    (id : String) (before after : List openai.ChatCompletionStreamChoice)
    (c : openai.ChatCompletionStreamChoice) :
    ∃ c1, (elems (Recv parse w (.ok ⟨id, before ++ c :: after⟩)).2.1.Choices)[before.length]?
        = some c1
      ∧ c1.Index = c.Index
      ∧ elems c1.Message.ToolCalls
        = (recvToolCalls parse
            (recvToolCalls parse w (before.flatMap (fun c => c.Delta.ToolCalls))).1
            c.Delta.ToolCalls).2 := by
  have hlen := recvChoices_length parse before w
  have hb := (recvChoices_eq parse w before).1
  refine ⟨(recvChoice parse (recvChoices parse w before).1 c).2, ?_, rfl, ?_⟩
  · simp only [Recv, elems_some, recvChoices_append, recvChoices]
    rw [← hlen, List.getElem?_append_right (le_refl _)]
    simp
  · rw [(recvChoice_eq parse _ c).2, hb]

/-- Claim C26.  For every chunk the stream delivers, `Recv` returns no error
and a response with the chunk's id and one choice for every choice of the
chunk, in the same order, each with the index, the finish reason, the role
and the content of the chunk's choice. -/
theorem recv_maps_chunk (parse : String → Bool) (w : openRouterStreamWrapper)
    (chunk : openai.ChatCompletionStreamResponse) :
    (Recv parse w (.ok chunk)).2.2 = none
      ∧ (Recv parse w (.ok chunk)).2.1.ID = chunk.ID
      ∧ (elems (Recv parse w (.ok chunk)).2.1.Choices).length = chunk.Choices.length
      ∧ (elems (Recv parse w (.ok chunk)).2.1.Choices).map
          (fun c => (c.Index, c.FinishReason, c.Message.Role, c.Message.Content))
        = chunk.Choices.map
          (fun c => (c.Index, c.FinishReason, c.Delta.Role, c.Delta.Content)) := by
  refine ⟨rfl, rfl, recvChoices_length parse chunk.Choices w, ?_⟩
  exact recvChoices_map parse _ _ (fun _ _ => rfl) chunk.Choices w

/-- Claim C27.  For every list of messages, `convertToOpenRouterMessages`
returns, in the original order, one converted message, with the role, the
content and the name copied, for every message whose content is not empty,
and nothing for a message whose content is empty; the length of the result
is the number of messages with a non-empty content. -/
theorem convert_skips_empty_content (messages : List Message) :
    convertToOpenRouterMessages messages
        = (messages.filter (fun msg => msg.Content ≠ "")).map
            (fun msg => ⟨msg.Role, msg.Content, msg.Name, []⟩)
      ∧ (convertToOpenRouterMessages messages).length
        = messages.countP (fun msg => msg.Content ≠ "")
      ∧ (convertToOpenRouterMessages messages).map (fun m => (m.Role, m.Content, m.Name))
        = (messages.filter (fun msg => msg.Content ≠ "")).map
            (fun msg => (msg.Role, msg.Content, msg.Name)) := by
  have h : convertToOpenRouterMessages messages
      = (messages.filter (fun msg => msg.Content ≠ "")).map
          (fun msg => ⟨msg.Role, msg.Content, msg.Name, []⟩) := by
    unfold convertToOpenRouterMessages
    rw [convert_foldl]
    simp
  refine ⟨h, ?_, ?_⟩
  · rw [h, List.length_map, List.countP_eq_length_filter]
  · rw [h, List.map_map]
    rfl

end llm

namespace fileanalyzer3

/-- Claim C22.  `CachedCall` serves repeats from the cache, for calls made one
after the other.  After a `CachedCall` that invoked its call function and got
the response `r`, every later `CachedCall` with the same model, prompt and API
type, directly after it or after another `CachedCall`, returns `r` with no
error and does not invoke the call function it is given, whatever that
function and the cache file are.  And a `CachedCall` whose call function
fails returns the empty response and that error, and leaves the cache as
`loadCache` made it: no entry is added.  A `CachedCall` returns whenever the
map is not nil after `loadCache`. -/
theorem cached_call_repeats (sha1hex : String → String) (disk : DiskCache) (s : CacheState)
    (model prompt apiType : String) (call : String → Except llm.GoError String) (r : String)
    (out : CallOutcome)
    (hfirst : CachedCall sha1hex disk s model prompt apiType call = some out)
    (hinvoked : out.invoked = true) (hr : call prompt = .ok r) :
    (∀ (disk2 : DiskCache) (call2 : String → Except llm.GoError String),
        CachedCall sha1hex disk2 out.state model prompt apiType call2
          = some { state := out.state, response := r, err := none, invoked := false,
                   saved := false })
      ∧ (∀ (disk1 : DiskCache) (model1 prompt1 apiType1 : String)
          (call1 : String → Except llm.GoError String) (out1 : CallOutcome),
          CachedCall sha1hex disk1 out.state model1 prompt1 apiType1 call1 = some out1 →
          ∀ (disk2 : DiskCache) (call2 : String → Except llm.GoError String),
            CachedCall sha1hex disk2 out1.state model prompt apiType call2
              = some { state := out1.state, response := r, err := none, invoked := false,
                       saved := false })
      ∧ (∀ (disk3 : DiskCache) (s3 : CacheState) (model3 prompt3 apiType3 : String)
          (call3 : String → Except llm.GoError String) (e : llm.GoError) (out3 : CallOutcome),
          CachedCall sha1hex disk3 s3 model3 prompt3 apiType3 call3 = some out3 →
          out3.invoked = true → call3 prompt3 = .error e →
          out3.response = "" ∧ out3.err = some e ∧ out3.state = loadCache disk3 s3)
      ∧ ∀ (disk4 : DiskCache) (s4 : CacheState) (model4 prompt4 apiType4 : String)
          (call4 : String → Except llm.GoError String),
          (loadCache disk4 s4).cache ≠ none →
          (CachedCall sha1hex disk4 s4 model4 prompt4 apiType4 call4).isSome = true := by
  have hstate : out.state.cacheLoaded = true
      ∧ cacheGet out.state.cache (hashPrompt sha1hex (model ++ "|" ++ apiType) prompt)
        = some r := by
    simp only [CachedCall] at hfirst
    split at hfirst
    · cases hfirst
      simp at hinvoked
    · rw [hr] at hfirst
      simp only at hfirst
      split at hfirst
      · cases hfirst
      · cases hfirst
        exact ⟨loadCache_loaded disk s, cacheGet_cacheStore_self _ _ _⟩
  refine ⟨?_, ?_, ?_, ?_⟩
  · intro disk2 call2
    exact CachedCall_hit sha1hex disk2 model prompt apiType call2 hstate.1 hstate.2
  · intro disk1 model1 prompt1 apiType1 call1 out1 h1 disk2 call2
    obtain ⟨hl, hget⟩ := CachedCall_keeps sha1hex disk1 model1 prompt1 apiType1 call1
      hstate.1 hstate.2 h1
    exact CachedCall_hit sha1hex disk2 model prompt apiType call2 hl hget
  · intro disk3 s3 model3 prompt3 apiType3 call3 e out3 h3 hinv3 he
    simp only [CachedCall] at h3
    split at h3
    · cases h3
      simp at hinv3
    · rw [he] at h3
      cases h3
      exact ⟨rfl, rfl, rfl⟩
  · intro disk4 s4 model4 prompt4 apiType4 call4 hmap
    simp only [CachedCall]
    split
    · rfl
    · split
      · rfl
      · split
        · rename_i hnil
          exact absurd hnil hmap
        · rfl

/-- Witness of C22: the first call of a program, with an unreadable cache
file, and its repeat. -/
theorem cached_call_repeats_witness :
    CachedCall (fun x => x) DiskCache.null
        { cache := some [("m|ollama|p", "r")], cacheLoaded := true } "m" "p" "ollama"
        (fun _ => .error llm.GoError.EOF)
      = some { state := { cache := some [("m|ollama|p", "r")], cacheLoaded := true },
               response := "r", err := none, invoked := false, saved := false } :=
  (cached_call_repeats (fun x => x) DiskCache.unreadable initialCache "m" "p" "ollama"
    (fun _ => .ok "r") "r"
    { state := { cache := some [("m|ollama|p", "r")], cacheLoaded := true },
      response := "r", err := none, invoked := true, saved := true }
    (by decide) rfl rfl).1 DiskCache.null (fun _ => .error llm.GoError.EOF)

end fileanalyzer3

namespace utils

/-- Claim C28.  For every string, `SanitizeFilename` returns a string with the
same number of characters, none of which is one of `/ \ space : * ? " < > |`;
at every position it holds `_` where the name holds one of those characters
and the character of the name otherwise.  Hence it is idempotent, and it is
the identity on names free of those characters. -/
theorem sanitize_filename_spec (name : String) :
    (SanitizeFilename name).length = name.length
      ∧ (∀ c ∈ (SanitizeFilename name).data, c ∉ unsafeRunes)
      ∧ (∀ (i : Nat) (c : Char), name.data[i]? = some c →
          (SanitizeFilename name).data[i]? = some (if c ∈ unsafeRunes then '_' else c))
      ∧ SanitizeFilename (SanitizeFilename name) = SanitizeFilename name
      ∧ ((∀ c ∈ name.data, c ∉ unsafeRunes) → SanitizeFilename name = name) := by
  have hdata := SanitizeFilename_data name
  refine ⟨?_, ?_, ?_, ?_, ?_⟩
  · show (SanitizeFilename name).data.length = name.data.length
    rw [hdata, List.length_map]
  · intro c hc
    rw [hdata] at hc
    obtain ⟨d, _, rfl⟩ := List.mem_map.1 hc
    exact sanitizeRune_safe d
  · intro i c hi
    rw [hdata, List.getElem?_map, hi, Option.map_some', sanitizeRune_eq]
  · apply String.ext
    rw [SanitizeFilename_data, hdata, List.map_map]
    apply List.map_congr_left
    intro c _
    exact sanitizeRune_of_safe (sanitizeRune_safe c)
  · intro hsafe
    apply String.ext
    rw [hdata]
    conv_rhs => rw [← List.map_id name.data]
    apply List.map_congr_left
    intro c hc
    exact sanitizeRune_of_safe (hsafe c hc)

/-- Claim C29.  For every plan text, whose lines are the pieces between its
newlines, `ParseChapters` returns one chapter for every line that matches the
chapter-heading pattern, in the order of the headings; each chapter is its
heading line followed by the directly following lines up to, and not
including, the next heading line or the first line of white space, every
line terminated by a newline; a plan without heading line yields the empty
list. -/
theorem parse_chapters_spec (plan : String) :
    List.intercalate ['\n'] ((splitNewline [] plan.data).map String.data) = plan.data
      ∧ (∀ line ∈ splitNewline [] plan.data, '\n' ∉ line.data)
      ∧ ParseChapters plan = chaptersOf (splitNewline [] plan.data)
      ∧ (ParseChapters plan).length = (splitNewline [] plan.data).countP chapterRE
      ∧ ((∀ line ∈ splitNewline [] plan.data, chapterRE line = false) →
          ParseChapters plan = []) := by
  have h : ParseChapters plan = chaptersOf (splitNewline [] plan.data) :=
    parseLines_eq _
  refine ⟨by simpa using splitNewline_join plan.data [],
    splitNewline_no_newline plan.data [] (by simp), h, ?_, ?_⟩
  · rw [h, chaptersOf_length]
  · intro hnone
    have hlen : (ParseChapters plan).length = 0 := by
      rw [h, chaptersOf_length, List.countP_eq_zero]
      intro line hline
      simp [hnone line hline]
    exact List.length_eq_zero.1 hlen

end utils

namespace prompt

/-- Claim C30.  For every text and every `max` that is not negative,
`snippet` returns the text unchanged when its length in bytes is at most
`max`, and otherwise the first `max` bytes of the text followed by the bytes
of `"\n... [truncated]"`; the slice expression does not panic, and the result
is at most `max + 16` bytes long. -/
theorem snippet_limits (text : List Nat) (max : Int) (hmax : 0 ≤ max) :
    ((text.length : Int) ≤ max → snippet text max = some text)
      ∧ (max < (text.length : Int) →
          snippet text max = some (text.take max.toNat ++ truncatedMark))
      ∧ ∃ r, snippet text max = some r ∧ (r.length : Int) ≤ max + 16 := by
  have hmark : truncatedMark.length = 16 := by decide
  refine ⟨?_, ?_, ?_⟩
  · intro h
    have : ¬ (text.length : Int) > max := by omega
    simp [snippet, this]
  · intro h
    simp [snippet, h, hmax]
  · by_cases h : (text.length : Int) > max
    · refine ⟨text.take max.toNat ++ truncatedMark, by simp [snippet, h, hmax], ?_⟩
      rw [List.length_append, hmark, List.length_take]
      have : ((min max.toNat text.length : Nat) : Int) ≤ max := by
        have h1 : (min max.toNat text.length : Nat) ≤ max.toNat := Nat.min_le_left _ _
        have h2 : ((max.toNat : Nat) : Int) = max := Int.toNat_of_nonneg hmax
        omega
      push_cast at this ⊢
      omega
    · refine ⟨text, by simp [snippet, h], ?_⟩
      omega

/-- Witness of C30: a text of five bytes cut to three. -/
theorem snippet_limits_witness :
    snippet [104, 101, 108, 108, 111] 3
      = some ([104, 101, 108, 108, 111].take (3 : Int).toNat ++ truncatedMark) :=
  (snippet_limits [104, 101, 108, 108, 111] 3 (by decide)).2.1 (by decide)

end prompt
